import Mathlib

/-!
# JCSDL parser (`jcsdl.parser.js`): encode / decode engine and its hash checks

A shallow embedding of `JCSDLParser.prototype` and of the JavaScript built-ins it calls.

Conventions of the embedding.

* A JavaScript string is the list of its code units (`Str`); `length` is the list length.
* A value that is "a string or `undefined`" (an array slot that may be missing) is an
  `Option Str`; a function that returns "a value or `false`" returns an `Option`, and one
  that can also be left by an uncaught `TypeError` returns an `Outcome`.
* `this.error` only reports to the GUI (`gui.showError`); it has no effect on the results and
  is left out.
* Numbers are exact: offsets and lengths are natural numbers, and the conversion of a string
  to a number keeps the exact decimal value (binary64 rounding is not modelled; it cannot be
  observed on offsets below 2^53).
* `Crypto.MD5` is the library's MD5 rendered as lowercase hex (RFC 1321 over the UTF-8 bytes
  of the message).
* `escapeCsdl` / `unescapeCsdl` (extensions of `String.prototype` defined outside this file)
  and the definition object `gui.definition` are parameters, gathered in `Env`. The maps of
  the definition are plain objects: a lookup finds the listed keys and the members inherited
  from `Object.prototype` (`property`).
-/

namespace JCSDLParser

/-- A JavaScript string, as the list of its code units. -/
abbrev Str := List Char

/-! ## JavaScript built-ins -/

/-- `s.split(sep)` for a one-character separator: never empty, `''.split(sep)` is `['']`. -/
def split (sep : Char) : Str → List Str
  | [] => [[]]
  | c :: cs =>
    if c = sep then [] :: split sep cs
    else
      match split sep cs with
      | [] => [[c]]
      | piece :: pieces => (c :: piece) :: pieces

/-- `xs.join(sep)` on an array of strings. -/
def join (sep : Str) : List Str → Str
  | [] => []
  | [x] => x
  | x :: y :: rest => x ++ sep ++ join sep (y :: rest)

/-- `s.replace(pat, rep)` for one-character strings `pat` and `rep`: only the first
occurrence is replaced. -/
def replace (pat rep : Char) : Str → Str
  | [] => []
  | c :: cs => if c = pat then rep :: cs else c :: replace pat rep cs

/-- `$.inArray(x, xs) >= 0`. -/
def inArray (x : Str) (xs : List Str) : Bool := xs.contains x

/-- String conversion of a slot that may be `undefined` (as done by `+` on strings). -/
def toStr : Option Str → Str
  | none => "undefined".toList
  | some s => s

/-- String conversion of a non-negative integer (`'' + n`): its decimal digits. -/
def numberToString (n : Nat) : Str := Nat.toDigits 10 n

/-- The result of converting a string to a number: `NaN`, an infinity, or the finite value
`± mantissa * 10 ^ exponent`. -/
inductive JsNumber where
  | nan : JsNumber
  | infinity (negative : Bool) : JsNumber
  | finite (negative : Bool) (mantissa : Nat) (exponent : Int) : JsNumber
deriving DecidableEq, Repr

/-- `StrWhiteSpaceChar`: white space and line terminators. -/
def isStrWhiteSpaceChar (c : Char) : Bool :=
  [9, 10, 11, 12, 13, 32, 160, 5760, 8232, 8233, 8239, 8287, 12288, 65279].contains c.toNat
    || (8192 ≤ c.toNat && c.toNat ≤ 8202)

/-- Removes leading and trailing `StrWhiteSpaceChar`s. -/
def trim (s : Str) : Str :=
  ((s.dropWhile isStrWhiteSpaceChar).reverse.dropWhile isStrWhiteSpaceChar).reverse

/-- Value of one digit character (decimal or hexadecimal), if it is one. -/
def digitValue (c : Char) : Option Nat :=
  if '0' ≤ c ∧ c ≤ '9' then some (c.toNat - 48)
  else if 'a' ≤ c ∧ c ≤ 'f' then some (c.toNat - 87)
  else if 'A' ≤ c ∧ c ≤ 'F' then some (c.toNat - 55)
  else none

/-- Whether `c` is a digit of the given base. -/
def isDigitOf (base : Nat) (c : Char) : Bool :=
  match digitValue c with
  | some v => decide (v < base)
  | none => false

/-- Value of a digit string read in the given base. -/
def digitsValue (base : Nat) (ds : Str) : Nat :=
  ds.foldl (fun n c => base * n + (digitValue c).getD 0) 0

/-- A non-empty string of digits of the given base, as a number. -/
def integerLiteral (base : Nat) (ds : Str) : JsNumber :=
  if ds ≠ [] ∧ ds.all (isDigitOf base) then .finite false (digitsValue base ds) 0 else .nan

/-- `ExponentPart` after its indicator: an optional sign and a non-empty digit string. -/
def signedInteger (s : Str) : Option Int :=
  let body (ds : Str) : Option Nat :=
    if ds ≠ [] ∧ ds.all (isDigitOf 10) then some (digitsValue 10 ds) else none
  match s with
  | '+' :: ds => (body ds).map Int.ofNat
  | '-' :: ds => (body ds).map (fun n => - Int.ofNat n)
  | ds => (body ds).map Int.ofNat

/-- `StrUnsignedDecimalLiteral`: `Infinity`, or digits with an optional fraction and an
optional exponent part (at least one digit before the exponent). -/
def unsignedDecimalLiteral (negative : Bool) (s : Str) : JsNumber :=
  if s = "Infinity".toList then .infinity negative
  else
    let intPart := s.takeWhile (isDigitOf 10)
    let afterInt := s.dropWhile (isDigitOf 10)
    let fracPart := match afterInt with
      | '.' :: t => t.takeWhile (isDigitOf 10)
      | _ => []
    let afterFrac := match afterInt with
      | '.' :: t => t.dropWhile (isDigitOf 10)
      | t => t
    if intPart = [] ∧ fracPart = [] then .nan
    else
      let mantissa := digitsValue 10 (intPart ++ fracPart)
      match afterFrac with
      | [] => .finite negative mantissa (- Int.ofNat fracPart.length)
      | e :: t =>
        if e = 'e' ∨ e = 'E' then
          match signedInteger t with
          | some x => .finite negative mantissa (x - Int.ofNat fracPart.length)
          | none => .nan
        else .nan

/-- `StringToNumber`: the numeric value of a string (`Number(s)`), `NaN` when the string is
not a `StringNumericLiteral`. The empty or all-blank string is `0`. -/
def stringToNumber (s : Str) : JsNumber :=
  match trim s with
  | [] => .finite false 0 0
  | '0' :: 'x' :: ds => integerLiteral 16 ds
  | '0' :: 'X' :: ds => integerLiteral 16 ds
  | '0' :: 'o' :: ds => integerLiteral 8 ds
  | '0' :: 'O' :: ds => integerLiteral 8 ds
  | '0' :: 'b' :: ds => integerLiteral 2 ds
  | '0' :: 'B' :: ds => integerLiteral 2 ds
  | '+' :: t => unsignedDecimalLiteral false t
  | '-' :: t => unsignedDecimalLiteral true t
  | t => unsignedDecimalLiteral false t

/-- The global `isNaN(value)` on a string value. -/
def isNaN (value : Str) : Bool := stringToNumber value = .nan

/-- An integer or an infinity, the result of `ToInteger`. -/
inductive JsInteger where
  | negInfinity : JsInteger
  | finite (i : Int) : JsInteger
  | posInfinity : JsInteger
deriving DecidableEq, Repr

/-- `ToInteger`: `NaN` becomes `0`, a finite number is truncated towards zero. -/
def toInteger : JsNumber → JsInteger
  | .nan => .finite 0
  | .infinity negative => if negative then .negInfinity else .posInfinity
  | .finite negative mantissa exponent =>
    let magnitude : Nat :=
      if 0 ≤ exponent then mantissa * 10 ^ exponent.toNat
      else mantissa / 10 ^ (- exponent).toNat
    .finite (if negative then - Int.ofNat magnitude else Int.ofNat magnitude)

/-- `s.substr(start, length)` after `ToInteger` of its arguments; `length` may be
`undefined` (up to the end). A negative start counts from the end. -/
def substr (s : Str) (start : JsInteger) (length : Option JsInteger) : Str :=
  let size := s.length
  let intStart : Nat :=
    match start with
    | .negInfinity => 0
    | .finite i => if i < 0 then (Int.ofNat size + i).toNat else min i.toNat size
    | .posInfinity => size
  let resultLength : Nat :=
    match length with
    | none => size
    | some .negInfinity => 0
    | some (.finite i) => i.toNat
    | some .posInfinity => size
  (s.drop intStart).take resultLength

/-- `s.substr(start, length)` with string arguments, as `filterFromJCSDL` calls it. -/
def substrOfStrings (s : Str) (start : Str) (length : Option Str) : Str :=
  substr s (toInteger (stringToNumber start)) (length.map (fun l => toInteger (stringToNumber l)))

/-! ## `Crypto.MD5` -/

/-- UTF-8 bytes of one character. -/
def utf8Bytes (c : Char) : List Nat :=
  let n := c.toNat
  if n < 128 then [n]
  else if n < 2048 then [192 + n / 64, 128 + n % 64]
  else if n < 65536 then [224 + n / 4096, 128 + n / 64 % 64, 128 + n % 64]
  else [240 + n / 262144, 128 + n / 4096 % 64, 128 + n / 64 % 64, 128 + n % 64]

/-- Per-round left-rotation amounts of MD5. -/
def md5Shifts : List Nat :=
  [7, 12, 17, 22, 7, 12, 17, 22, 7, 12, 17, 22, 7, 12, 17, 22,
   5, 9, 14, 20, 5, 9, 14, 20, 5, 9, 14, 20, 5, 9, 14, 20,
   4, 11, 16, 23, 4, 11, 16, 23, 4, 11, 16, 23, 4, 11, 16, 23,
   6, 10, 15, 21, 6, 10, 15, 21, 6, 10, 15, 21, 6, 10, 15, 21]

/-- Per-round additive constants of MD5 (`floor (2^32 * |sin (i + 1)|)`). -/
def md5Constants : List Nat :=
  [0xd76aa478, 0xe8c7b756, 0x242070db, 0xc1bdceee, 0xf57c0faf, 0x4787c62a, 0xa8304613,
   0xfd469501, 0x698098d8, 0x8b44f7af, 0xffff5bb1, 0x895cd7be, 0x6b901122, 0xfd987193,
   0xa679438e, 0x49b40821, 0xf61e2562, 0xc040b340, 0x265e5a51, 0xe9b6c7aa, 0xd62f105d,
   0x02441453, 0xd8a1e681, 0xe7d3fbc8, 0x21e1cde6, 0xc33707d6, 0xf4d50d87, 0x455a14ed,
   0xa9e3e905, 0xfcefa3f8, 0x676f02d9, 0x8d2a4c8a, 0xfffa3942, 0x8771f681, 0x6d9d6122,
   0xfde5380c, 0xa4beea44, 0x4bdecfa9, 0xf6bb4b60, 0xbebfbc70, 0x289b7ec6, 0xeaa127fa,
   0xd4ef3085, 0x04881d05, 0xd9d4d039, 0xe6db99e5, 0x1fa27cf8, 0xc4ac5665, 0xf4292244,
   0x432aff97, 0xab9423a7, 0xfc93a039, 0x655b59c3, 0x8f0ccc92, 0xffeff47d, 0x85845dd1,
   0x6fa87e4f, 0xfe2ce6e0, 0xa3014314, 0x4e0811a1, 0xf7537e82, 0xbd3af235, 0x2ad7d2bb,
   0xeb86d391]

/-- Reduction to a 32-bit word. -/
def word32 (n : Nat) : Nat := n % 4294967296

/-- Left rotation of a 32-bit word. -/
def rotateLeft (x c : Nat) : Nat := word32 (x <<< c) ||| (x >>> (32 - c))

/-- Bitwise complement of a 32-bit word. -/
def not32 (x : Nat) : Nat := x ^^^ 4294967295

/-- One of the 64 operations of MD5 on the state `(a, b, c, d)`, with the block's sixteen
message words `m`. -/
def md5Operation (m : List Nat) (state : Nat × Nat × Nat × Nat) (i : Nat) :
    Nat × Nat × Nat × Nat :=
  match state with
  | (a, b, c, d) =>
    let f :=
      if i < 16 then (b &&& c) ||| (not32 b &&& d)
      else if i < 32 then (d &&& b) ||| (not32 d &&& c)
      else if i < 48 then b ^^^ c ^^^ d
      else c ^^^ (b ||| not32 d)
    let g :=
      if i < 16 then i
      else if i < 32 then (5 * i + 1) % 16
      else if i < 48 then (3 * i + 5) % 16
      else (7 * i) % 16
    let sum := word32 (f + a + md5Constants.getD i 0 + m.getD g 0)
    (d, word32 (b + rotateLeft sum (md5Shifts.getD i 0)), b, c)

/-- Little-endian 32-bit word at the head of a byte list. -/
def wordOfBytes : List Nat → Nat
  | b0 :: b1 :: b2 :: b3 :: _ => b0 + 256 * b1 + 65536 * b2 + 16777216 * b3
  | _ => 0

/-- The first `n` little-endian words of a byte list. -/
def wordsOfBytes : Nat → List Nat → List Nat
  | 0, _ => []
  | n + 1, bytes => wordOfBytes bytes :: wordsOfBytes n (bytes.drop 4)

/-- Processes `n` consecutive 64-byte blocks. -/
def md5Blocks : Nat → List Nat → Nat × Nat × Nat × Nat → Nat × Nat × Nat × Nat
  | 0, _, state => state
  | n + 1, bytes, state =>
    match state, (List.range 64).foldl (md5Operation (wordsOfBytes 16 bytes)) state with
    | (a0, b0, c0, d0), (a, b, c, d) =>
      md5Blocks n (bytes.drop 64) (word32 (a0 + a), word32 (b0 + b), word32 (c0 + c), word32 (d0 + d))

/-- The `k` low bytes of `n`, least significant first. -/
def bytesOfNat (k n : Nat) : List Nat := (List.range k).map (fun i => (n >>> (8 * i)) % 256)

/-- MD5 padding: a `0x80` byte, zeros up to 56 modulo 64, and the bit length on 8 bytes. -/
def md5Pad (bytes : List Nat) : List Nat :=
  bytes ++ 128 :: List.replicate ((119 - bytes.length % 64) % 64) 0
    ++ bytesOfNat 8 (8 * bytes.length)

/-- The 16 digest bytes of MD5. -/
def md5Digest (bytes : List Nat) : List Nat :=
  match md5Blocks ((md5Pad bytes).length / 64) (md5Pad bytes)
      (0x67452301, 0xefcdab89, 0x98badcfe, 0x10325476) with
  | (a, b, c, d) => bytesOfNat 4 a ++ bytesOfNat 4 b ++ bytesOfNat 4 c ++ bytesOfNat 4 d

/-- `Crypto.util.bytesToHex`: two lowercase hex digits per byte. -/
def bytesToHex (bytes : List Nat) : Str :=
  bytes.flatMap (fun b => [Nat.digitChar (b / 16 % 16), Nat.digitChar (b % 16)])

/-- `Crypto.MD5(message)` on a string: the hex rendering of the MD5 digest. -/
def Crypto.MD5 (message : Str) : Str := bytesToHex (md5Digest (message.flatMap utf8Bytes))

/-! ## Data model -/

/-- A filter object, as `createFilter` builds it. -/
structure Filter where
  target : Str
  fieldPath : List Str
  operator : Str
  value : Str
  cs : Bool
deriving DecidableEq, Repr

/-- A value found in the maps of `gui.definition.targets`: a target or field definition,
with its `type` and, when it has sub-fields, its `fields` map; or `inherited`, a member that
every plain object inherits from `Object.prototype` (a function, or the prototype itself),
which has neither `type` nor `fields`. -/
inductive FieldInfo where
  | mk (type : Str) (fields : Option (List (Str × FieldInfo))) : FieldInfo
  | inherited : FieldInfo

/-- The `type` of a value found, the empty text when it has none (the parser only compares
it with `int`, `string` and `geo`). -/
def FieldInfo.type : FieldInfo → Str
  | .mk type _ => type
  | .inherited => []

/-- The `fields` map of a value found (`none` when `undefined`). -/
def FieldInfo.fields : FieldInfo → Option (List (Str × FieldInfo))
  | .mk _ fields => fields
  | .inherited => none

/-- The property names that every plain object inherits from `Object.prototype`. -/
def inheritedNames : List Str :=
  ["constructor".toList, "toString".toList, "toLocaleString".toList, "valueOf".toList,
   "hasOwnProperty".toList, "isPrototypeOf".toList, "propertyIsEnumerable".toList,
   "__proto__".toList, "__defineGetter__".toList, "__defineSetter__".toList,
   "__lookupGetter__".toList, "__lookupSetter__".toList]

/-- `object[name]` on a plain object with the listed own keys: the listed value; failing
that, for an inherited name, the inherited member (given as `inherited`); `undefined`
(`none`) otherwise. -/
def property {α : Type} (inherited : α) (object : List (Str × α)) (name : Str) : Option α :=
  match object.lookup name with
  | some value => some value
  | none => if inheritedNames.contains name then some inherited else none

/-- The object `gui.definition`: the own keys of its `targets` map and, for `operators`,
the own keys with the `code` of each operator. -/
structure Definition where
  targets : List (Str × FieldInfo)
  operators : List (Str × Str)

/-- What the parser gets from outside: the definition and the two string extensions. -/
structure Env where
  definition : Definition
  escapeCsdl : Str → Bool → Str
  unescapeCsdl : Str → Bool → Str

/-- How a call ends: by an uncaught `TypeError`, by returning `false`, or by returning a
proper value. -/
inductive Outcome (α : Type) where
  | threw : Outcome α
  | retFalse : Outcome α
  | ret (value : α) : Outcome α
deriving DecidableEq, Repr

/-- The object returned by `parseJCSDL`: `filters` (an entry is `none` where
`filterFromJCSDL` returned `false`) and `logic` (`none` when `undefined`). -/
structure Parsed where
  filters : List (Option Filter)
  logic : Option Str
deriving DecidableEq, Repr

/-! ## Helpers of the parser -/

/-- `encodeJCSDL(output, logic)`: the hash of `logic + "\n" + output`; an `undefined`
logic enters the concatenation as the text `undefined`. -/
def encodeJCSDL (output : Str) (logic : Option Str) : Str :=
  Crypto.MD5 (toStr logic ++ "\n".toList ++ output)

/-- `verifyJCSDL(masterLine, lines)`: the third token of the master line against the hash
recomputed from the fourth token and the joined lines. A missing third token is `undefined`
and equals no hash. -/
def verifyJCSDL (masterLine : Str) (lines : List Str) : Bool :=
  let input := join "\n".toList lines
  let masterInfo := split ' ' masterLine
  let logic := masterInfo[3]?
  let hash := masterInfo[2]?
  let jcsdlHash := encodeJCSDL input logic
  hash = some jcsdlHash

/-- `encodeJCSDLFilter(csdl)`. -/
def encodeJCSDLFilter (csdl : Str) : Str := Crypto.MD5 csdl

/-- `verifyJCSDLFilter(hash, csdl)`, `hash` being a slot that may be `undefined`. -/
def verifyJCSDLFilter (hash : Option Str) (csdl : Str) : Bool :=
  let csdlHash := encodeJCSDLFilter csdl
  hash = some csdlHash

/-- `fieldToCSDL(fieldPath)`. -/
def fieldToCSDL (fieldPath : List Str) : Str := join ".".toList fieldPath

/-- Whether `operator` is one of the two regular-expression operators. -/
def escapeRegEx (operator : Str) : Bool :=
  inArray operator ["regex_partial".toList, "regex_exact".toList]

/-- `valueToCSDL(value, fieldInfo, operator)`; `none` is the returned `false`. -/
def valueToCSDL (env : Env) (value : Str) (fieldInfo : FieldInfo) (operator : Str) :
    Option Str :=
  if fieldInfo.type = "int".toList then
    if operator ≠ "in".toList ∧ isNaN value then none
    else if operator = "in".toList then
      some ("[".toList ++ join ",".toList (split ',' value) ++ "]".toList)
    else some value
  else some ("\"".toList ++ env.escapeCsdl value (escapeRegEx operator) ++ "\"".toList)

/-- `valueFromCSDL(fieldInfo, value, operator)`. -/
def valueFromCSDL (env : Env) (fieldInfo : FieldInfo) (value : Str) (operator : Str) : Str :=
  if fieldInfo.type = "int".toList then
    if operator = "in".toList then
      substr value (.finite 1) (some (.finite (Int.ofNat value.length - 2)))
    else value
  else env.unescapeCsdl value (escapeRegEx operator)

/-- `createFilter(target, fieldPath, operator, value, additional)`. -/
def createFilter (target : Str) (fieldPath : List Str) (operator : Str) (value : Str)
    (cs : Bool) : Filter :=
  { target := target, fieldPath := fieldPath, operator := operator, value := value, cs := cs }

/-- `getOperatorCode(operatorName)`: `operators[operatorName].code`; `none` stands for the
`TypeError` raised when `operators[operatorName]` is `undefined`. For a name inherited from
`Object.prototype` the member exists and has no `code`: the result is `undefined`, given
here as the text `undefined` that the concatenation in `filterToCSDL` makes of it. -/
def getOperatorCode (env : Env) (operatorName : Str) : Option Str :=
  property "undefined".toList env.definition.operators operatorName

/-- The `$.each` of `getFieldInfo`: descends from `field` along the path, `none` (the
returned `false`) at the first name for which the current value has no `fields` or
`fields[fieldName]` is `undefined`. -/
def descend : FieldInfo → List Str → Option FieldInfo
  | field, [] => some field
  | field, fieldName :: rest =>
    match field.fields with
    | some fields =>
      match property .inherited fields fieldName with
      | some next => descend next rest
      | none => none
    | none => none

/-- `getFieldInfo(target, fieldPath)`; `none` is the returned `false`. The test is
`typeof targets[target] == 'undefined'`, which an inherited member passes. -/
def getFieldInfo (env : Env) (target : Str) (fieldPath : List Str) : Option FieldInfo :=
  match property .inherited env.definition.targets target with
  | none => none
  | some field => descend field fieldPath

/-! ## Loading JCSDL -/

/-- `filterFromJCSDL(jcsdlCode, csdl)`, `jcsdlCode` being a slot that may be `undefined`.
Calling `split` on a missing slot raises the `TypeError`. -/
def filterFromJCSDL (env : Env) (jcsdlCode : Option Str) (csdl : Str) : Outcome Filter :=
  match jcsdlCode with
  | none => .threw
  | some jcsdlCode =>
    match split ',' jcsdlCode with
    | [] => .threw
    | path :: jcsdlCode =>
      match split '.' path with
      | [] => .threw
      | target :: fieldPath =>
        match getFieldInfo env target fieldPath with
        | none => .retFalse
        | some fieldInfo =>
          match jcsdlCode with
          | [] => .threw
          | operator :: jcsdlCode =>
            if operator ≠ "exists".toList then
              match jcsdlCode with
              | [] => .threw
              | rangeCode :: jcsdlCode =>
                let range := split '-' rangeCode
                let value := valueFromCSDL env fieldInfo
                  (substrOfStrings csdl (range.headD []) (range[1]?)) operator
                .ret (createFilter target fieldPath operator value
                  (jcsdlCode.contains "cs".toList))
            else .ret (createFilter target fieldPath operator [] false)

/-- One round of the loop of `parseJCSDL` on the description line and the CSDL line of a
group: checks the filter hash, decodes the filter and pushes it. -/
def parseGroup (env : Env) (jcsdlDescription csdl : Str) (filters : List (Option Filter)) :
    Outcome (List (Option Filter)) :=
  let description := split ' ' jcsdlDescription
  let jcsdlHash := description[2]?
  let jcsdlCode := description[3]?
  if ¬ verifyJCSDLFilter jcsdlHash csdl then .retFalse
  else
    match filterFromJCSDL env jcsdlCode csdl with
    | .threw => .threw
    | .retFalse => .ret (filters ++ [none])
    | .ret filter => .ret (filters ++ [some filter])

/-- The `while (lines.length > 0)` loop of `parseJCSDL`: four `shift`s per round. A round
that finds a description line only hashes an `undefined` CSDL, which raises. -/
def parseLines (env : Env) : List Str → List (Option Filter) → Outcome (List (Option Filter))
  | [], filters => .ret filters
  | [_], _ => .threw
  | [jcsdlDescription, csdl], filters => parseGroup env jcsdlDescription csdl filters
  | [jcsdlDescription, csdl, _], filters => parseGroup env jcsdlDescription csdl filters
  | jcsdlDescription :: csdl :: _ :: _ :: lines, filters =>
    match parseGroup env jcsdlDescription csdl filters with
    | .ret filters => parseLines env lines filters
    | .retFalse => .retFalse
    | .threw => .threw

/-- `parseJCSDL(code)`. With a single line there is no master line and `verifyJCSDL`
raises on it. -/
def parseJCSDL (env : Env) (code : Str) : Outcome Parsed :=
  match (split '\n' code).drop 1 with
  | [] => .threw
  | masterLine :: lines =>
    let lines := lines.dropLast
    if ¬ verifyJCSDL masterLine lines then .retFalse
    else
      let logic := (split ' ' masterLine)[3]?
      match parseLines env lines [] with
      | .ret filters => .ret { filters := filters, logic := logic }
      | .retFalse => .retFalse
      | .threw => .threw

/-! ## Outputting CSDL -/

/-- The version tag `v`. -/
def v : Str := "1.0".toList

/-- The local variables of `filterToCSDL` when it reaches its `return`: the CSDL fragment,
the JCSDL syntax descriptor and, unless the operator is `exists`, the recorded
`valueStart` and `valueLength`. -/
structure FilterCode where
  csdl : Str
  jcsdlSyntax : Str
  range : Option (Nat × Nat)
deriving DecidableEq, Repr

/-- The body of `filterToCSDL` up to the computation of the hash. A missing operator raises
in `getOperatorCode`. In the quoted branch `value` has length at least two, so the
subtraction is exact. -/
def filterToCSDLCode (env : Env) (filter : Filter) : Outcome FilterCode :=
  match getFieldInfo env filter.target filter.fieldPath with
  | none => .retFalse
  | some fieldInfo =>
    match valueToCSDL env filter.value fieldInfo filter.operator with
    | none => .retFalse
    | some value =>
      let field := fieldToCSDL filter.fieldPath
      match getOperatorCode env filter.operator with
      | none => .threw
      | some operatorCode =>
        let cs : Str := if filter.cs then " cs".toList else []
        let csdl := filter.target ++ ".".toList ++ replace '-' '.' field ++ cs ++ " ".toList
          ++ operatorCode ++ " ".toList
        let jcsdlSyntax := filter.target ++ ".".toList ++ field ++ ",".toList ++ filter.operator
        if filter.operator ≠ "exists".toList then
          let quoted := fieldInfo.type = "string".toList ∨ fieldInfo.type = "geo".toList
          let valueStart := if quoted then csdl.length + 1 else csdl.length
          let valueLength := if quoted then value.length - 2 else value.length
          .ret
            { csdl := csdl ++ value
              jcsdlSyntax := jcsdlSyntax ++ ",".toList ++ numberToString valueStart
                ++ "-".toList ++ numberToString valueLength
                ++ (if filter.cs then ",cs".toList else [])
              range := some (valueStart, valueLength) }
        else .ret { csdl := csdl, jcsdlSyntax := jcsdlSyntax, range := none }

/-- The three lines that `filterToCSDL` returns for the fragment and descriptor computed. -/
def FilterCode.render (code : FilterCode) : Str :=
  let hash := encodeJCSDLFilter code.csdl
  let jcsdl_start := "// JCSDL_START ".toList ++ hash ++ " ".toList ++ code.jcsdlSyntax
  let jcsdl_end := "// JCSDL_END".toList
  jcsdl_start ++ "\n".toList ++ code.csdl ++ "\n".toList ++ jcsdl_end

/-- `filterToCSDL(filter)`. -/
def filterToCSDL (env : Env) (filter : Filter) : Outcome Str :=
  match filterToCSDLCode env filter with
  | .ret code => .ret code.render
  | .retFalse => .retFalse
  | .threw => .threw

/-- The `$.each` of `getJCSDLForFilters`: pushes the code of every filter that
`filterToCSDL` translates, skips those for which it returns `false`. -/
def eachFilter (env : Env) : List Filter → List Str → Outcome (List Str)
  | [], filterCodes => .ret filterCodes
  | filter :: filters, filterCodes =>
    match filterToCSDL env filter with
    | .threw => .threw
    | .retFalse => eachFilter env filters filterCodes
    | .ret parsedFilter => eachFilter env filters (filterCodes ++ [parsedFilter])

/-- The logic that `getJCSDLForFilters` works with: its argument when that is `AND` or
`OR`, and `AND` otherwise (also when it is `undefined` or empty). -/
def validLogic (logic : Option Str) : Str :=
  let logic := match logic with
    | none => "AND".toList
    | some l => if l = [] then "AND".toList else l
  if logic = "AND".toList ∨ logic = "OR".toList then logic else "AND".toList

/-- `getJCSDLForFilters(filters, logic)`. -/
def getJCSDLForFilters (env : Env) (filters : List Filter) (logic : Option Str) :
    Outcome Str :=
  let logic := validLogic logic
  match eachFilter env filters [] with
  | .threw => .threw
  | .retFalse => .retFalse
  | .ret filterCodes =>
    let output := join ("\n".toList ++ logic ++ "\n".toList) filterCodes
    let hash := encodeJCSDL output (some logic)
    .ret ("// JCSDL_VERSION ".toList ++ v ++ "\n".toList ++ "// JCSDL_MASTER ".toList ++ hash
      ++ " ".toList ++ logic ++ "\n".toList ++ output ++ "\n// JCSDL_MASTER_END".toList)

/-! ## Auxiliary notions and sample data -/

/-- The characters of a hex rendering. -/
def isHexChar (c : Char) : Bool := "0123456789abcdef".toList.contains c

/-- A sample `escapeCsdl`: a line break becomes a backslash and `n`, and a backslash goes
before every double quote and every backslash. -/
def sampleEscape : Str → Str
  | [] => []
  | c :: cs =>
    if c = '\n' then Char.ofNat 92 :: 'n' :: sampleEscape cs
    else if c = Char.ofNat 34 ∨ c = Char.ofNat 92 then Char.ofNat 92 :: c :: sampleEscape cs
    else c :: sampleEscape cs

/-- A sample `unescapeCsdl`: reads back what `sampleEscape` writes. -/
def sampleUnescape : Str → Str
  | [] => []
  | [c] => [c]
  | c :: d :: cs =>
    if c = Char.ofNat 92 then (if d = 'n' then '\n' else d) :: sampleUnescape cs
    else c :: sampleUnescape (d :: cs)

/-- A small definition in the style of the editor's: one target with nested fields. -/
def sampleDefinition : Definition where
  targets :=
    [("twitter".toList, .mk [] (some
      [("text".toList, .mk "string".toList none),
       ("geo".toList, .mk "geo".toList none),
       ("user".toList, .mk [] (some
         [("id".toList, .mk "int".toList none),
          ("name".toList, .mk "string".toList none)]))]))]
  operators :=
    [("exists".toList, "exists".toList), ("equals".toList, "==".toList),
     ("in".toList, "in".toList), ("contains".toList, "contains".toList),
     ("greaterThan".toList, ">".toList), ("regex_partial".toList, "regex_partial".toList)]

/-- The sample environment. -/
def sampleEnv : Env where
  definition := sampleDefinition
  escapeCsdl := fun s _ => sampleEscape s
  unescapeCsdl := fun s _ => sampleUnescape s

/-- A sample filter on a string field, case sensitive, with quotes in its value. -/
def textFilter : Filter :=
  { target := "twitter".toList, fieldPath := ["text".toList], operator := "contains".toList,
    value := "say \"hi\"".toList, cs := true }

/-- A sample filter on an integer field with the operator `in`. -/
def idInFilter : Filter :=
  { target := "twitter".toList, fieldPath := ["user".toList, "id".toList],
    operator := "in".toList, value := "3,7,12".toList, cs := false }

/-- A sample filter with the operator `exists`. -/
def idExistsFilter : Filter :=
  { target := "twitter".toList, fieldPath := ["user".toList, "id".toList],
    operator := "exists".toList, value := [], cs := false }

/-- A sample filter on an integer field with a comparison. -/
def idGreaterFilter : Filter :=
  { target := "twitter".toList, fieldPath := ["user".toList, "id".toList],
    operator := "greaterThan".toList, value := "42".toList, cs := false }

/-- A document whose fragment was edited (`HI` for `hi`) after it was hashed: the master
hash no longer matches the body. -/
def editedDocument : Str :=
  ("// JCSDL_VERSION 1.0\n" ++
   "// JCSDL_MASTER d7be82d7208f489e67f51b434689408f AND\n" ++
   "// JCSDL_START d66a04855d15b3622cc1bae5b123dddd twitter.text,contains,26-10,cs\n" ++
   "twitter.text cs contains \"say \\\"HI\\\"\"\n" ++
   "// JCSDL_END\n" ++
   "// JCSDL_MASTER_END").toList

/-- The local variables of `filterToCSDL` on `textFilter`. -/
def textFilterCode : FilterCode :=
  { csdl := "twitter.text cs contains \"say \\\"hi\\\"\"".toList,
    jcsdlSyntax := "twitter.text,contains,26-10,cs".toList,
    range := some (26, 10) }

/-- The local variables of `filterToCSDL` on `idExistsFilter`. -/
def idExistsFilterCode : FilterCode :=
  { csdl := "twitter.user.id exists ".toList,
    jcsdlSyntax := "twitter.user.id,exists".toList,
    range := none }

/-- A document whose hashes all verify except that of the second filter, whose fragment was
edited (`B` for `b`); the start line of the first filter has no descriptor. -/
def noDescriptorDocument : Str :=
  ("// JCSDL_VERSION 1.0\n" ++
   "// JCSDL_MASTER b952e090e6bd6cf94071dab643a65936 AND\n" ++
   "// JCSDL_START c4512bc909bf3ed0db97489ddc109f5c\n" ++
   "twitter.text contains \"a\"\n" ++
   "// JCSDL_END\n" ++
   "AND\n" ++
   "// JCSDL_START 9b017845dbbf5357edccfa1558edb49f twitter.text,contains,23-1\n" ++
   "twitter.text contains \"B\"\n" ++
   "// JCSDL_END\n" ++
   "// JCSDL_MASTER_END").toList

/-- A document whose hashes all verify and whose second filter names the field
`twitter.user.age`, which the sample definition does not have. -/
def unknownFieldDocument : Str :=
  ("// JCSDL_VERSION 1.0\n" ++
   "// JCSDL_MASTER 5fefcf531b93309fdd4af35bfe5429ba AND\n" ++
   "// JCSDL_START 60e902347a07b638cc0261a10b001869 twitter.user.id,greaterThan,18-2\n" ++
   "twitter.user.id > 42\n" ++
   "// JCSDL_END\n" ++
   "AND\n" ++
   "// JCSDL_START 971f9629b727b55aa43777091899d010 twitter.user.age,greaterThan,19-2\n" ++
   "twitter.user.age > 18\n" ++
   "// JCSDL_END\n" ++
   "// JCSDL_MASTER_END").toList

/-- A document whose hashes all verify and whose master line carries the logic `XOR`. -/
def xorDocument : Str :=
  ("// JCSDL_VERSION 1.0\n" ++
   "// JCSDL_MASTER e47ab640fd44ca565289d72903152a8b XOR\n" ++
   "// JCSDL_START 60e902347a07b638cc0261a10b001869 twitter.user.id,greaterThan,18-2\n" ++
   "twitter.user.id > 42\n" ++
   "// JCSDL_END\n" ++
   "// JCSDL_MASTER_END").toList

/-- A document whose hashes all verify and whose master line carries no logic token. -/
def noLogicDocument : Str :=
  ("// JCSDL_VERSION 1.0\n" ++
   "// JCSDL_MASTER c7e955c95cdcd26cc6eeb107c79f86c6\n" ++
   "// JCSDL_START 60e902347a07b638cc0261a10b001869 twitter.user.id,greaterThan,18-2\n" ++
   "twitter.user.id > 42\n" ++
   "// JCSDL_END\n" ++
   "// JCSDL_MASTER_END").toList

/-- A document whose master hash verifies and whose second filter was edited (`B` for `b`)
without its own hash being updated; the first filter is intact. -/
def staleFilterHashDocument : Str :=
  ("// JCSDL_VERSION 1.0\n" ++
   "// JCSDL_MASTER ca38389e692aed781194e2c157fe94be AND\n" ++
   "// JCSDL_START 60e902347a07b638cc0261a10b001869 twitter.user.id,greaterThan,18-2\n" ++
   "twitter.user.id > 42\n" ++
   "// JCSDL_END\n" ++
   "AND\n" ++
   "// JCSDL_START 9b017845dbbf5357edccfa1558edb49f twitter.text,contains,23-1\n" ++
   "twitter.text contains \"B\"\n" ++
   "// JCSDL_END\n" ++
   "// JCSDL_MASTER_END").toList

/-! ## Notions used to state the round trip -/

/-- A name free of space, comma, dot and line break. -/
def CleanName (name : Str) : Prop := ' ' ∉ name ∧ ',' ∉ name ∧ '.' ∉ name ∧ '\n' ∉ name

/-- What the round trip asks of one filter: a non-empty field path that resolves to a field
of type `int`, `string` or `geo`; a known operator; names free of space, comma, dot and line
break; a value without line breaks, numeric when the field is `int` and the operator is not
`in`; the empty value and no `cs` flag when the operator is `exists`. -/
structure RoundTripFilter (env : Env) (filter : Filter) : Prop where
  path : filter.fieldPath ≠ []
  field : ∃ fieldInfo, getFieldInfo env filter.target filter.fieldPath = some fieldInfo ∧
    (fieldInfo.type = "int".toList ∨ fieldInfo.type = "string".toList
      ∨ fieldInfo.type = "geo".toList) ∧
    (fieldInfo.type = "int".toList → filter.operator ≠ "in".toList → isNaN filter.value = false)
  operator : ∃ operatorCode, getOperatorCode env filter.operator = some operatorCode
  target_clean : CleanName filter.target
  path_clean : ∀ name ∈ filter.fieldPath, CleanName name
  operator_clean : CleanName filter.operator
  value_line : '\n' ∉ filter.value
  exists_value : filter.operator = "exists".toList → filter.value = [] ∧ filter.cs = false

/-- The start line that `filterToCSDL` writes for the given locals. -/
def startLine (code : FilterCode) : Str :=
  "// JCSDL_START ".toList ++ encodeJCSDLFilter code.csdl ++ " ".toList ++ code.jcsdlSyntax

/-- The lines of a body made of the given filter codes, with `logic` lines between them. -/
def bodyLines (logic : Str) : List FilterCode → List Str
  | [] => []
  | [code] => [startLine code, code.csdl, "// JCSDL_END".toList]
  | code :: next :: rest =>
    startLine code :: code.csdl :: "// JCSDL_END".toList :: logic
      :: bodyLines logic (next :: rest)

/-- The sample environment with one more operator, whose code holds a line break. -/
def lineBreakEnv : Env where
  definition :=
    { targets := sampleDefinition.targets
      operators := ("same".toList, "==\n".toList) :: sampleDefinition.operators }
  escapeCsdl := fun s _ => sampleEscape s
  unescapeCsdl := fun s _ => sampleUnescape s

/-- A filter on `twitter.text` that uses the operator of `lineBreakEnv`. -/
def lineBreakFilter : Filter :=
  { target := "twitter".toList, fieldPath := ["text".toList], operator := "same".toList,
    value := "hi".toList, cs := false }

/-- The four sample filters. -/
def sampleFilters : List Filter := [textFilter, idInFilter, idExistsFilter, idGreaterFilter]

/-- What `getJCSDLForFilters` returns for `lineBreakFilter` in `lineBreakEnv`: the fragment
spreads over two lines. -/
def lineBreakDocument : Str :=
  ("// JCSDL_VERSION 1.0\n" ++
   "// JCSDL_MASTER d7d401dead083017e3454b5670620724 AND\n" ++
   "// JCSDL_START 4e12f08c01d9ccd2584647ee42da02ba twitter.text,same,18-2\n" ++
   "twitter.text ==\n" ++
   " \"hi\"\n" ++
   "// JCSDL_END\n" ++
   "// JCSDL_MASTER_END").toList

/-- What `getJCSDLForFilters` returns for `sampleFilters` with the logic `OR`. -/
def sampleDocument : Str :=
  ("// JCSDL_VERSION 1.0\n" ++
   "// JCSDL_MASTER 610f6eaf199d6e12282c5d4d03c60bd1 OR\n" ++
   "// JCSDL_START d66a04855d15b3622cc1bae5b123dddd twitter.text,contains,26-10,cs\n" ++
   "twitter.text cs contains \"say \\\"hi\\\"\"\n" ++
   "// JCSDL_END\n" ++
   "OR\n" ++
   "// JCSDL_START d0871095b4b1cc7964b64cb731d747eb twitter.user.id,in,19-8\n" ++
   "twitter.user.id in [3,7,12]\n" ++
   "// JCSDL_END\n" ++
   "OR\n" ++
   "// JCSDL_START a95c1b97f2ebb59968c876d809bc3974 twitter.user.id,exists\n" ++
   "twitter.user.id exists \n" ++
   "// JCSDL_END\n" ++
   "OR\n" ++
   "// JCSDL_START 60e902347a07b638cc0261a10b001869 twitter.user.id,greaterThan,18-2\n" ++
   "twitter.user.id > 42\n" ++
   "// JCSDL_END\n" ++
   "// JCSDL_MASTER_END").toList

/-! ## Notions and sample data for the encoder, the resolver and malformed input -/

/-- The logic as the specification words it: the argument when it is `AND` or `OR`, and
`AND` otherwise (absent, empty or any other string). -/
def normalLogic (logic : Option Str) : Str :=
  if logic = some "AND".toList then "AND".toList
  else if logic = some "OR".toList then "OR".toList
  else "AND".toList

/-- The block of a filter when `filterToCSDL` returns one, `none` when it returns `false`
or raises. -/
def encodedBlock (env : Env) (filter : Filter) : Option Str :=
  match filterToCSDL env filter with
  | .ret block => some block
  | _ => none

/-- One step of the descent as the specification words it: the entry for `fieldName` in
the `fields` map of the current definition; no result when the definition carries no
`fields` map or the map has no such entry. -/
def stepInto (field : FieldInfo) (fieldName : Str) : Option FieldInfo :=
  match field.fields with
  | none => none
  | some fields => fields.lookup fieldName

/-- Schema resolution as the specification words it: the target's definition, then one
`stepInto` per segment of the path, left to right, stopping at the first that fails. -/
def resolvePath (definition : Definition) (target : Str) (fieldPath : List Str) :
    Option FieldInfo :=
  match definition.targets.lookup target with
  | none => none
  | some field => fieldPath.foldlM stepInto field

/-- A filter on `twitter.text` with an operator that the sample definition does not have. -/
def unknownOperatorFilter : Filter :=
  { target := "twitter".toList, fieldPath := ["text".toList], operator := "near".toList,
    value := "x".toList, cs := false }

/-- A definition with a target that is itself a field (type `string`, no sub-fields), a
field of type `float`, and a field whose name holds dashes. -/
def otherDefinition : Definition where
  targets :=
    [("link".toList, .mk "string".toList none),
     ("klout".toList, .mk [] (some
       [("score".toList, .mk "float".toList none),
        ("top-topics-list".toList, .mk "string".toList none)]))]
  operators := sampleDefinition.operators

/-- The environment of `otherDefinition`, with the sample escape functions. -/
def otherEnv : Env where
  definition := otherDefinition
  escapeCsdl := fun s _ => sampleEscape s
  unescapeCsdl := fun s _ => sampleUnescape s

/-- A filter on the target `link` itself: its field path is empty. -/
def targetFilter : Filter :=
  { target := "link".toList, fieldPath := [], operator := "equals".toList,
    value := "x".toList, cs := false }

/-- A filter on the field `klout.score`, of type `float`. -/
def floatFilter : Filter :=
  { target := "klout".toList, fieldPath := ["score".toList], operator := "equals".toList,
    value := "1.5".toList, cs := false }

/-- A filter on the field `klout.top-topics-list`, whose name holds two dashes. -/
def dashFilter : Filter :=
  { target := "klout".toList, fieldPath := ["top-topics-list".toList],
    operator := "contains".toList, value := "x".toList, cs := false }

/-- What `getJCSDLForFilters` returns for `idGreaterFilter` with the logic argument `XOR`. -/
def normalisedDocument : Str :=
  ("// JCSDL_VERSION 1.0\n" ++
   "// JCSDL_MASTER 48964c8d539805349f068f2195892aed AND\n" ++
   "// JCSDL_START 60e902347a07b638cc0261a10b001869 twitter.user.id,greaterThan,18-2\n" ++
   "twitter.user.id > 42\n" ++
   "// JCSDL_END\n" ++
   "// JCSDL_MASTER_END").toList

/-- A document whose hashes all verify and whose body has a fourth line, `AND`, after the
end marker of its only filter. -/
def extraLineDocument : Str :=
  ("// JCSDL_VERSION 1.0\n" ++
   "// JCSDL_MASTER 67e66eb22ac24176eabd9a55791da89f AND\n" ++
   "// JCSDL_START 60e902347a07b638cc0261a10b001869 twitter.user.id,greaterThan,18-2\n" ++
   "twitter.user.id > 42\n" ++
   "// JCSDL_END\n" ++
   "AND\n" ++
   "// JCSDL_MASTER_END").toList

/-- A document whose hashes all verify and whose only filter has no end marker line. -/
def noEndMarkerDocument : Str :=
  ("// JCSDL_VERSION 1.0\n" ++
   "// JCSDL_MASTER b101a8d96051fb0380fde2d868f9f0b7 AND\n" ++
   "// JCSDL_START 60e902347a07b638cc0261a10b001869 twitter.user.id,greaterThan,18-2\n" ++
   "twitter.user.id > 42\n" ++
   "// JCSDL_MASTER_END").toList

/-- A document whose master hash verifies and whose body ends with a start line that no
fragment follows. -/
def loneStartDocument : Str :=
  ("// JCSDL_VERSION 1.0\n" ++
   "// JCSDL_MASTER 5c51584daf957782939eae93936873ae AND\n" ++
   "// JCSDL_START 60e902347a07b638cc0261a10b001869 twitter.user.id,greaterThan,18-2\n" ++
   "twitter.user.id > 42\n" ++
   "// JCSDL_END\n" ++
   "AND\n" ++
   "// JCSDL_START 60e902347a07b638cc0261a10b001869 twitter.user.id,greaterThan,18-2\n" ++
   "// JCSDL_MASTER_END").toList

/-- What `getJCSDLForFilters` returns for the empty list of filters: the body is one
empty line. -/
def emptyDocument : Str :=
  ("// JCSDL_VERSION 1.0\n" ++
   "// JCSDL_MASTER 19bf32b8725ec794d434280902d78e18 AND\n" ++
   "\n" ++
   "// JCSDL_MASTER_END").toList

/-- The document `normalisedDocument` with another first line and another last line. -/
def reframedDocument : Str :=
  ("// some other header\n" ++
   "// JCSDL_MASTER 48964c8d539805349f068f2195892aed AND\n" ++
   "// JCSDL_START 60e902347a07b638cc0261a10b001869 twitter.user.id,greaterThan,18-2\n" ++
   "twitter.user.id > 42\n" ++
   "// JCSDL_END\n" ++
   "").toList

/-- The characters that can occur in a numeric literal read by `stringToNumber`, blanks
apart: digits, hex digits, the radix letters, signs, the dot, and the letters of
`Infinity`. -/
def isNumericChar (c : Char) : Bool :=
  "0123456789abcdefABCDEFxXoO+-.Infinity".toList.contains c

/-! ## Lemmas on the built-ins -/

theorem split_ne_nil (sep : Char) (s : Str) : split sep s ≠ [] := by
  induction s with
  | nil => simp [split]
  | cons c cs ih =>
    unfold split
    split
    · simp
    · split <;> simp

theorem split_cons_sep (sep : Char) (s : Str) : split sep (sep :: s) = [] :: split sep s := by
  simp [split]

theorem split_cons_of_ne {sep c : Char} (h : c ≠ sep) (s : Str) :
    split sep (c :: s) = (c :: (split sep s).headD []) :: (split sep s).tail := by
  have hne := split_ne_nil sep s
  rw [split, if_neg h]
  cases hs : split sep s with
  | nil => exact absurd hs hne
  | cons p ps => simp

theorem split_eq_singleton {sep : Char} {s : Str} (h : sep ∉ s) : split sep s = [s] := by
  induction s with
  | nil => simp [split]
  | cons c cs ih =>
    have hc : c ≠ sep := fun e => h (by simp [e])
    have hcs : sep ∉ cs := fun e => h (by simp [e])
    rw [split_cons_of_ne hc, ih hcs]; simp

theorem split_append_sep (sep : Char) (a b : Str) :
    split sep (a ++ sep :: b) = split sep a ++ split sep b := by
  induction a with
  | nil => simp [split]
  | cons c cs ih =>
    by_cases hc : c = sep
    · subst hc
      simp [split_cons_sep, ih]
    · rw [List.cons_append, split_cons_of_ne hc, split_cons_of_ne hc, ih]
      cases hs : split sep cs with
      | nil => exact absurd hs (split_ne_nil sep cs)
      | cons p ps => simp

theorem split_append_sep_of_not_mem {sep : Char} {a : Str} (h : sep ∉ a) (b : Str) :
    split sep (a ++ sep :: b) = a :: split sep b := by
  rw [split_append_sep, split_eq_singleton h]; simp

theorem join_cons_cons (sep x y : Str) (rest : List Str) :
    join sep (x :: y :: rest) = x ++ sep ++ join sep (y :: rest) := rfl

theorem join_cons_of_ne_nil (sep x : Str) {rest : List Str} (h : rest ≠ []) :
    join sep (x :: rest) = x ++ sep ++ join sep rest := by
  cases rest with
  | nil => exact absurd rfl h
  | cons y ys => rfl

theorem join_split (sep : Char) (s : Str) : join [sep] (split sep s) = s := by
  induction s with
  | nil => simp [split, join]
  | cons c cs ih =>
    by_cases hc : c = sep
    · subst hc
      rw [split_cons_sep, join_cons_of_ne_nil _ _ (split_ne_nil _ _), ih]; simp
    · rw [split_cons_of_ne hc]
      cases hs : split sep cs with
      | nil => exact absurd hs (split_ne_nil sep cs)
      | cons p ps =>
        rw [hs] at ih
        cases ps with
        | nil => simp [join] at ih ⊢; exact ih
        | cons q qs =>
          simp only [List.headD_cons, List.tail_cons, join_cons_cons] at ih ⊢
          rw [← ih]; simp

theorem split_join {sep : Char} {xs : List Str} (h : ∀ x ∈ xs, sep ∉ x) (hne : xs ≠ []) :
    split sep (join [sep] xs) = xs := by
  induction xs with
  | nil => exact absurd rfl hne
  | cons x rest ih =>
    cases rest with
    | nil => simpa [join] using split_eq_singleton (h x (by simp))
    | cons y ys =>
      rw [join_cons_cons]
      have hx : sep ∉ x := h x (by simp)
      have := ih (fun z hz => h z (by simp [hz])) (by simp)
      simp only [List.append_assoc, List.singleton_append]
      rw [split_append_sep_of_not_mem hx, this]


theorem digitChar_isHexChar {k : Nat} (h : k < 16) : isHexChar (Nat.digitChar k) = true := by
  interval_cases k <;> decide

theorem bytesToHex_isHexChar (bytes : List Nat) : ∀ c ∈ bytesToHex bytes, isHexChar c = true := by
  intro c hc
  simp only [bytesToHex, List.mem_flatMap, List.mem_cons, List.mem_singleton,
    List.not_mem_nil, or_false] at hc
  obtain ⟨b, _, rfl | rfl⟩ := hc
  · exact digitChar_isHexChar (Nat.mod_lt _ (by decide))
  · exact digitChar_isHexChar (Nat.mod_lt _ (by decide))

theorem MD5_isHexChar (message : Str) : ∀ c ∈ Crypto.MD5 message, isHexChar c = true :=
  bytesToHex_isHexChar _

theorem not_mem_of_all_hex {s : Str} (h : ∀ c ∈ s, isHexChar c = true) {x : Char}
    (hx : isHexChar x = false) : x ∉ s := by
  intro hmem
  rw [h x hmem] at hx
  exact Bool.noConfusion hx

theorem space_not_mem_MD5 (message : Str) : ' ' ∉ Crypto.MD5 message :=
  not_mem_of_all_hex (MD5_isHexChar message) (by decide)

theorem newline_not_mem_MD5 (message : Str) : '\n' ∉ Crypto.MD5 message :=
  not_mem_of_all_hex (MD5_isHexChar message) (by decide)

/-! ### Decimal rendering and reading back -/

theorem digitValue_digitChar {k : Nat} (h : k < 10) : digitValue (Nat.digitChar k) = some k := by
  interval_cases k <;> decide

theorem isDigitOf_digitChar {k : Nat} (h : k < 10) : isDigitOf 10 (Nat.digitChar k) = true := by
  interval_cases k <;> decide

theorem toDigitsCore_append (fuel n : Nat) (acc : Str) :
    Nat.toDigitsCore 10 fuel n acc = Nat.toDigitsCore 10 fuel n [] ++ acc := by
  induction fuel generalizing n acc with
  | zero => simp [Nat.toDigitsCore]
  | succ fuel ih =>
    simp only [Nat.toDigitsCore]
    split
    · simp
    · rw [ih (n / 10) (_ :: acc), ih (n / 10) [_]]; simp

theorem digitsValue_append_singleton (base : Nat) (ds : Str) (c : Char) :
    digitsValue base (ds ++ [c]) = base * digitsValue base ds + (digitValue c).getD 0 := by
  simp [digitsValue, List.foldl_append]

theorem digitsValue_toDigitsCore (fuel n : Nat) (h : n < fuel) :
    digitsValue 10 (Nat.toDigitsCore 10 fuel n []) = n := by
  induction fuel generalizing n with
  | zero => exact absurd h (Nat.not_lt_zero _)
  | succ fuel ih =>
    simp only [Nat.toDigitsCore]
    have hd := digitValue_digitChar (Nat.mod_lt n (by decide : 10 > 0))
    split
    · rename_i h0
      simp only [digitsValue, List.foldl_cons, List.foldl_nil, hd, Option.getD_some]
      omega
    · rename_i h0
      rw [toDigitsCore_append, digitsValue_append_singleton, hd, ih (n / 10) (by omega)]
      simp only [Option.getD_some]
      omega

theorem all_digits_toDigitsCore (fuel n : Nat) :
    ∀ c ∈ Nat.toDigitsCore 10 fuel n [], isDigitOf 10 c = true := by
  induction fuel generalizing n with
  | zero => simp [Nat.toDigitsCore]
  | succ fuel ih =>
    simp only [Nat.toDigitsCore]
    have hd := isDigitOf_digitChar (Nat.mod_lt n (by decide : 10 > 0))
    split
    · simpa using hd
    · rw [toDigitsCore_append]
      intro c hc
      rcases List.mem_append.mp hc with h | h
      · exact ih _ c h
      · rw [List.mem_singleton.mp h]; exact hd

theorem toDigitsCore_ne_nil (fuel n : Nat) : Nat.toDigitsCore 10 (fuel + 1) n [] ≠ [] := by
  simp only [Nat.toDigitsCore]
  split
  · simp
  · rw [toDigitsCore_append]; simp

theorem numberToString_ne_nil (n : Nat) : numberToString n ≠ [] :=
  toDigitsCore_ne_nil n n

theorem numberToString_digits (n : Nat) : ∀ c ∈ numberToString n, isDigitOf 10 c = true :=
  all_digits_toDigitsCore _ _

theorem digitsValue_numberToString (n : Nat) : digitsValue 10 (numberToString n) = n :=
  digitsValue_toDigitsCore _ _ (Nat.lt_succ_self n)

theorem char_le_iff (a b : Char) : a ≤ b ↔ a.toNat ≤ b.toNat := by
  simp [Char.le_def, Char.toNat, UInt32.le_def, Fin.le_def]
  rfl

theorem mem_decimal_of_isDigitOf {c : Char} (h : isDigitOf 10 c = true) :
    c ∈ "0123456789".toList := by
  have hc : c = Char.ofNat c.toNat := by simp
  simp only [isDigitOf, digitValue, char_le_iff] at h
  have e0 : '0'.toNat = 48 := rfl
  have e9 : '9'.toNat = 57 := rfl
  have ea : 'a'.toNat = 97 := rfl
  have ef : 'f'.toNat = 102 := rfl
  have eA : 'A'.toNat = 65 := rfl
  have eF : 'F'.toNat = 70 := rfl
  rw [e0, e9, ea, ef, eA, eF] at h
  have h48 : (48 : Nat) ≤ c.toNat ∧ c.toNat ≤ 57 := by
    split_ifs at h with h1 h2 h3
    · exact h1
    · simp only [decide_eq_true_eq] at h
      omega
    · simp only [decide_eq_true_eq] at h
      omega
  obtain ⟨hlo, hhi⟩ := h48
  generalize c.toNat = n at hc hlo hhi
  subst hc
  interval_cases n <;> decide

theorem forall_decimal {P : Char → Prop} (hP : ∀ c ∈ "0123456789".toList, P c) {c : Char}
    (h : isDigitOf 10 c = true) : P c :=
  hP c (mem_decimal_of_isDigitOf h)

theorem trim_eq_self {s : Str} (h : ∀ c ∈ s, isStrWhiteSpaceChar c = false) : trim s = s := by
  unfold trim
  have h1 : s.dropWhile isStrWhiteSpaceChar = s := by
    cases s with
    | nil => rfl
    | cons c cs => simp [List.dropWhile_cons, h c (by simp)]
  rw [h1]
  have h2 : s.reverse.dropWhile isStrWhiteSpaceChar = s.reverse := by
    cases hr : s.reverse with
    | nil => rfl
    | cons c cs =>
      have : c ∈ s := by
        have : c ∈ s.reverse := by rw [hr]; simp
        simpa using this
      simp [List.dropWhile_cons, h c this]
  rw [h2, List.reverse_reverse]

theorem stringToNumber_digits {s : Str} (hne : s ≠ []) (h : ∀ c ∈ s, isDigitOf 10 c = true) :
    stringToNumber s = .finite false (digitsValue 10 s) 0 := by
  have hws : ∀ c ∈ s, isStrWhiteSpaceChar c = false :=
    fun c hc => forall_decimal (P := fun c => isStrWhiteSpaceChar c = false) (by decide) (h c hc)
  have hnot : ∀ x : Char, isDigitOf 10 x = false → x ∉ s := by
    intro x hx hmem
    rw [h x hmem] at hx
    exact Bool.noConfusion hx
  have hlit : unsignedDecimalLiteral false s = .finite false (digitsValue 10 s) 0 := by
    unfold unsignedDecimalLiteral
    have hinf : s ≠ "Infinity".toList := by
      intro e
      exact hnot 'I' (by decide) (by rw [e]; decide)
    have htake : s.takeWhile (isDigitOf 10) = s := List.takeWhile_eq_self_iff.mpr h
    have hdrop : s.dropWhile (isDigitOf 10) = [] := List.dropWhile_eq_nil_iff.mpr h
    rw [if_neg hinf]
    simp [htake, hdrop, hne]
  unfold stringToNumber
  rw [trim_eq_self hws]
  split
  · exact absurd rfl hne
  · exact absurd (by simp) (hnot 'x' (by decide))
  · exact absurd (by simp) (hnot 'X' (by decide))
  · exact absurd (by simp) (hnot 'o' (by decide))
  · exact absurd (by simp) (hnot 'O' (by decide))
  · exact absurd (by simp) (hnot 'b' (by decide))
  · exact absurd (by simp) (hnot 'B' (by decide))
  · exact absurd (by simp) (hnot '+' (by decide))
  · exact absurd (by simp) (hnot '-' (by decide))
  · exact hlit

theorem toInteger_numberToString (n : Nat) :
    toInteger (stringToNumber (numberToString n)) = .finite (Int.ofNat n) := by
  rw [stringToNumber_digits (numberToString_ne_nil n) (numberToString_digits n),
    digitsValue_numberToString]
  simp [toInteger]

theorem substr_finite (s : Str) (start len : Nat) :
    substr s (.finite (Int.ofNat start)) (some (.finite (Int.ofNat len)))
      = (s.drop start).take len := by
  simp only [substr]
  have h : ¬ (Int.ofNat start < 0) := by simp
  rw [if_neg h]
  show (s.drop (min start s.length)).take len = _
  rcases Nat.le_total start s.length with hle | hle
  · rw [Nat.min_eq_left hle]
  · rw [Nat.min_eq_right hle, List.drop_length, List.drop_eq_nil_of_le hle]

theorem substrOfStrings_numberToString (s : Str) (start len : Nat) :
    substrOfStrings s (numberToString start) (some (numberToString len))
      = (s.drop start).take len := by
  simp only [substrOfStrings, Option.map_some', toInteger_numberToString, substr_finite]

theorem drop_take_middle (a b c : Str) : ((a ++ b ++ c).drop a.length).take b.length = b := by
  simp

/-! ### Lines of the encoder -/

theorem validLogic_cases (logic : Option Str) :
    validLogic logic = "AND".toList ∨ validLogic logic = "OR".toList := by
  unfold validLogic
  dsimp only
  split_ifs with h
  · exact h
  · exact Or.inl rfl

theorem space_not_mem_validLogic (logic : Option Str) : ' ' ∉ validLogic logic := by
  rcases validLogic_cases logic with h | h <;> rw [h] <;> decide

theorem newline_not_mem_validLogic (logic : Option Str) : '\n' ∉ validLogic logic := by
  rcases validLogic_cases logic with h | h <;> rw [h] <;> decide

theorem split_marker_line (marker hash code : Str) (hm : ' ' ∉ marker) (hh : ' ' ∉ hash)
    (hc : ' ' ∉ code) :
    split ' ' ("// ".toList ++ marker ++ " ".toList ++ hash ++ " ".toList ++ code)
      = ["//".toList, marker, hash, code] := by
  have e : "// ".toList ++ marker ++ " ".toList ++ hash ++ " ".toList ++ code
      = "//".toList ++ ' ' :: (marker ++ ' ' :: (hash ++ ' ' :: code)) := by
    simp
  rw [e, split_append_sep_of_not_mem (by decide), split_append_sep_of_not_mem hm,
    split_append_sep_of_not_mem hh, split_eq_singleton hc]

theorem not_mem_append {x : Char} {a b : Str} (ha : x ∉ a) (hb : x ∉ b) : x ∉ a ++ b := by
  simp [ha, hb]

theorem dropLast_append_singleton (xs : List Str) (x : Str) : (xs ++ [x]).dropLast = xs := by
  simp

theorem split_master_line (hash logic : Str) (hh : ' ' ∉ hash) (hl : ' ' ∉ logic) :
    split ' ' ("// JCSDL_MASTER ".toList ++ hash ++ " ".toList ++ logic)
      = ["//".toList, "JCSDL_MASTER".toList, hash, logic] :=
  split_marker_line "JCSDL_MASTER".toList hash logic (by decide) hh hl

theorem split_start_line (hash code : Str) (hh : ' ' ∉ hash) (hc : ' ' ∉ code) :
    split ' ' ("// JCSDL_START ".toList ++ hash ++ " ".toList ++ code)
      = ["//".toList, "JCSDL_START".toList, hash, code] :=
  split_marker_line "JCSDL_START".toList hash code (by decide) hh hc

theorem verifyJCSDL_master_line (hash logic : Str) (lines : List Str) (hh : ' ' ∉ hash)
    (hl : ' ' ∉ logic) :
    verifyJCSDL ("// JCSDL_MASTER ".toList ++ hash ++ " ".toList ++ logic) lines
      = decide (hash = encodeJCSDL (join "\n".toList lines) (some logic)) := by
  unfold verifyJCSDL
  rw [split_master_line hash logic hh hl]
  simp

/-! ### The encoder of one filter -/

theorem filterToCSDLCode_of_parts {env : Env} {filter : Filter} {fieldInfo : FieldInfo}
    {value operatorCode : Str}
    (hinfo : getFieldInfo env filter.target filter.fieldPath = some fieldInfo)
    (hval : valueToCSDL env filter.value fieldInfo filter.operator = some value)
    (hopc : getOperatorCode env filter.operator = some operatorCode) :
    filterToCSDLCode env filter =
      if filter.operator ≠ "exists".toList then
        .ret
          { csdl := filter.target ++ ".".toList ++ replace '-' '.' (fieldToCSDL filter.fieldPath)
              ++ (if filter.cs then " cs".toList else []) ++ " ".toList ++ operatorCode
              ++ " ".toList ++ value
            jcsdlSyntax := filter.target ++ ".".toList ++ fieldToCSDL filter.fieldPath
              ++ ",".toList ++ filter.operator ++ ",".toList
              ++ numberToString
                (if fieldInfo.type = "string".toList ∨ fieldInfo.type = "geo".toList then
                  (filter.target ++ ".".toList ++ replace '-' '.' (fieldToCSDL filter.fieldPath)
                    ++ (if filter.cs then " cs".toList else []) ++ " ".toList ++ operatorCode
                    ++ " ".toList).length + 1
                else
                  (filter.target ++ ".".toList ++ replace '-' '.' (fieldToCSDL filter.fieldPath)
                    ++ (if filter.cs then " cs".toList else []) ++ " ".toList ++ operatorCode
                    ++ " ".toList).length)
              ++ "-".toList
              ++ numberToString
                (if fieldInfo.type = "string".toList ∨ fieldInfo.type = "geo".toList then
                  value.length - 2 else value.length)
              ++ (if filter.cs then ",cs".toList else [])
            range := some
              (if fieldInfo.type = "string".toList ∨ fieldInfo.type = "geo".toList then
                  (filter.target ++ ".".toList ++ replace '-' '.' (fieldToCSDL filter.fieldPath)
                    ++ (if filter.cs then " cs".toList else []) ++ " ".toList ++ operatorCode
                    ++ " ".toList).length + 1
                else
                  (filter.target ++ ".".toList ++ replace '-' '.' (fieldToCSDL filter.fieldPath)
                    ++ (if filter.cs then " cs".toList else []) ++ " ".toList ++ operatorCode
                    ++ " ".toList).length,
               if fieldInfo.type = "string".toList ∨ fieldInfo.type = "geo".toList then
                  value.length - 2 else value.length) }
      else
        .ret
          { csdl := filter.target ++ ".".toList ++ replace '-' '.' (fieldToCSDL filter.fieldPath)
              ++ (if filter.cs then " cs".toList else []) ++ " ".toList ++ operatorCode
              ++ " ".toList
            jcsdlSyntax := filter.target ++ ".".toList ++ fieldToCSDL filter.fieldPath
              ++ ",".toList ++ filter.operator
            range := none } := by
  unfold filterToCSDLCode
  simp only [hinfo, hval, hopc]

theorem filterToCSDLCode_ret_inv {env : Env} {filter : Filter} {code : FilterCode}
    (h : filterToCSDLCode env filter = .ret code) :
    ∃ fieldInfo value operatorCode,
      getFieldInfo env filter.target filter.fieldPath = some fieldInfo ∧
      valueToCSDL env filter.value fieldInfo filter.operator = some value ∧
      getOperatorCode env filter.operator = some operatorCode := by
  unfold filterToCSDLCode at h
  cases hinfo : getFieldInfo env filter.target filter.fieldPath with
  | none => simp only [hinfo] at h; exact Outcome.noConfusion h
  | some fieldInfo =>
    cases hval : valueToCSDL env filter.value fieldInfo filter.operator with
    | none => simp only [hinfo, hval] at h; exact Outcome.noConfusion h
    | some value =>
      cases hopc : getOperatorCode env filter.operator with
      | none => simp only [hinfo, hval, hopc] at h; exact Outcome.noConfusion h
      | some operatorCode => exact ⟨fieldInfo, value, operatorCode, rfl, hval, rfl⟩

theorem valueToCSDL_quoted {env : Env} {value operator : Str} {fieldInfo : FieldInfo}
    (h : fieldInfo.type ≠ "int".toList) :
    valueToCSDL env value fieldInfo operator
      = some ("\"".toList ++ env.escapeCsdl value (escapeRegEx operator) ++ "\"".toList) := by
  unfold valueToCSDL
  rw [if_neg h]

theorem valueToCSDL_int_in {env : Env} {value : Str} {fieldInfo : FieldInfo}
    (h : fieldInfo.type = "int".toList) :
    valueToCSDL env value fieldInfo "in".toList = some ("[".toList ++ value ++ "]".toList) := by
  unfold valueToCSDL
  have hj : join ",".toList (split ',' value) = value := join_split ',' value
  rw [if_pos h, if_neg (by simp), if_pos rfl, hj]

theorem valueToCSDL_int_other {env : Env} {value operator : Str} {fieldInfo : FieldInfo}
    (h : fieldInfo.type = "int".toList) (hop : operator ≠ "in".toList) :
    valueToCSDL env value fieldInfo operator = if isNaN value then none else some value := by
  unfold valueToCSDL
  rw [if_pos h]
  by_cases hn : isNaN value = true
  · rw [if_pos ⟨hop, hn⟩, if_pos hn]
  · rw [if_neg (fun hh => hn hh.2), if_neg hop, if_neg hn]

theorem valueFromCSDL_int_in {env : Env} {value : Str} {fieldInfo : FieldInfo}
    (h : fieldInfo.type = "int".toList) :
    valueFromCSDL env fieldInfo ("[".toList ++ value ++ "]".toList) "in".toList = value := by
  unfold valueFromCSDL
  rw [if_pos h, if_pos rfl]
  have hlen : Int.ofNat ("[".toList ++ value ++ "]".toList).length - 2
      = Int.ofNat value.length := by
    simp only [List.length_append, Int.ofNat_eq_coe, Nat.cast_add]
    simp
    omega
  rw [hlen, show (JsInteger.finite 1) = JsInteger.finite (Int.ofNat 1) from rfl, substr_finite]
  have := drop_take_middle "[".toList value "]".toList
  simp at this ⊢

theorem valueFromCSDL_int_other {env : Env} {value operator : Str} {fieldInfo : FieldInfo}
    (h : fieldInfo.type = "int".toList) (hop : operator ≠ "in".toList) :
    valueFromCSDL env fieldInfo value operator = value := by
  unfold valueFromCSDL
  rw [if_pos h, if_neg hop]

theorem valueFromCSDL_quoted {env : Env} {value operator : Str} {fieldInfo : FieldInfo}
    (h : fieldInfo.type ≠ "int".toList) :
    valueFromCSDL env fieldInfo value operator = env.unescapeCsdl value (escapeRegEx operator) := by
  unfold valueFromCSDL
  rw [if_neg h]

/-! ### The decoding loop -/

theorem parseLines_cons_cons (env : Env) (jcsdlDescription csdl : Str) (tail : List Str)
    (filters : List (Option Filter)) :
    parseLines env (jcsdlDescription :: csdl :: tail) filters =
      match parseGroup env jcsdlDescription csdl filters with
      | .ret filters => parseLines env (tail.drop 2) filters
      | .retFalse => .retFalse
      | .threw => .threw := by
  match tail with
  | [] => cases h : parseGroup env jcsdlDescription csdl filters <;> simp [parseLines, h]
  | [_] => cases h : parseGroup env jcsdlDescription csdl filters <;> simp [parseLines, h]
  | _ :: _ :: rest =>
    cases h : parseGroup env jcsdlDescription csdl filters <;> simp [parseLines, h]

theorem parseGroup_of_mismatch (env : Env) (jcsdlDescription csdl : Str)
    (filters : List (Option Filter))
    (h : (split ' ' jcsdlDescription)[2]? ≠ some (Crypto.MD5 csdl)) :
    parseGroup env jcsdlDescription csdl filters = .retFalse := by
  unfold parseGroup
  have hv : verifyJCSDLFilter (split ' ' jcsdlDescription)[2]? csdl = false := by
    simp only [verifyJCSDLFilter, encodeJCSDLFilter]
    exact decide_eq_false h
  dsimp only
  rw [hv, if_pos (by simp)]

theorem parseGroup_of_match (env : Env) (jcsdlDescription csdl : Str)
    (filters : List (Option Filter))
    (h : (split ' ' jcsdlDescription)[2]? = some (Crypto.MD5 csdl)) :
    parseGroup env jcsdlDescription csdl filters =
      match filterFromJCSDL env (split ' ' jcsdlDescription)[3]? csdl with
      | .threw => .threw
      | .retFalse => .ret (filters ++ [none])
      | .ret filter => .ret (filters ++ [some filter]) := by
  unfold parseGroup
  have hv : verifyJCSDLFilter (split ' ' jcsdlDescription)[2]? csdl = true := by
    simp only [verifyJCSDLFilter, encodeJCSDLFilter]
    exact decide_eq_true h
  dsimp only
  rw [hv, if_neg (by simp)]

theorem parseGroup_ne_threw (env : Env) (jcsdlDescription csdl : Str)
    (filters : List (Option Filter))
    (h : filterFromJCSDL env (split ' ' jcsdlDescription)[3]? csdl ≠ .threw) :
    parseGroup env jcsdlDescription csdl filters ≠ .threw := by
  by_cases hm : (split ' ' jcsdlDescription)[2]? = some (Crypto.MD5 csdl)
  · rw [parseGroup_of_match env _ _ _ hm]
    cases hf : filterFromJCSDL env (split ' ' jcsdlDescription)[3]? csdl with
    | threw => exact absurd hf h
    | retFalse => exact Outcome.noConfusion
    | ret filter => exact Outcome.noConfusion
  · rw [parseGroup_of_mismatch env _ _ _ hm]
    exact Outcome.noConfusion

theorem parseLines_of_mismatch (env : Env) (k : Nat) :
    ∀ (lines : List Str) (filters : List (Option Filter)) (d c : Str),
      lines[4 * k]? = some d → lines[4 * k + 1]? = some c →
      (split ' ' d)[2]? ≠ some (Crypto.MD5 c) →
      (parseLines env lines filters = .retFalse ∨ parseLines env lines filters = .threw) ∧
      ((∀ j < k, ∀ dj cj, lines[4 * j]? = some dj → lines[4 * j + 1]? = some cj →
          filterFromJCSDL env ((split ' ' dj)[3]?) cj ≠ .threw) →
        parseLines env lines filters = .retFalse) := by
  induction k with
  | zero =>
    intro lines filters d c hd hc hm
    simp only [Nat.mul_zero, Nat.zero_add] at hd hc
    match lines, hd, hc with
    | d' :: c' :: tail, hd, hc =>
      simp only [List.getElem?_cons_zero, List.getElem?_cons_succ, Option.some.injEq] at hd hc
      subst hd hc
      rw [parseLines_cons_cons, parseGroup_of_mismatch env _ _ _ hm]
      exact ⟨Or.inl rfl, fun _ => rfl⟩
  | succ k ih =>
    intro lines filters d c hd hc hm
    match lines, hd, hc with
    | a :: b :: x :: y :: rest, hd, hc =>
      have hd' : rest[4 * k]? = some d := by
        have e : 4 * (k + 1) = (4 * k) + 1 + 1 + 1 + 1 := by ring
        rw [e] at hd
        simpa using hd
      have hc' : rest[4 * k + 1]? = some c := by
        have e : 4 * (k + 1) + 1 = (4 * k + 1) + 1 + 1 + 1 + 1 := by ring
        rw [e] at hc
        simpa using hc
      rw [parseLines_cons_cons]
      cases hg : parseGroup env a b filters with
      | threw => exact ⟨Or.inr rfl, fun hno =>
          absurd hg (parseGroup_ne_threw env a b filters (hno 0 (Nat.succ_pos k) a b rfl rfl))⟩
      | retFalse => exact ⟨Or.inl rfl, fun _ => rfl⟩
      | ret filters' =>
        have := ih rest filters' d c hd' hc' hm
        refine ⟨this.1, fun hno => this.2 ?_⟩
        intro j hj dj cj hdj hcj
        refine hno (j + 1) (Nat.succ_lt_succ hj) dj cj ?_ ?_
        · have e : 4 * (j + 1) = (4 * j) + 1 + 1 + 1 + 1 := by ring
          rw [e]
          simpa using hdj
        · have e : 4 * (j + 1) + 1 = (4 * j + 1) + 1 + 1 + 1 + 1 := by ring
          rw [e]
          simpa using hcj

/-! ### Characters that a text cannot contain -/

theorem not_mem_join {x : Char} {sep : Str} {xs : List Str} (hsep : x ∉ sep)
    (h : ∀ y ∈ xs, x ∉ y) : x ∉ join sep xs := by
  induction xs with
  | nil => simp [join]
  | cons y ys ih =>
    cases ys with
    | nil => simpa [join] using h y (by simp)
    | cons z zs =>
      rw [join_cons_cons]
      exact not_mem_append (not_mem_append (h y (by simp)) hsep)
        (ih (fun w hw => h w (by simp [hw])))

theorem not_mem_replace {x pat rep : Char} {s : Str} (h : x ∉ s) (hrep : x ≠ rep) :
    x ∉ replace pat rep s := by
  induction s with
  | nil => simp [replace]
  | cons c cs ih =>
    have hc : x ≠ c := fun e => h (by simp [e])
    have hcs : x ∉ cs := fun e => h (by simp [e])
    unfold replace
    split_ifs
    · simp [hrep, hcs]
    · simp [hc, ih hcs]

theorem length_replace (pat rep : Char) (s : Str) : (replace pat rep s).length = s.length := by
  induction s with
  | nil => rfl
  | cons c cs ih =>
    unfold replace
    split_ifs
    · rfl
    · simp [ih]

theorem not_mem_numberToString {x : Char} (hx : isDigitOf 10 x = false) (n : Nat) :
    x ∉ numberToString n := by
  intro hmem
  rw [numberToString_digits n x hmem] at hx
  exact Bool.noConfusion hx

/-! ### The decoder of one filter -/

theorem filterFromJCSDL_of_tokens {env : Env} {jcsdlCode csdl path target operator rangeCode : Str}
    {fieldPath extra : List Str} {fieldInfo : FieldInfo}
    (hcode : split ',' jcsdlCode = path :: operator :: rangeCode :: extra)
    (hpath : split '.' path = target :: fieldPath)
    (hinfo : getFieldInfo env target fieldPath = some fieldInfo)
    (hop : operator ≠ "exists".toList) :
    filterFromJCSDL env (some jcsdlCode) csdl =
      .ret (createFilter target fieldPath operator
        (valueFromCSDL env fieldInfo
          (substrOfStrings csdl ((split '-' rangeCode).headD []) (split '-' rangeCode)[1]?)
          operator)
        (extra.contains "cs".toList)) := by
  unfold filterFromJCSDL
  simp only [hcode, hpath, hinfo]
  rw [if_pos hop]

theorem filterFromJCSDL_of_exists {env : Env} {jcsdlCode csdl path target operator : Str}
    {fieldPath extra : List Str} {fieldInfo : FieldInfo}
    (hcode : split ',' jcsdlCode = path :: operator :: extra)
    (hpath : split '.' path = target :: fieldPath)
    (hinfo : getFieldInfo env target fieldPath = some fieldInfo)
    (hop : operator = "exists".toList) :
    filterFromJCSDL env (some jcsdlCode) csdl =
      .ret (createFilter target fieldPath operator [] false) := by
  unfold filterFromJCSDL
  simp only [hcode, hpath, hinfo]
  rw [if_neg (not_not.mpr hop)]

theorem split_range (start length : Nat) :
    split '-' (numberToString start ++ "-".toList ++ numberToString length)
      = [numberToString start, numberToString length] := by
  have e : numberToString start ++ "-".toList ++ numberToString length
      = numberToString start ++ '-' :: numberToString length := by simp
  rw [e, split_append_sep_of_not_mem (not_mem_numberToString (by decide) start),
    split_eq_singleton (not_mem_numberToString (by decide) length)]

theorem split_path {target : Str} {fieldPath : List Str} (hne : fieldPath ≠ [])
    (ht : '.' ∉ target) (hp : ∀ name ∈ fieldPath, '.' ∉ name) :
    split '.' (target ++ ".".toList ++ fieldToCSDL fieldPath) = target :: fieldPath := by
  have e : target ++ ".".toList ++ fieldToCSDL fieldPath = join ['.'] (target :: fieldPath) := by
    rw [join_cons_of_ne_nil _ _ hne]; rfl
  rw [e]
  exact split_join (by
    intro x hx
    rcases List.mem_cons.mp hx with h | h
    · rw [h]; exact ht
    · exact hp x h) (by simp)
theorem isNaN_nil : isNaN [] = false := by decide

theorem value_round_trip {env : Env} {filter : Filter} {fieldInfo : FieldInfo}
    (htype : fieldInfo.type = "int".toList ∨ fieldInfo.type = "string".toList
      ∨ fieldInfo.type = "geo".toList)
    (hnum : fieldInfo.type = "int".toList → filter.operator ≠ "in".toList →
      isNaN filter.value = false)
    (hline : '\n' ∉ filter.value)
    (hinv : env.unescapeCsdl (env.escapeCsdl filter.value (escapeRegEx filter.operator))
      (escapeRegEx filter.operator) = filter.value)
    (hesc : '\n' ∉ env.escapeCsdl filter.value (escapeRegEx filter.operator)) :
    ∃ literal, valueToCSDL env filter.value fieldInfo filter.operator = some literal ∧
      '\n' ∉ literal ∧
      ∀ before : Str, valueFromCSDL env fieldInfo
        (((before ++ literal).drop
            (if fieldInfo.type = "string".toList ∨ fieldInfo.type = "geo".toList
              then before.length + 1 else before.length)).take
          (if fieldInfo.type = "string".toList ∨ fieldInfo.type = "geo".toList
            then literal.length - 2 else literal.length))
        filter.operator = filter.value := by
  by_cases hint : fieldInfo.type = "int".toList
  · have hq : ¬ (fieldInfo.type = "string".toList ∨ fieldInfo.type = "geo".toList) := by
      rw [hint]; decide
    by_cases hin : filter.operator = "in".toList
    · refine ⟨"[".toList ++ filter.value ++ "]".toList, ?_, ?_, ?_⟩
      · rw [hin]; exact valueToCSDL_int_in hint
      · exact not_mem_append (not_mem_append (by decide) hline) (by decide)
      · intro before
        rw [if_neg hq, if_neg hq, hin]
        have e : ((before ++ ("[".toList ++ filter.value ++ "]".toList)).drop before.length).take
            ("[".toList ++ filter.value ++ "]".toList).length
            = "[".toList ++ filter.value ++ "]".toList := by simp
        rw [e]
        exact valueFromCSDL_int_in hint
    · refine ⟨filter.value, ?_, hline, ?_⟩
      · rw [valueToCSDL_int_other hint hin, if_neg (by simp [hnum hint hin])]
      · intro before
        rw [if_neg hq, if_neg hq]
        have e : ((before ++ filter.value).drop before.length).take filter.value.length
            = filter.value := by simp
        rw [e]
        exact valueFromCSDL_int_other hint hin
  · have hq : fieldInfo.type = "string".toList ∨ fieldInfo.type = "geo".toList := by
      rcases htype with h | h
      · exact absurd h hint
      · exact h
    refine ⟨"\"".toList ++ env.escapeCsdl filter.value (escapeRegEx filter.operator)
      ++ "\"".toList, valueToCSDL_quoted hint, ?_, ?_⟩
    · exact not_mem_append (not_mem_append (by decide) hesc) (by decide)
    · intro before
      rw [if_pos hq, if_pos hq]
      generalize env.escapeCsdl filter.value (escapeRegEx filter.operator) = escaped at hinv
      have e : ((before ++ ("\"".toList ++ escaped ++ "\"".toList)).drop
          (before.length + 1)).take (("\"".toList ++ escaped ++ "\"".toList).length - 2)
          = escaped := by
        have := drop_take_middle (before ++ "\"".toList) escaped "\"".toList
        simp at this ⊢
      rw [e, valueFromCSDL_quoted hint]
      exact hinv
theorem filter_eta (filter : Filter) :
    createFilter filter.target filter.fieldPath filter.operator filter.value filter.cs
      = filter := rfl

theorem contains_cs_tail (cs : Bool) :
    (if cs = true then ["cs".toList] else ([] : List Str)).contains "cs".toList = cs := by
  cases cs <;> decide

theorem split_descriptor_tail (rangeCode : Str) (cs : Bool) (h : ',' ∉ rangeCode) :
    split ',' (rangeCode ++ (if cs = true then ",cs".toList else []))
      = rangeCode :: (if cs = true then ["cs".toList] else []) := by
  cases cs
  · simp [split_eq_singleton h]
  · have e : rangeCode ++ (if true = true then ",cs".toList else [])
        = rangeCode ++ ',' :: "cs".toList := by simp
    rw [e, split_append_sep_of_not_mem h, split_eq_singleton (by decide)]
    simp

theorem roundTrip_filter {env : Env} {filter : Filter} (hf : RoundTripFilter env filter)
    (hopline : ∀ operatorCode, getOperatorCode env filter.operator = some operatorCode →
      '\n' ∉ operatorCode)
    (hinv : env.unescapeCsdl (env.escapeCsdl filter.value (escapeRegEx filter.operator))
      (escapeRegEx filter.operator) = filter.value)
    (hesc : '\n' ∉ env.escapeCsdl filter.value (escapeRegEx filter.operator)) :
    ∃ code, filterToCSDLCode env filter = .ret code ∧ '\n' ∉ code.csdl ∧
      '\n' ∉ code.jcsdlSyntax ∧ ' ' ∉ code.jcsdlSyntax ∧
      filterFromJCSDL env (some code.jcsdlSyntax) code.csdl = .ret filter := by
  obtain ⟨fieldInfo, hinfo, htype, hnum⟩ := hf.field
  obtain ⟨operatorCode, hopc⟩ := hf.operator
  obtain ⟨literal, hval, hlit, hslice⟩ := value_round_trip htype hnum hf.value_line hinv hesc
  obtain ⟨ht1, ht2, ht3, ht4⟩ := hf.target_clean
  obtain ⟨ho1, ho2, ho3, ho4⟩ := hf.operator_clean
  have hfield : ∀ x : Char, x ≠ '.' → (∀ name ∈ filter.fieldPath, x ∉ name) →
      x ∉ fieldToCSDL filter.fieldPath := fun x hx h =>
    not_mem_join (by simpa using hx) h
  have hpathsplit := split_path hf.path ht3 (fun name hn => (hf.path_clean name hn).2.2.1)
  have hpath : ∀ x : Char, x ≠ '.' → x ∉ filter.target → (∀ name ∈ filter.fieldPath, x ∉ name) →
      x ∉ filter.target ++ ".".toList ++ fieldToCSDL filter.fieldPath := fun x hx h1 h2 =>
    not_mem_append (not_mem_append h1 (by simpa using hx)) (hfield x hx h2)
  have hbefore : '\n' ∉ filter.target ++ ".".toList
      ++ replace '-' '.' (fieldToCSDL filter.fieldPath)
      ++ (if filter.cs then " cs".toList else []) ++ " ".toList ++ operatorCode
      ++ " ".toList := by
    refine not_mem_append (not_mem_append (not_mem_append (not_mem_append (not_mem_append
      (not_mem_append ht4 (by decide)) ?_) ?_) (by decide)) (hopline _ hopc)) (by decide)
    · exact not_mem_replace (hfield '\n' (by decide)
        (fun name hn => (hf.path_clean name hn).2.2.2)) (by decide)
    · cases filter.cs <;> decide
  rw [filterToCSDLCode_of_parts hinfo hval hopc]
  by_cases hop : filter.operator = "exists".toList
  · rw [if_neg (not_not.mpr hop)]
    refine ⟨_, rfl, hbefore, ?_, ?_, ?_⟩
    · exact not_mem_append (not_mem_append (hpath '\n' (by decide) ht4
        (fun name hn => (hf.path_clean name hn).2.2.2)) (by decide)) ho4
    · exact not_mem_append (not_mem_append (hpath ' ' (by decide) ht1
        (fun name hn => (hf.path_clean name hn).1)) (by decide)) ho1
    · have hsplit : split ','
          (filter.target ++ ".".toList ++ fieldToCSDL filter.fieldPath ++ ",".toList
            ++ filter.operator)
          = [filter.target ++ ".".toList ++ fieldToCSDL filter.fieldPath, filter.operator] := by
        have e : filter.target ++ ".".toList ++ fieldToCSDL filter.fieldPath ++ ",".toList
            ++ filter.operator
            = (filter.target ++ ".".toList ++ fieldToCSDL filter.fieldPath)
              ++ ',' :: filter.operator := by simp
        rw [e, split_append_sep_of_not_mem (hpath ',' (by decide) ht2
          (fun name hn => (hf.path_clean name hn).2.1)), split_eq_singleton ho2]
      rw [filterFromJCSDL_of_exists hsplit hpathsplit hinfo hop]
      have hv := hf.exists_value hop
      conv => rhs; rw [← filter_eta filter, hv.1, hv.2]
  · rw [if_pos hop]
    generalize hS : (if fieldInfo.type = "string".toList ∨ fieldInfo.type = "geo".toList then
        (filter.target ++ ".".toList ++ replace '-' '.' (fieldToCSDL filter.fieldPath)
          ++ (if filter.cs then " cs".toList else []) ++ " ".toList ++ operatorCode
          ++ " ".toList).length + 1
      else
        (filter.target ++ ".".toList ++ replace '-' '.' (fieldToCSDL filter.fieldPath)
          ++ (if filter.cs then " cs".toList else []) ++ " ".toList ++ operatorCode
          ++ " ".toList).length) = valueStart
    generalize hL : (if fieldInfo.type = "string".toList ∨ fieldInfo.type = "geo".toList then
        literal.length - 2 else literal.length) = valueLength
    have hrange : ∀ x : Char, isDigitOf 10 x = false → x ≠ '-' →
        x ∉ numberToString valueStart ++ "-".toList ++ numberToString valueLength :=
      fun x hx hd => not_mem_append (not_mem_append (not_mem_numberToString hx _)
        (by simpa using hd)) (not_mem_numberToString hx _)
    have htail : ∀ x : Char, x ∉ ",cs".toList →
        x ∉ (if filter.cs = true then ",cs".toList else []) := by
      intro x hx
      cases filter.cs
      · simp
      · simpa using hx
    refine ⟨_, rfl, not_mem_append hbefore hlit, ?_, ?_, ?_⟩
    · dsimp only
      simp only [List.append_assoc]
      simp only [← List.append_assoc]
      exact not_mem_append (not_mem_append (not_mem_append (not_mem_append (not_mem_append
        (not_mem_append (not_mem_append (hpath '\n' (by decide) ht4
          (fun name hn => (hf.path_clean name hn).2.2.2)) (by decide)) ho4) (by decide))
        (not_mem_numberToString (by decide) _)) (by decide))
        (not_mem_numberToString (by decide) _)) (htail '\n' (by decide))
    · dsimp only
      exact not_mem_append (not_mem_append (not_mem_append (not_mem_append (not_mem_append
        (not_mem_append (not_mem_append (hpath ' ' (by decide) ht1
          (fun name hn => (hf.path_clean name hn).1)) (by decide)) ho1) (by decide))
        (not_mem_numberToString (by decide) _)) (by decide))
        (not_mem_numberToString (by decide) _)) (htail ' ' (by decide))
    · dsimp only
      have hsplit : split ','
          (filter.target ++ ".".toList ++ fieldToCSDL filter.fieldPath ++ ",".toList
            ++ filter.operator ++ ",".toList ++ numberToString valueStart ++ "-".toList
            ++ numberToString valueLength ++ (if filter.cs = true then ",cs".toList else []))
          = (filter.target ++ ".".toList ++ fieldToCSDL filter.fieldPath) :: filter.operator
            :: (numberToString valueStart ++ "-".toList ++ numberToString valueLength)
            :: (if filter.cs = true then ["cs".toList] else []) := by
        have e : filter.target ++ ".".toList ++ fieldToCSDL filter.fieldPath ++ ",".toList
            ++ filter.operator ++ ",".toList ++ numberToString valueStart ++ "-".toList
            ++ numberToString valueLength ++ (if filter.cs = true then ",cs".toList else [])
            = (filter.target ++ ".".toList ++ fieldToCSDL filter.fieldPath)
              ++ ',' :: (filter.operator ++ ',' :: ((numberToString valueStart ++ "-".toList
                ++ numberToString valueLength)
                ++ (if filter.cs = true then ",cs".toList else []))) := by simp
        rw [e, split_append_sep_of_not_mem (hpath ',' (by decide) ht2
          (fun name hn => (hf.path_clean name hn).2.1)), split_append_sep_of_not_mem ho2,
          split_descriptor_tail _ _ (hrange ',' (by decide) (by decide))]
      rw [filterFromJCSDL_of_tokens hsplit hpathsplit hinfo hop, split_range]
      simp only [List.headD_cons, List.getElem?_cons_succ, List.getElem?_cons_zero,
        substrOfStrings_numberToString, contains_cs_tail]
      rw [← hS, ← hL, hslice, filter_eta]
/-! ### The whole document -/

theorem render_eq (code : FilterCode) :
    code.render = startLine code ++ '\n' :: (code.csdl ++ '\n' :: "// JCSDL_END".toList) := by
  simp [FilterCode.render, startLine]

theorem filterToCSDL_of_code {env : Env} {filter : Filter} {code : FilterCode}
    (h : filterToCSDLCode env filter = .ret code) :
    filterToCSDL env filter = .ret code.render := by
  unfold filterToCSDL
  rw [h]

theorem eachFilter_of_codes (env : Env) (codeOf : Filter → FilterCode) :
    ∀ (filters : List Filter) (filterCodes : List Str),
      (∀ filter ∈ filters, filterToCSDLCode env filter = .ret (codeOf filter)) →
      eachFilter env filters filterCodes
        = .ret (filterCodes ++ filters.map (fun filter => (codeOf filter).render)) := by
  intro filters
  induction filters with
  | nil => intro filterCodes _; simp [eachFilter]
  | cons filter rest ih =>
    intro filterCodes h
    unfold eachFilter
    rw [filterToCSDL_of_code (h filter (by simp))]
    dsimp only
    rw [ih _ (fun g hg => h g (by simp [hg]))]
    simp

theorem split_render {code : FilterCode} (hs : '\n' ∉ startLine code) (hc : '\n' ∉ code.csdl) :
    split '\n' code.render = [startLine code, code.csdl, "// JCSDL_END".toList] := by
  rw [render_eq, split_append_sep_of_not_mem hs, split_append_sep_of_not_mem hc,
    split_eq_singleton (by decide)]

theorem split_body {logic : Str} (hl : '\n' ∉ logic) :
    ∀ codes : List FilterCode, codes ≠ [] →
      (∀ code ∈ codes, '\n' ∉ startLine code ∧ '\n' ∉ code.csdl) →
      split '\n' (join ("\n".toList ++ logic ++ "\n".toList)
        (codes.map (fun code => code.render))) = bodyLines logic codes := by
  intro codes
  induction codes with
  | nil => intro h; exact absurd rfl h
  | cons code rest ih =>
    intro _ h
    have hcode := h code (by simp)
    cases rest with
    | nil =>
      simp only [List.map_cons, List.map_nil, join, bodyLines]
      exact split_render hcode.1 hcode.2
    | cons next rest =>
      have hrest := ih (by simp) (fun c hc => h c (by simp [hc]))
      simp only [List.map_cons] at hrest ⊢
      rw [join_cons_cons, render_eq]
      have e : startLine code ++ '\n' :: (code.csdl ++ '\n' :: "// JCSDL_END".toList)
          ++ ("\n".toList ++ logic ++ "\n".toList)
          ++ join ("\n".toList ++ logic ++ "\n".toList)
            (next.render :: List.map (fun code => code.render) rest)
          = startLine code ++ '\n' :: (code.csdl ++ '\n' :: ("// JCSDL_END".toList
            ++ '\n' :: (logic ++ '\n' :: join ("\n".toList ++ logic ++ "\n".toList)
              (next.render :: List.map (fun code => code.render) rest)))) := by
        simp
      rw [e, split_append_sep_of_not_mem hcode.1, split_append_sep_of_not_mem hcode.2,
        split_append_sep_of_not_mem (by decide), split_append_sep_of_not_mem hl, hrest]
      rfl

theorem parseLines_body (env : Env) (logic : Str) (codeOf : Filter → FilterCode) :
    ∀ (filters : List Filter) (acc : List (Option Filter)),
      (∀ filter ∈ filters, ∀ acc : List (Option Filter),
        parseGroup env (startLine (codeOf filter)) (codeOf filter).csdl acc
          = .ret (acc ++ [some filter])) →
      parseLines env (bodyLines logic (filters.map codeOf)) acc
        = .ret (acc ++ filters.map some) := by
  intro filters
  induction filters with
  | nil => intro acc _; simp [bodyLines, parseLines]
  | cons filter rest ih =>
    intro acc h
    cases rest with
    | nil =>
      simp only [List.map_cons, List.map_nil, bodyLines]
      rw [parseLines_cons_cons, h filter (by simp)]
      simp [parseLines]
    | cons next rest =>
      have hrest := ih (acc ++ [some filter]) (fun g hg => h g (by simp [hg]))
      simp only [List.map_cons, bodyLines] at hrest ⊢
      rw [parseLines_cons_cons, h filter (by simp)]
      simp only [List.drop_succ_cons, List.drop_zero]
      rw [hrest]
      simp

theorem parseGroup_of_round_trip {env : Env} {filter : Filter} {code : FilterCode}
    (hsp : ' ' ∉ code.jcsdlSyntax)
    (hdec : filterFromJCSDL env (some code.jcsdlSyntax) code.csdl = .ret filter)
    (acc : List (Option Filter)) :
    parseGroup env (startLine code) code.csdl acc = .ret (acc ++ [some filter]) := by
  have hs : split ' ' (startLine code)
      = ["//".toList, "JCSDL_START".toList, encodeJCSDLFilter code.csdl, code.jcsdlSyntax] :=
    split_start_line _ _ (space_not_mem_MD5 _) hsp
  rw [parseGroup_of_match env _ _ _ (by rw [hs]; rfl), hs]
  simp only [List.getElem?_cons_succ, List.getElem?_cons_zero]
  rw [hdec]

theorem newline_not_mem_startLine {code : FilterCode} (h : '\n' ∉ code.jcsdlSyntax) :
    '\n' ∉ startLine code :=
  not_mem_append (not_mem_append (not_mem_append (by decide) (newline_not_mem_MD5 _))
    (by decide)) h

theorem space_not_mem_encodeJCSDL (output : Str) (logic : Option Str) :
    ' ' ∉ encodeJCSDL output logic := space_not_mem_MD5 _

theorem newline_not_mem_encodeJCSDL (output : Str) (logic : Option Str) :
    '\n' ∉ encodeJCSDL output logic := newline_not_mem_MD5 _

theorem parseJCSDL_of_body {env : Env} {logic output : Str} {lines : List Str}
    {filters : List (Option Filter)}
    (hl : logic = "AND".toList ∨ logic = "OR".toList)
    (hsplit : split '\n' output = lines)
    (hparse : parseLines env lines [] = .ret filters) :
    parseJCSDL env ("// JCSDL_VERSION ".toList ++ v ++ "\n".toList ++ "// JCSDL_MASTER ".toList
      ++ encodeJCSDL output (some logic) ++ " ".toList ++ logic ++ "\n".toList ++ output
      ++ "\n// JCSDL_MASTER_END".toList)
      = .ret { filters := filters, logic := some logic } := by
  have hlsp : ' ' ∉ logic := by rcases hl with h | h <;> rw [h] <;> decide
  have hlnl : '\n' ∉ logic := by rcases hl with h | h <;> rw [h] <;> decide
  have hmaster : '\n' ∉ "// JCSDL_MASTER ".toList ++ encodeJCSDL output (some logic)
      ++ " ".toList ++ logic :=
    not_mem_append (not_mem_append (not_mem_append (by decide) (newline_not_mem_encodeJCSDL _ _))
      (by decide)) hlnl
  have hv : '\n' ∉ "// JCSDL_VERSION ".toList ++ v := by decide
  have e : "// JCSDL_VERSION ".toList ++ v ++ "\n".toList ++ "// JCSDL_MASTER ".toList
      ++ encodeJCSDL output (some logic) ++ " ".toList ++ logic ++ "\n".toList ++ output
      ++ "\n// JCSDL_MASTER_END".toList
      = ("// JCSDL_VERSION ".toList ++ v) ++ '\n' ::
        (("// JCSDL_MASTER ".toList ++ encodeJCSDL output (some logic) ++ " ".toList ++ logic)
          ++ '\n' :: (output ++ '\n' :: "// JCSDL_MASTER_END".toList)) := by
    simp
  have hlines : (split '\n' ("// JCSDL_VERSION ".toList ++ v ++ "\n".toList
      ++ "// JCSDL_MASTER ".toList ++ encodeJCSDL output (some logic) ++ " ".toList ++ logic
      ++ "\n".toList ++ output ++ "\n// JCSDL_MASTER_END".toList)).drop 1
      = ("// JCSDL_MASTER ".toList ++ encodeJCSDL output (some logic) ++ " ".toList ++ logic)
        :: (lines ++ ["// JCSDL_MASTER_END".toList]) := by
    rw [e, split_append_sep_of_not_mem hv, split_append_sep_of_not_mem hmaster,
      split_append_sep, split_eq_singleton (by decide : '\n' ∉ "// JCSDL_MASTER_END".toList),
      hsplit]
    rfl
  have hverify : verifyJCSDL ("// JCSDL_MASTER ".toList ++ encodeJCSDL output (some logic)
      ++ " ".toList ++ logic) lines = true := by
    rw [verifyJCSDL_master_line _ _ _ (space_not_mem_encodeJCSDL _ _) hlsp]
    have hj : join "\n".toList lines = output := by rw [← hsplit]; exact join_split '\n' output
    rw [hj]
    exact decide_eq_true rfl
  unfold parseJCSDL
  rw [hlines]
  dsimp only
  rw [dropLast_append_singleton, hverify, if_neg (by simp), hparse,
    split_master_line _ _ (space_not_mem_encodeJCSDL _ _) hlsp]
  rfl
theorem validLogic_of_valid {logic : Str} (h : logic = "AND".toList ∨ logic = "OR".toList) :
    validLogic (some logic) = logic := by
  rcases h with h | h <;> rw [h] <;> decide

theorem roundTrip_of_filters {env : Env} {filters : List Filter} {logic : Str}
    (hlogic : logic = "AND".toList ∨ logic = "OR".toList) (hne : filters ≠ [])
    (h : ∀ filter ∈ filters, ∃ code, filterToCSDLCode env filter = .ret code ∧
      '\n' ∉ code.csdl ∧ '\n' ∉ code.jcsdlSyntax ∧ ' ' ∉ code.jcsdlSyntax ∧
      filterFromJCSDL env (some code.jcsdlSyntax) code.csdl = .ret filter) :
    ∃ text, getJCSDLForFilters env filters (some logic) = .ret text ∧
      parseJCSDL env text = .ret { filters := filters.map some, logic := some logic } := by
  let codeOf : Filter → FilterCode := fun filter =>
    match filterToCSDLCode env filter with
    | .ret code => code
    | _ => { csdl := [], jcsdlSyntax := [], range := none }
  have hcode : ∀ filter ∈ filters, filterToCSDLCode env filter = .ret (codeOf filter) ∧
      '\n' ∉ (codeOf filter).csdl ∧ '\n' ∉ (codeOf filter).jcsdlSyntax ∧
      ' ' ∉ (codeOf filter).jcsdlSyntax ∧
      filterFromJCSDL env (some (codeOf filter).jcsdlSyntax) (codeOf filter).csdl
        = .ret filter := by
    intro filter hf
    obtain ⟨code, h1, h2⟩ := h filter hf
    have e : codeOf filter = code := by
      show (match filterToCSDLCode env filter with
        | .ret code => code
        | _ => { csdl := [], jcsdlSyntax := [], range := none }) = code
      rw [h1]
    rw [e]
    exact ⟨h1, h2⟩
  have hlnl : '\n' ∉ logic := by rcases hlogic with h | h <;> rw [h] <;> decide
  have heach := eachFilter_of_codes env codeOf filters [] (fun f hf => (hcode f hf).1)
  have hsplit := split_body hlnl (filters.map codeOf) (by simpa using hne)
    (by
      intro code hc
      obtain ⟨f, hf, rfl⟩ := List.mem_map.mp hc
      exact ⟨newline_not_mem_startLine (hcode f hf).2.2.1, (hcode f hf).2.1⟩)
  have hparse := parseLines_body env logic codeOf filters []
    (fun f hf acc => parseGroup_of_round_trip (hcode f hf).2.2.2.1 (hcode f hf).2.2.2.2 acc)
  rw [List.map_map] at hsplit
  rw [List.nil_append] at heach hparse
  unfold getJCSDLForFilters
  rw [validLogic_of_valid hlogic, heach]
  exact ⟨_, rfl, parseJCSDL_of_body hlogic hsplit hparse⟩

theorem sampleUnescape_sampleEscape (s : Str) : sampleUnescape (sampleEscape s) = s := by
  induction s with
  | nil => rfl
  | cons c cs ih =>
    unfold sampleEscape
    split_ifs with h1 h2
    · subst h1
      simp [sampleUnescape, ih]
    · have hn : c ≠ 'n' := by
        rcases h2 with h | h <;> rw [h] <;> decide
      simp [sampleUnescape, ih, hn]
    · have hb : c ≠ Char.ofNat 92 := fun e => h2 (Or.inr e)
      cases he : sampleEscape cs with
      | nil =>
        rw [he] at ih
        simp [sampleUnescape] at ih ⊢
        exact ih
      | cons d t =>
        rw [he] at ih
        simp [sampleUnescape, hb, ih]

theorem newline_not_mem_sampleEscape (s : Str) : '\n' ∉ sampleEscape s := by
  induction s with
  | nil => simp [sampleEscape]
  | cons c cs ih =>
    have h92 : '\n' ≠ Char.ofNat 92 := by decide
    have hn : '\n' ≠ 'n' := by decide
    unfold sampleEscape
    split_ifs with h1 h2
    · intro hmem
      rcases List.mem_cons.mp hmem with h | h
      · exact h92 h
      · rcases List.mem_cons.mp h with h | h
        · exact hn h
        · exact ih h
    · intro hmem
      rcases List.mem_cons.mp hmem with h | h
      · exact h92 h
      · rcases List.mem_cons.mp h with h | h
        · exact h1 h.symm
        · exact ih h
    · intro hmem
      rcases List.mem_cons.mp hmem with h | h
      · exact h1 h.symm
      · exact ih h

/-! ### The sample filters meet the proviso of the round trip -/

theorem cleanName_of_decide {name : Str}
    (h : (' ' ∉ name ∧ ',' ∉ name ∧ '.' ∉ name ∧ '\n' ∉ name)) : CleanName name := h

theorem roundTripFilter_lineBreakFilter : RoundTripFilter lineBreakEnv lineBreakFilter where
  path := by decide
  field := ⟨.mk "string".toList none, rfl, Or.inr (Or.inl rfl), fun h => absurd h (by decide)⟩
  operator := ⟨"==\n".toList, rfl⟩
  target_clean := cleanName_of_decide (by decide)
  path_clean := by
    intro name h
    have e : name = "text".toList := by simpa [lineBreakFilter] using h
    rw [e]
    exact cleanName_of_decide (by decide)
  operator_clean := cleanName_of_decide (by decide)
  value_line := by decide
  exists_value := fun h => absurd h (by decide)

theorem roundTripFilter_textFilter : RoundTripFilter sampleEnv textFilter where
  path := by decide
  field := ⟨.mk "string".toList none, rfl, Or.inr (Or.inl rfl), fun h => absurd h (by decide)⟩
  operator := ⟨"contains".toList, rfl⟩
  target_clean := cleanName_of_decide (by decide)
  path_clean := by
    intro name h
    have e : name = "text".toList := by simpa [textFilter] using h
    rw [e]
    exact cleanName_of_decide (by decide)
  operator_clean := cleanName_of_decide (by decide)
  value_line := by decide
  exists_value := fun h => absurd h (by decide)

theorem cleanName_user_id : ∀ name ∈ ["user".toList, "id".toList], CleanName name := by
  intro name h
  rcases List.mem_cons.mp h with e | h
  · rw [e]; exact cleanName_of_decide (by decide)
  · rcases List.mem_cons.mp h with e | h
    · rw [e]; exact cleanName_of_decide (by decide)
    · exact absurd h (List.not_mem_nil _)

theorem roundTripFilter_idInFilter : RoundTripFilter sampleEnv idInFilter where
  path := by decide
  field := ⟨.mk "int".toList none, rfl, Or.inl rfl, fun _ h => absurd rfl h⟩
  operator := ⟨"in".toList, rfl⟩
  target_clean := cleanName_of_decide (by decide)
  path_clean := cleanName_user_id
  operator_clean := cleanName_of_decide (by decide)
  value_line := by decide
  exists_value := fun h => absurd h (by decide)

theorem roundTripFilter_idExistsFilter : RoundTripFilter sampleEnv idExistsFilter where
  path := by decide
  field := ⟨.mk "int".toList none, rfl, Or.inl rfl, fun _ _ => by decide⟩
  operator := ⟨"exists".toList, rfl⟩
  target_clean := cleanName_of_decide (by decide)
  path_clean := cleanName_user_id
  operator_clean := cleanName_of_decide (by decide)
  value_line := by decide
  exists_value := fun _ => ⟨rfl, rfl⟩

theorem roundTripFilter_idGreaterFilter : RoundTripFilter sampleEnv idGreaterFilter where
  path := by decide
  field := ⟨.mk "int".toList none, rfl, Or.inl rfl, fun _ _ => by decide!⟩
  operator := ⟨">".toList, rfl⟩
  target_clean := cleanName_of_decide (by decide)
  path_clean := cleanName_user_id
  operator_clean := cleanName_of_decide (by decide)
  value_line := by decide
  exists_value := fun h => absurd h (by decide)

theorem roundTripFilter_sampleFilters :
    ∀ filter ∈ sampleFilters, RoundTripFilter sampleEnv filter := by
  intro filter h
  simp only [sampleFilters, List.mem_cons, List.mem_singleton, List.not_mem_nil, or_false] at h
  rcases h with e | e | e | e <;> rw [e]
  · exact roundTripFilter_textFilter
  · exact roundTripFilter_idInFilter
  · exact roundTripFilter_idExistsFilter
  · exact roundTripFilter_idGreaterFilter

theorem operatorCodes_sampleFilters :
    ∀ filter ∈ sampleFilters, ∀ operatorCode,
      getOperatorCode sampleEnv filter.operator = some operatorCode → '\n' ∉ operatorCode := by
  intro filter h
  simp only [sampleFilters, List.mem_cons, List.mem_singleton, List.not_mem_nil, or_false] at h
  rcases h with e | e | e | e <;> rw [e] <;> intro operatorCode hc
  · have e2 : getOperatorCode sampleEnv textFilter.operator = some "contains".toList := rfl
    rw [e2] at hc; cases hc; decide
  · have e2 : getOperatorCode sampleEnv idInFilter.operator = some "in".toList := rfl
    rw [e2] at hc; cases hc; decide
  · have e2 : getOperatorCode sampleEnv idExistsFilter.operator = some "exists".toList := rfl
    rw [e2] at hc; cases hc; decide
  · have e2 : getOperatorCode sampleEnv idGreaterFilter.operator = some ">".toList := rfl
    rw [e2] at hc; cases hc; decide

theorem sampleEscape_keeps_lines (s : Str) (b : Bool) :
    '\n' ∉ s → '\n' ∉ sampleEnv.escapeCsdl s b :=
  fun _ => newline_not_mem_sampleEscape s

/-! ### The model on the sample document -/

theorem getJCSDLForFilters_sampleFilters :
    getJCSDLForFilters sampleEnv sampleFilters (some "OR".toList) = .ret sampleDocument := by
  decide!

theorem parseJCSDL_sampleDocument :
    parseJCSDL sampleEnv sampleDocument
      = .ret { filters := sampleFilters.map some, logic := some "OR".toList } := by
  decide!
/-! ### The encoder's loop -/

theorem validLogic_eq_normalLogic (logic : Option Str) : validLogic logic = normalLogic logic := by
  unfold validLogic normalLogic
  cases logic with
  | none => decide
  | some l =>
    dsimp only
    by_cases hnil : l = []
    · subst hnil; decide
    · rw [if_neg hnil]
      by_cases hand : l = "AND".toList
      · subst hand; decide
      · by_cases hor : l = "OR".toList
        · subst hor; decide
        · have h1 : ¬ (l = "AND".toList ∨ l = "OR".toList) := fun h => h.elim hand hor
          have h2 : ¬ (some l = some "AND".toList) := fun h => hand (Option.some.inj h)
          have h3 : ¬ (some l = some "OR".toList) := fun h => hor (Option.some.inj h)
          rw [if_neg h1, if_neg h2, if_neg h3]

theorem filterToCSDL_threw_iff (env : Env) (filter : Filter) :
    filterToCSDL env filter = .threw ↔
      ∃ fieldInfo value, getFieldInfo env filter.target filter.fieldPath = some fieldInfo ∧
        valueToCSDL env filter.value fieldInfo filter.operator = some value ∧
        getOperatorCode env filter.operator = none := by
  unfold filterToCSDL filterToCSDLCode
  cases hinfo : getFieldInfo env filter.target filter.fieldPath with
  | none => simp
  | some fieldInfo =>
    cases hval : valueToCSDL env filter.value fieldInfo filter.operator with
    | none => simp [hval]
    | some value =>
      cases hopc : getOperatorCode env filter.operator with
      | none => simp [hval]
      | some operatorCode =>
        simp only [hval]
        split_ifs <;> simp

theorem filterToCSDL_retFalse_iff (env : Env) (filter : Filter) :
    filterToCSDL env filter = .retFalse ↔
      (getFieldInfo env filter.target filter.fieldPath = none ∨
        ∃ fieldInfo, getFieldInfo env filter.target filter.fieldPath = some fieldInfo ∧
          valueToCSDL env filter.value fieldInfo filter.operator = none) := by
  unfold filterToCSDL filterToCSDLCode
  cases hinfo : getFieldInfo env filter.target filter.fieldPath with
  | none => simp
  | some fieldInfo =>
    cases hval : valueToCSDL env filter.value fieldInfo filter.operator with
    | none => simp [hval]
    | some value =>
      cases hopc : getOperatorCode env filter.operator with
      | none => simp [hval]
      | some operatorCode =>
        simp only [hval]
        split_ifs <;> simp [hval]

theorem eachFilter_eq_filterMap (env : Env) :
    ∀ (filters : List Filter) (filterCodes : List Str),
      (∀ filter ∈ filters, filterToCSDL env filter ≠ .threw) →
      eachFilter env filters filterCodes
        = .ret (filterCodes ++ filters.filterMap (encodedBlock env)) := by
  intro filters
  induction filters with
  | nil => intro filterCodes _; simp [eachFilter]
  | cons filter rest ih =>
    intro filterCodes h
    have hrest := fun acc => ih acc (fun g hg => h g (by simp [hg]))
    unfold eachFilter
    cases hf : filterToCSDL env filter with
    | threw => exact absurd hf (h filter (by simp))
    | retFalse =>
      dsimp only
      rw [hrest, List.filterMap_cons]
      simp [encodedBlock, hf]
    | ret block =>
      dsimp only
      rw [hrest, List.filterMap_cons]
      simp [encodedBlock, hf]

theorem eachFilter_threw (env : Env) :
    ∀ (filters : List Filter) (filterCodes : List Str) (filter : Filter),
      filter ∈ filters → filterToCSDL env filter = .threw →
      eachFilter env filters filterCodes = .threw := by
  intro filters
  induction filters with
  | nil => intro _ filter h; exact absurd h (List.not_mem_nil _)
  | cons first rest ih =>
    intro filterCodes filter hmem hthrew
    unfold eachFilter
    cases hf : filterToCSDL env first with
    | threw => rfl
    | retFalse =>
      dsimp only
      rcases List.mem_cons.mp hmem with e | hm
      · rw [e, hf] at hthrew; exact Outcome.noConfusion hthrew
      · exact ih _ filter hm hthrew
    | ret block =>
      dsimp only
      rcases List.mem_cons.mp hmem with e | hm
      · rw [e, hf] at hthrew; exact Outcome.noConfusion hthrew
      · exact ih _ filter hm hthrew

theorem eachFilter_ne_retFalse (env : Env) :
    ∀ (filters : List Filter) (filterCodes : List Str),
      eachFilter env filters filterCodes ≠ .retFalse := by
  intro filters
  induction filters with
  | nil => intro _; simp [eachFilter]
  | cons first rest ih =>
    intro filterCodes
    unfold eachFilter
    cases hf : filterToCSDL env first with
    | threw => exact Outcome.noConfusion
    | retFalse => exact ih _
    | ret block => exact ih _

theorem getJCSDLForFilters_of_codes {env : Env} {filters : List Filter} {logic : Option Str}
    {filterCodes : List Str} (h : eachFilter env filters [] = .ret filterCodes) :
    getJCSDLForFilters env filters logic
      = .ret ("// JCSDL_VERSION ".toList ++ v ++ "\n".toList ++ "// JCSDL_MASTER ".toList
        ++ encodeJCSDL (join ("\n".toList ++ validLogic logic ++ "\n".toList) filterCodes)
          (some (validLogic logic))
        ++ " ".toList ++ validLogic logic ++ "\n".toList
        ++ join ("\n".toList ++ validLogic logic ++ "\n".toList) filterCodes
        ++ "\n// JCSDL_MASTER_END".toList) := by
  unfold getJCSDLForFilters
  rw [h]

theorem split_encoded_text (hash logic output : Str) (hh : '\n' ∉ hash) (hl : '\n' ∉ logic) :
    split '\n' ("// JCSDL_VERSION ".toList ++ v ++ "\n".toList ++ "// JCSDL_MASTER ".toList
      ++ hash ++ " ".toList ++ logic ++ "\n".toList ++ output
      ++ "\n// JCSDL_MASTER_END".toList)
      = ("// JCSDL_VERSION ".toList ++ v)
        :: ("// JCSDL_MASTER ".toList ++ hash ++ " ".toList ++ logic)
        :: (split '\n' output ++ ["// JCSDL_MASTER_END".toList]) := by
  have hmaster : '\n' ∉ "// JCSDL_MASTER ".toList ++ hash ++ " ".toList ++ logic :=
    not_mem_append (not_mem_append (not_mem_append (by decide) hh) (by decide)) hl
  have hv : '\n' ∉ "// JCSDL_VERSION ".toList ++ v := by decide
  have e : "// JCSDL_VERSION ".toList ++ v ++ "\n".toList ++ "// JCSDL_MASTER ".toList
      ++ hash ++ " ".toList ++ logic ++ "\n".toList ++ output
      ++ "\n// JCSDL_MASTER_END".toList
      = ("// JCSDL_VERSION ".toList ++ v) ++ '\n' ::
        (("// JCSDL_MASTER ".toList ++ hash ++ " ".toList ++ logic)
          ++ '\n' :: (output ++ '\n' :: "// JCSDL_MASTER_END".toList)) := by
    simp
  rw [e, split_append_sep_of_not_mem hv, split_append_sep_of_not_mem hmaster,
    split_append_sep, split_eq_singleton (by decide : '\n' ∉ "// JCSDL_MASTER_END".toList)]

/-! ### The resolver -/

theorem property_of_lookup {α : Type} (inherited : α) {object : List (Str × α)} {name : Str}
    {value : α} (h : object.lookup name = some value) :
    property inherited object name = some value := by
  unfold property
  rw [h]

theorem property_of_not_inherited {α : Type} (inherited : α) (object : List (Str × α))
    {name : Str} (h : inheritedNames.contains name = false) :
    property inherited object name = object.lookup name := by
  unfold property
  cases object.lookup name with
  | none =>
    dsimp only
    rw [if_neg (by rw [h]; exact Bool.false_ne_true)]
  | some value => rfl

theorem property_of_inherited {α : Type} (inherited : α) {object : List (Str × α)}
    {name : Str} (hname : inheritedNames.contains name = true)
    (habsent : object.lookup name = none) :
    property inherited object name = some inherited := by
  unfold property
  rw [habsent]
  dsimp only
  rw [if_pos hname]

theorem descend_eq_foldlM (field : FieldInfo) (fieldPath : List Str)
    (h : ∀ name ∈ fieldPath, inheritedNames.contains name = false) :
    descend field fieldPath = fieldPath.foldlM stepInto field := by
  induction fieldPath generalizing field with
  | nil => rfl
  | cons name rest ih =>
    have hrest := fun f => ih f (fun n hn => h n (by simp [hn]))
    rw [List.foldlM_cons]
    unfold descend
    cases hf : field.fields with
    | none => simp [stepInto, hf]
    | some fields =>
      dsimp only
      rw [property_of_not_inherited _ _ (h name (by simp))]
      cases hl : fields.lookup name with
      | none => simp [stepInto, hf, hl]
      | some next => simp [stepInto, hf, hl, hrest]

theorem getFieldInfo_eq_resolvePath (env : Env) (target : Str) (fieldPath : List Str)
    (ht : inheritedNames.contains target = false)
    (hp : ∀ name ∈ fieldPath, inheritedNames.contains name = false) :
    getFieldInfo env target fieldPath = resolvePath env.definition target fieldPath := by
  unfold getFieldInfo resolvePath
  rw [property_of_not_inherited _ _ ht]
  cases env.definition.targets.lookup target with
  | none => rfl
  | some field => exact descend_eq_foldlM field fieldPath hp

/-! ### The shape of the body -/

theorem parseJCSDL_of_lines {env : Env} {code masterLine : Str} {rest : List Str}
    (hlines : (split '\n' code).drop 1 = masterLine :: rest) :
    parseJCSDL env code =
      if ¬ verifyJCSDL masterLine rest.dropLast then .retFalse
      else
        match parseLines env rest.dropLast [] with
        | .ret filters => .ret { filters := filters, logic := (split ' ' masterLine)[3]? }
        | .retFalse => .retFalse
        | .threw => .threw := by
  unfold parseJCSDL
  rw [hlines]

theorem parseJCSDL_of_verified {env : Env} {code masterLine : Str} {rest : List Str}
    (hlines : (split '\n' code).drop 1 = masterLine :: rest)
    (hdoc : verifyJCSDL masterLine rest.dropLast = true) :
    parseJCSDL env code =
      match parseLines env rest.dropLast [] with
      | .ret filters => .ret { filters := filters, logic := (split ' ' masterLine)[3]? }
      | .retFalse => .retFalse
      | .threw => .threw := by
  rw [parseJCSDL_of_lines hlines, hdoc, if_neg (by simp)]

theorem parseLines_of_lone_start (env : Env) (n : Nat) :
    ∀ (lines : List Str) (acc : List (Option Filter)), lines.length = 4 * n + 1 →
      parseLines env lines acc = .retFalse ∨ parseLines env lines acc = .threw := by
  induction n with
  | zero =>
    intro lines acc h
    match lines, h with
    | [_], _ => exact Or.inr rfl
  | succ n ih =>
    intro lines acc h
    match lines, h with
    | a :: b :: c :: d :: rest, h =>
      have hrest : rest.length = 4 * n + 1 := by
        simp only [List.length_cons] at h
        omega
      rw [parseLines_cons_cons]
      cases parseGroup env a b acc with
      | threw => exact Or.inr rfl
      | retFalse => exact Or.inl rfl
      | ret filters => exact ih rest filters hrest

theorem parseLines_append_line (env : Env) (n : Nat) :
    ∀ (lines : List Str) (acc : List (Option Filter)) (extra : Str),
      (lines.length = 4 * n + 2 ∨ lines.length = 4 * n + 3) →
      parseLines env (lines ++ [extra]) acc = parseLines env lines acc := by
  induction n with
  | zero =>
    intro lines acc extra h
    match lines, h with
    | [a, b], _ => rfl
    | [a, b, c], _ =>
      show parseLines env [a, b, c, extra] acc = parseLines env [a, b, c] acc
      rw [parseLines_cons_cons, parseLines_cons_cons]
      rfl
    | [], h => simp at h
    | [_], h => simp at h
    | _ :: _ :: _ :: _ :: rest, h =>
      simp only [List.length_cons] at h
      omega
  | succ n ih =>
    intro lines acc extra h
    match lines, h with
    | a :: b :: c :: d :: rest, h =>
      have hrest : rest.length = 4 * n + 2 ∨ rest.length = 4 * n + 3 := by
        simp only [List.length_cons] at h
        omega
      show parseLines env (a :: b :: c :: d :: (rest ++ [extra])) acc = _
      rw [parseLines_cons_cons, parseLines_cons_cons]
      cases parseGroup env a b acc with
      | threw => rfl
      | retFalse => rfl
      | ret filters => exact ih rest filters extra hrest
    | [], h => simp at h
    | [_], h => simp at h
    | [_, _], h => simp at h
    | [_, _, _], h => simp at h

theorem length_eq_of_mod {k r : Nat} (h : k % 4 = r) : k = 4 * (k / 4) + r := by
  omega

theorem parseJCSDL_of_encoded {env : Env} {logic output : Str}
    (hl : logic = "AND".toList ∨ logic = "OR".toList) :
    parseJCSDL env ("// JCSDL_VERSION ".toList ++ v ++ "\n".toList ++ "// JCSDL_MASTER ".toList
      ++ encodeJCSDL output (some logic) ++ " ".toList ++ logic ++ "\n".toList ++ output
      ++ "\n// JCSDL_MASTER_END".toList)
      = match parseLines env (split '\n' output) [] with
        | .ret filters => .ret { filters := filters, logic := some logic }
        | .retFalse => .retFalse
        | .threw => .threw := by
  have hlsp : ' ' ∉ logic := by rcases hl with h | h <;> rw [h] <;> decide
  have hlnl : '\n' ∉ logic := by rcases hl with h | h <;> rw [h] <;> decide
  have hlines : (split '\n' ("// JCSDL_VERSION ".toList ++ v ++ "\n".toList
      ++ "// JCSDL_MASTER ".toList ++ encodeJCSDL output (some logic) ++ " ".toList ++ logic
      ++ "\n".toList ++ output ++ "\n// JCSDL_MASTER_END".toList)).drop 1
      = ("// JCSDL_MASTER ".toList ++ encodeJCSDL output (some logic) ++ " ".toList ++ logic)
        :: (split '\n' output ++ ["// JCSDL_MASTER_END".toList]) := by
    rw [split_encoded_text _ _ _ (newline_not_mem_encodeJCSDL _ _) hlnl]
    rfl
  have hverify : verifyJCSDL ("// JCSDL_MASTER ".toList ++ encodeJCSDL output (some logic)
      ++ " ".toList ++ logic)
      (split '\n' output ++ ["// JCSDL_MASTER_END".toList]).dropLast = true := by
    rw [dropLast_append_singleton,
      verifyJCSDL_master_line _ _ _ (space_not_mem_encodeJCSDL _ _) hlsp]
    have hj : join "\n".toList (split '\n' output) = output := join_split '\n' output
    rw [hj]
    exact decide_eq_true rfl
  rw [parseJCSDL_of_verified hlines hverify, dropLast_append_singleton,
    split_master_line _ _ (space_not_mem_encodeJCSDL _ _) hlsp]
  rfl
/-! ### Paths and quotes -/

theorem replace_of_not_mem {pat rep : Char} {s : Str} (h : pat ∉ s) : replace pat rep s = s := by
  induction s with
  | nil => rfl
  | cons c cs ih =>
    have hc : c ≠ pat := fun e => h (by simp [e])
    have hcs : pat ∉ cs := fun e => h (by simp [e])
    unfold replace
    rw [if_neg hc, ih hcs]

theorem replace_ne_of_mem {pat rep : Char} {s : Str} (h : pat ∈ s) (hne : rep ≠ pat) :
    replace pat rep s ≠ s := by
  induction s with
  | nil => exact absurd h (List.not_mem_nil _)
  | cons c cs ih =>
    unfold replace
    by_cases hc : c = pat
    · rw [if_pos hc, hc]
      intro e
      exact hne (List.cons.inj e).1
    · rw [if_neg hc]
      have hcs : pat ∈ cs := by
        rcases List.mem_cons.mp h with e | e
        · exact absurd e.symm hc
        · exact e
      intro e
      exact ih hcs (List.cons.inj e).2

theorem replace_eq_self_iff {pat rep : Char} {s : Str} (hne : rep ≠ pat) :
    replace pat rep s = s ↔ pat ∉ s :=
  ⟨fun e hmem => replace_ne_of_mem hmem hne e, replace_of_not_mem⟩

theorem replace_first {pat rep : Char} {a b : Str} (h : pat ∉ a) :
    replace pat rep (a ++ pat :: b) = a ++ rep :: b := by
  induction a with
  | nil => simp [replace]
  | cons c cs ih =>
    have hc : c ≠ pat := fun e => h (by simp [e])
    have hcs : pat ∉ cs := fun e => h (by simp [e])
    rw [List.cons_append, replace, if_neg hc, ih hcs]
    rfl

theorem filterToCSDLCode_syntax_head {env : Env} {filter : Filter} {code : FilterCode}
    (h : filterToCSDLCode env filter = .ret code) :
    ∃ tail, code.jcsdlSyntax = filter.target ++ (".".toList ++ (fieldToCSDL filter.fieldPath
      ++ (",".toList ++ (filter.operator ++ tail)))) := by
  obtain ⟨fieldInfo, value, operatorCode, hinfo, hval, hopc⟩ := filterToCSDLCode_ret_inv h
  rw [filterToCSDLCode_of_parts hinfo hval hopc] at h
  by_cases hop : filter.operator = "exists".toList
  · rw [if_neg (not_not.mpr hop)] at h
    simp only [Outcome.ret.injEq] at h
    rw [← h]
    exact ⟨[], by simp⟩
  · rw [if_pos hop] at h
    simp only [Outcome.ret.injEq] at h
    have hs := congrArg FilterCode.jcsdlSyntax h
    simp only [List.append_assoc] at hs
    exact ⟨_, hs.symm⟩

theorem filterFromJCSDL_ret_path {env : Env} {jcsdlCode csdl : Str} {decoded : Filter}
    (h : filterFromJCSDL env (some jcsdlCode) csdl = .ret decoded) :
    ∃ path rest, split ',' jcsdlCode = path :: rest ∧
      split '.' path = decoded.target :: decoded.fieldPath := by
  unfold filterFromJCSDL at h
  dsimp only at h
  cases hc : split ',' jcsdlCode with
  | nil => exact absurd hc (split_ne_nil _ _)
  | cons path rest =>
    rw [hc] at h
    dsimp only at h
    cases hp : split '.' path with
    | nil => exact absurd hp (split_ne_nil _ _)
    | cons target fieldPath =>
      rw [hp] at h
      dsimp only at h
      refine ⟨path, rest, rfl, ?_⟩
      cases hinfo : getFieldInfo env target fieldPath with
      | none => rw [hinfo] at h; exact Outcome.noConfusion h
      | some fieldInfo =>
        rw [hinfo] at h
        dsimp only at h
        match rest, h with
        | [], h => exact Outcome.noConfusion h
        | operator :: rest, h =>
          dsimp only at h
          split_ifs at h with hop
          · match rest, h with
            | [], h => exact Outcome.noConfusion h
            | rangeCode :: rest, h =>
              simp only [Outcome.ret.injEq] at h
              rw [← h]
              exact hp
          · simp only [Outcome.ret.injEq] at h
            rw [← h]
            exact hp

theorem filterFromJCSDL_of_unresolved {env : Env} {jcsdlCode csdl path target : Str}
    {fieldPath rest : List Str}
    (hcode : split ',' jcsdlCode = path :: rest)
    (hpath : split '.' path = target :: fieldPath)
    (hinfo : getFieldInfo env target fieldPath = none) :
    filterFromJCSDL env (some jcsdlCode) csdl = .retFalse := by
  unfold filterFromJCSDL
  simp only [hcode, hpath, hinfo]

theorem split_empty_path_code {target tail : Str} (hcomma : ',' ∉ target) :
    ∃ rest, split ',' (target ++ (".".toList ++ (fieldToCSDL [] ++ (",".toList ++ tail))))
      = (target ++ ".".toList) :: rest := by
  have e : target ++ (".".toList ++ (fieldToCSDL [] ++ (",".toList ++ tail)))
      = (target ++ ".".toList) ++ ',' :: tail := by
    simp [fieldToCSDL, join]
  have hc : ',' ∉ target ++ ".".toList := not_mem_append hcomma (by decide)
  rw [e, split_append_sep_of_not_mem hc]
  exact ⟨_, rfl⟩

theorem split_target_dot {target : Str} (hdot : '.' ∉ target) :
    split '.' (target ++ ".".toList) = [target, []] := by
  have e : target ++ ".".toList = target ++ '.' :: [] := by simp
  rw [e, split_append_sep_of_not_mem hdot]
  rfl
/-! ### Values that are not numbers -/

theorem mem_dropWhile_of_not {p : Char → Bool} {c : Char} {s : Str} (h : c ∈ s)
    (hc : p c = false) : c ∈ s.dropWhile p := by
  induction s with
  | nil => exact absurd h (List.not_mem_nil _)
  | cons a t ih =>
    rw [List.dropWhile_cons]
    by_cases ha : p a = true
    · rw [if_pos ha]
      rcases List.mem_cons.mp h with e | e
      · rw [e, ha] at hc; exact Bool.noConfusion hc
      · exact ih e
    · rw [if_neg ha]
      exact h

theorem mem_trim {c : Char} {s : Str} (h : c ∈ s) (hc : isStrWhiteSpaceChar c = false) :
    c ∈ trim s := by
  unfold trim
  rw [List.mem_reverse]
  exact mem_dropWhile_of_not (List.mem_reverse.mpr (mem_dropWhile_of_not h hc)) hc

theorem mem_hex_of_isDigitOf {base : Nat} {c : Char} (h : isDigitOf base c = true) :
    c ∈ "0123456789abcdefABCDEF".toList := by
  have hc : c = Char.ofNat c.toNat := by simp
  have hdv : (digitValue c).isSome = true := by
    unfold isDigitOf at h
    cases hd : digitValue c with
    | none => rw [hd] at h; exact Bool.noConfusion h
    | some v => rfl
  simp only [digitValue, char_le_iff] at hdv
  have e0 : '0'.toNat = 48 := rfl
  have e9 : '9'.toNat = 57 := rfl
  have ea : 'a'.toNat = 97 := rfl
  have ef : 'f'.toNat = 102 := rfl
  have eA : 'A'.toNat = 65 := rfl
  have eF : 'F'.toNat = 70 := rfl
  rw [e0, e9, ea, ef, eA, eF] at hdv
  have hrange : (48 ≤ c.toNat ∧ c.toNat ≤ 57) ∨ (97 ≤ c.toNat ∧ c.toNat ≤ 102)
      ∨ (65 ≤ c.toNat ∧ c.toNat ≤ 70) := by
    split_ifs at hdv with h1 h2 h3
    · exact Or.inl h1
    · exact Or.inr (Or.inl h2)
    · exact Or.inr (Or.inr h3)
    · exact Bool.noConfusion hdv
  generalize c.toNat = n at hc hrange
  subst hc
  rcases hrange with ⟨hlo, hhi⟩ | ⟨hlo, hhi⟩ | ⟨hlo, hhi⟩ <;> interval_cases n <;> decide

theorem not_numeric_ne {c x : Char} (hc : isNumericChar c = false)
    (hx : isNumericChar x = true) : c ≠ x := by
  intro e
  rw [e, hx] at hc
  exact Bool.noConfusion hc

theorem isDigitOf_of_not_numeric {c : Char} (hc : isNumericChar c = false) (base : Nat) :
    isDigitOf base c = false := by
  cases h : isDigitOf base c with
  | false => rfl
  | true =>
    have hmem := mem_hex_of_isDigitOf h
    have hall : ∀ x ∈ "0123456789abcdefABCDEF".toList, isNumericChar x = true := by decide
    rw [hall c hmem] at hc
    exact Bool.noConfusion hc

theorem all_digits_false {base : Nat} {c : Char} {ds : Str} (hmem : c ∈ ds)
    (hc : isDigitOf base c = false) : ds.all (isDigitOf base) = false := by
  cases h : ds.all (isDigitOf base) with
  | false => rfl
  | true =>
    rw [List.all_eq_true] at h
    rw [h c hmem] at hc
    exact Bool.noConfusion hc

theorem integerLiteral_of_foreign {base : Nat} {c : Char} {ds : Str} (hmem : c ∈ ds)
    (hc : isNumericChar c = false) : integerLiteral base ds = .nan := by
  unfold integerLiteral
  rw [if_neg]
  intro h
  rw [all_digits_false hmem (isDigitOf_of_not_numeric hc base)] at h
  exact Bool.noConfusion h.2

theorem signedInteger_of_foreign {c : Char} {s : Str} (hmem : c ∈ s)
    (hc : isNumericChar c = false) : signedInteger s = none := by
  have hbody : ∀ ds : Str, c ∈ ds →
      (if ds ≠ [] ∧ ds.all (isDigitOf 10) then some (digitsValue 10 ds) else none) = none := by
    intro ds hds
    rw [if_neg]
    intro h
    rw [all_digits_false hds (isDigitOf_of_not_numeric hc 10)] at h
    exact Bool.noConfusion h.2
  have htail : ∀ (x : Char) (ds : Str), isNumericChar x = true → c ∈ x :: ds → c ∈ ds := by
    intro x ds hx h
    rcases List.mem_cons.mp h with e | e
    · exact absurd e (not_numeric_ne hc hx)
    · exact e
  unfold signedInteger
  split
  · dsimp only
    rw [hbody _ (htail '+' _ (by decide) hmem)]; rfl
  · dsimp only
    rw [hbody _ (htail '-' _ (by decide) hmem)]; rfl
  · dsimp only
    rw [hbody _ hmem]; rfl

theorem unsignedDecimalLiteral_of_foreign {c : Char} {s : Str} (negative : Bool)
    (hmem : c ∈ s) (hc : isNumericChar c = false) :
    unsignedDecimalLiteral negative s = .nan := by
  have hd := isDigitOf_of_not_numeric hc 10
  have hinf : s ≠ "Infinity".toList := by
    intro e
    rw [e] at hmem
    have hall : ∀ x ∈ "Infinity".toList, isNumericChar x = true := by decide
    rw [hall c hmem] at hc
    exact Bool.noConfusion hc
  have hafter : c ∈ s.dropWhile (isDigitOf 10) := mem_dropWhile_of_not hmem hd
  unfold unsignedDecimalLiteral
  rw [if_neg hinf]
  dsimp only
  have hfrac : c ∈ (match s.dropWhile (isDigitOf 10) with
      | '.' :: t => t.dropWhile (isDigitOf 10)
      | t => t) := by
    split
    · rename_i t heq
      rw [heq] at hafter
      rcases List.mem_cons.mp hafter with e | e
      · exact absurd e (not_numeric_ne hc (by decide))
      · exact mem_dropWhile_of_not e hd
    · exact hafter
  generalize (match s.dropWhile (isDigitOf 10) with
      | '.' :: t => t.dropWhile (isDigitOf 10)
      | t => t) = afterFrac at hfrac
  split_ifs
  · rfl
  · match afterFrac, hfrac with
    | e :: t, hfrac =>
      dsimp only
      split_ifs with he
      · have hct : c ∈ t := by
          rcases List.mem_cons.mp hfrac with h | h
          · rcases he with h1 | h1
            · rw [h1] at h; exact absurd h (not_numeric_ne hc (by decide))
            · rw [h1] at h; exact absurd h (not_numeric_ne hc (by decide))
          · exact h
        rw [signedInteger_of_foreign hct hc]
      · rfl

theorem stringToNumber_of_foreign {c : Char} {s : Str} (hmem : c ∈ s)
    (hws : isStrWhiteSpaceChar c = false) (hc : isNumericChar c = false) :
    stringToNumber s = .nan := by
  have ht := mem_trim hmem hws
  have htail : ∀ (x : Char) (ds : Str), isNumericChar x = true → c ∈ x :: ds → c ∈ ds := by
    intro x ds hx h
    rcases List.mem_cons.mp h with e | e
    · exact absurd e (not_numeric_ne hc hx)
    · exact e
  unfold stringToNumber
  split
  · rename_i heq; rw [heq] at ht; exact absurd ht (List.not_mem_nil _)
  · rename_i ds heq; rw [heq] at ht
    exact integerLiteral_of_foreign (htail _ _ (by decide) (htail _ _ (by decide) ht)) hc
  · rename_i ds heq; rw [heq] at ht
    exact integerLiteral_of_foreign (htail _ _ (by decide) (htail _ _ (by decide) ht)) hc
  · rename_i ds heq; rw [heq] at ht
    exact integerLiteral_of_foreign (htail _ _ (by decide) (htail _ _ (by decide) ht)) hc
  · rename_i ds heq; rw [heq] at ht
    exact integerLiteral_of_foreign (htail _ _ (by decide) (htail _ _ (by decide) ht)) hc
  · rename_i ds heq; rw [heq] at ht
    exact integerLiteral_of_foreign (htail _ _ (by decide) (htail _ _ (by decide) ht)) hc
  · rename_i ds heq; rw [heq] at ht
    exact integerLiteral_of_foreign (htail _ _ (by decide) (htail _ _ (by decide) ht)) hc
  · rename_i t heq; rw [heq] at ht
    exact unsignedDecimalLiteral_of_foreign false (htail _ _ (by decide) ht) hc
  · rename_i t heq; rw [heq] at ht
    exact unsignedDecimalLiteral_of_foreign true (htail _ _ (by decide) ht) hc
  · exact unsignedDecimalLiteral_of_foreign false ht hc

theorem isNaN_of_foreign {c : Char} {s : Str} (hmem : c ∈ s)
    (hws : isStrWhiteSpaceChar c = false) (hc : isNumericChar c = false) :
    isNaN s = true := by
  unfold isNaN
  rw [stringToNumber_of_foreign hmem hws hc]
  rfl

theorem isNaN_of_digits {s : Str} (hne : s ≠ []) (h : ∀ c ∈ s, isDigitOf 10 c = true) :
    isNaN s = false := by
  unfold isNaN
  rw [stringToNumber_digits hne h]
  rfl

theorem trim_of_blank {s : Str} (h : ∀ c ∈ s, isStrWhiteSpaceChar c = true) : trim s = [] := by
  unfold trim
  rw [List.dropWhile_eq_nil_iff.mpr h]
  rfl

theorem isNaN_of_blank {s : Str} (h : ∀ c ∈ s, isStrWhiteSpaceChar c = true) :
    isNaN s = false := by
  unfold isNaN stringToNumber
  rw [trim_of_blank h]
  rfl

/-! ## The claims -/

/-- C1 as stated fails: `lineBreakFilter` meets every proviso of the claim in
`lineBreakEnv` (non-empty path resolving to a `string` field, known operator, clean names,
value without line break; `unescapeCsdl` inverts `escapeCsdl`, which never emits a line
break), yet the document that `getJCSDLForFilters` returns for it is refused by
`parseJCSDL`: the operator's code holds a line break, so the fragment takes two lines and
the filter hash is checked against the first of them only. -/
theorem C1_counterexample :
    (∀ filter ∈ [lineBreakFilter], RoundTripFilter lineBreakEnv filter) ∧
    (∀ s b, lineBreakEnv.unescapeCsdl (lineBreakEnv.escapeCsdl s b) b = s) ∧
    (∀ s b, '\n' ∉ lineBreakEnv.escapeCsdl s b) ∧
    getJCSDLForFilters lineBreakEnv [lineBreakFilter] (some "AND".toList)
      = .ret lineBreakDocument ∧
    parseJCSDL lineBreakEnv lineBreakDocument = .retFalse ∧
    parseJCSDL lineBreakEnv lineBreakDocument
      ≠ .ret { filters := [some lineBreakFilter], logic := some "AND".toList } := by
  refine ⟨?_, fun s _ => sampleUnescape_sampleEscape s,
    fun s _ => newline_not_mem_sampleEscape s, by decide!, by decide!, by decide!⟩
  intro filter h
  rw [List.mem_singleton.mp h]
  exact roundTripFilter_lineBreakFilter

/-- C1, amended. Round trip for non-empty documents: for every non-empty list of filters
and every logic in {AND, OR}, `getJCSDLForFilters` returns a text and `parseJCSDL` of that
text returns the same filters in the same order and the same logic, provided each filter
meets `RoundTripFilter` (non-empty field path resolving to a field of type `int`, `string`
or `geo`, known operator, names free of space, comma, dot and line break, value without
line break, numeric for `int` unless the operator is `in`, empty value and no `cs` with
`exists`), the code of each filter's operator holds no line break, `unescapeCsdl` inverts
`escapeCsdl`, and `escapeCsdl` adds no line break. -/
theorem C1_round_trip (env : Env) (filters : List Filter) (logic : Str)
    (hlogic : logic = "AND".toList ∨ logic = "OR".toList)
    (hne : filters ≠ [])
    (hfilters : ∀ filter ∈ filters, RoundTripFilter env filter)
    (hcodes : ∀ filter ∈ filters, ∀ operatorCode,
      getOperatorCode env filter.operator = some operatorCode → '\n' ∉ operatorCode)
    (hinv : ∀ s b, env.unescapeCsdl (env.escapeCsdl s b) b = s)
    (hesc : ∀ s b, '\n' ∉ s → '\n' ∉ env.escapeCsdl s b) :
    ∃ text, getJCSDLForFilters env filters (some logic) = .ret text ∧
      parseJCSDL env text = .ret { filters := filters.map some, logic := some logic } :=
  roundTrip_of_filters hlogic hne (fun filter hf =>
    roundTrip_filter (hfilters filter hf) (hcodes filter hf) (hinv _ _)
      (hesc _ _ (hfilters filter hf).value_line))

/-- C1 (amended) at the four sample filters with the logic `OR`. -/
theorem C1_round_trip_witness :
    ∃ text, getJCSDLForFilters sampleEnv sampleFilters (some "OR".toList) = .ret text ∧
      parseJCSDL sampleEnv text
        = .ret { filters := sampleFilters.map some, logic := some "OR".toList } :=
  C1_round_trip sampleEnv sampleFilters "OR".toList (Or.inr rfl) (by decide)
    roundTripFilter_sampleFilters operatorCodes_sampleFilters
    (fun s _ => sampleUnescape_sampleEscape s) sampleEscape_keeps_lines

/-- C2. Document-level tamper detection: when the text has a master line and the hash it
carries (its third space-separated token) differs from the digest of `logic + "\n" + body`,
`logic` being its fourth token and `body` the lines between the master line and the last
line joined by line breaks, `parseJCSDL` returns `false`, whatever the definition in use. -/
theorem C2_document_tamper_detection (env : Env) (code masterLine : Str) (rest : List Str)
    (hlines : (split '\n' code).drop 1 = masterLine :: rest)
    (hhash : (split ' ' masterLine)[2]? ≠
      some (Crypto.MD5 (toStr ((split ' ' masterLine)[3]?) ++ "\n".toList
        ++ join "\n".toList rest.dropLast))) :
    parseJCSDL env code = .retFalse := by
  unfold parseJCSDL
  rw [hlines]
  have hv : verifyJCSDL masterLine rest.dropLast = false := by
    simp only [verifyJCSDL, encodeJCSDL]
    exact decide_eq_false hhash
  simp [hv]

/-- C2 at the edited sample document. -/
theorem C2_document_tamper_detection_witness :
    parseJCSDL sampleEnv editedDocument = .retFalse :=
  C2_document_tamper_detection sampleEnv editedDocument
    "// JCSDL_MASTER d7be82d7208f489e67f51b434689408f AND".toList
    ["// JCSDL_START d66a04855d15b3622cc1bae5b123dddd twitter.text,contains,26-10,cs".toList,
     "twitter.text cs contains \"say \\\"HI\\\"\"".toList,
     "// JCSDL_END".toList,
     "// JCSDL_MASTER_END".toList]
    (by decide!) (by decide!)

/-- C3 as stated fails: in `noDescriptorDocument` the master hash verifies and the second
group's start line carries a hash that differs from the digest of its fragment, yet
`parseJCSDL` does not return `false`: the first group, whose start line has no descriptor,
raises a `TypeError` before the second group is looked at. -/
theorem C3_counterexample :
    (∃ masterLine rest jcsdlDescription csdl,
      (split '\n' noDescriptorDocument).drop 1 = masterLine :: rest ∧
      verifyJCSDL masterLine rest.dropLast = true ∧
      rest.dropLast[4]? = some jcsdlDescription ∧ rest.dropLast[5]? = some csdl ∧
      (split ' ' jcsdlDescription)[2]? ≠ some (Crypto.MD5 csdl)) ∧
    parseJCSDL sampleEnv noDescriptorDocument = .threw ∧
    parseJCSDL sampleEnv noDescriptorDocument ≠ .retFalse := by
  refine ⟨⟨"// JCSDL_MASTER b952e090e6bd6cf94071dab643a65936 AND".toList,
    ["// JCSDL_START c4512bc909bf3ed0db97489ddc109f5c".toList,
     "twitter.text contains \"a\"".toList,
     "// JCSDL_END".toList,
     "AND".toList,
     "// JCSDL_START 9b017845dbbf5357edccfa1558edb49f twitter.text,contains,23-1".toList,
     "twitter.text contains \"B\"".toList,
     "// JCSDL_END".toList,
     "// JCSDL_MASTER_END".toList],
    "// JCSDL_START 9b017845dbbf5357edccfa1558edb49f twitter.text,contains,23-1".toList,
    "twitter.text contains \"B\"".toList, ?_, ?_, ?_, ?_, ?_⟩, ?_, ?_⟩ <;> decide!

/-- C3, amended. Filter-level tamper detection: when the master hash verifies and the
start line of the group at lines `4k`, `4k+1` of the body carries a hash (third token)
that differs from the digest of the group's fragment line, `parseJCSDL` never returns a
result object: it returns `false` or it has been left by a `TypeError` raised in an earlier
group; and it returns `false` whenever no earlier group raises in `filterFromJCSDL`. -/
theorem C3_filter_tamper_detection (env : Env) (code masterLine : Str) (rest : List Str)
    (k : Nat) (jcsdlDescription csdl : Str)
    (hlines : (split '\n' code).drop 1 = masterLine :: rest)
    (hdoc : verifyJCSDL masterLine rest.dropLast = true)
    (hd : rest.dropLast[4 * k]? = some jcsdlDescription)
    (hc : rest.dropLast[4 * k + 1]? = some csdl)
    (hm : (split ' ' jcsdlDescription)[2]? ≠ some (Crypto.MD5 csdl)) :
    (∀ parsed, parseJCSDL env code ≠ .ret parsed) ∧
    (parseJCSDL env code = .retFalse ∨ parseJCSDL env code = .threw) ∧
    ((∀ j < k, ∀ dj cj, rest.dropLast[4 * j]? = some dj → rest.dropLast[4 * j + 1]? = some cj →
        filterFromJCSDL env (split ' ' dj)[3]? cj ≠ .threw) →
      parseJCSDL env code = .retFalse) := by
  have hloop := parseLines_of_mismatch env k rest.dropLast [] jcsdlDescription csdl hd hc hm
  have hparse : parseJCSDL env code =
      match parseLines env rest.dropLast [] with
      | .ret filters => .ret { filters := filters, logic := (split ' ' masterLine)[3]? }
      | .retFalse => .retFalse
      | .threw => .threw := by
    unfold parseJCSDL
    rw [hlines]
    dsimp only
    rw [hdoc, if_neg (by simp)]
  have hcases : parseJCSDL env code = .retFalse ∨ parseJCSDL env code = .threw := by
    rcases hloop.1 with h | h
    · left; rw [hparse, h]
    · right; rw [hparse, h]
  refine ⟨?_, hcases, ?_⟩
  · intro parsed hp
    rcases hcases with h | h <;> rw [h] at hp <;> exact Outcome.noConfusion hp
  · intro hno
    rw [hparse, hloop.2 hno]

/-- C3 (amended) at `staleFilterHashDocument`, where the first group decodes and the
second carries a stale hash: the decode returns `false`. -/
theorem C3_filter_tamper_detection_witness :
    parseJCSDL sampleEnv staleFilterHashDocument = .retFalse :=
  (C3_filter_tamper_detection sampleEnv staleFilterHashDocument
    "// JCSDL_MASTER ca38389e692aed781194e2c157fe94be AND".toList
    ["// JCSDL_START 60e902347a07b638cc0261a10b001869 twitter.user.id,greaterThan,18-2".toList,
     "twitter.user.id > 42".toList,
     "// JCSDL_END".toList,
     "AND".toList,
     "// JCSDL_START 9b017845dbbf5357edccfa1558edb49f twitter.text,contains,23-1".toList,
     "twitter.text contains \"B\"".toList,
     "// JCSDL_END".toList,
     "// JCSDL_MASTER_END".toList]
    1
    "// JCSDL_START 9b017845dbbf5357edccfa1558edb49f twitter.text,contains,23-1".toList
    "twitter.text contains \"B\"".toList
    (by decide!) (by decide!) (by decide!) (by decide!) (by decide!)).2.2
    (by
      intro j hj dj cj hdj hcj
      have hj0 : j = 0 := by omega
      subst hj0
      have e1 : dj = "// JCSDL_START 60e902347a07b638cc0261a10b001869 twitter.user.id,greaterThan,18-2".toList := by
        simpa using hdj.symm
      have e2 : cj = "twitter.user.id > 42".toList := by
        simpa using hcj.symm
      subst e1 e2
      decide!)

/-- C4 fails on the code: in `unknownFieldDocument` every hash verifies and the second
filter's path descends into `age`, which `getFieldInfo` does not find; `parseJCSDL` still
returns a result object, holding the first filter and `false` in place of the second. -/
theorem C4_unknown_field_is_pushed :
    getFieldInfo sampleEnv "twitter".toList ["user".toList, "age".toList] = none ∧
    filterFromJCSDL sampleEnv (some "twitter.user.age,greaterThan,19-2".toList)
      "twitter.user.age > 18".toList = .retFalse ∧
    parseJCSDL sampleEnv unknownFieldDocument
      = .ret { filters := [some idGreaterFilter, none], logic := some "AND".toList } := by
  refine ⟨rfl, ?_, ?_⟩ <;> decide!

/-- C5. Hash consistency of the encoder's output: whenever `getJCSDLForFilters` returns a
text, splitting it on line breaks the way `parseJCSDL` does (first line dropped, second
line as master line, last line dropped) gives a master line and lines that `verifyJCSDL`
accepts. Nothing is assumed of the fragments, which may contain line breaks. -/
theorem C5_encoder_output_verifies (env : Env) (filters : List Filter) (logic : Option Str)
    (text : Str) (h : getJCSDLForFilters env filters logic = .ret text) :
    ∃ masterLine rest, (split '\n' text).drop 1 = masterLine :: rest ∧
      verifyJCSDL masterLine rest.dropLast = true := by
  unfold getJCSDLForFilters at h
  cases hcodes : eachFilter env filters [] with
  | threw => rw [hcodes] at h; exact Outcome.noConfusion h
  | retFalse => rw [hcodes] at h; exact Outcome.noConfusion h
  | ret filterCodes =>
    rw [hcodes] at h
    simp only [Outcome.ret.injEq] at h
    generalize hout : join ("\n".toList ++ validLogic logic ++ "\n".toList) filterCodes = output
      at h
    generalize hhash : encodeJCSDL output (some (validLogic logic)) = hash at h
    have hhex : ∀ c ∈ hash, isHexChar c = true := by
      rw [← hhash]; exact MD5_isHexChar _
    have hmaster : '\n' ∉ "// JCSDL_MASTER ".toList ++ hash ++ " ".toList ++ validLogic logic :=
      not_mem_append (not_mem_append (not_mem_append (by decide)
        (not_mem_of_all_hex hhex (by decide))) (by decide)) (newline_not_mem_validLogic logic)
    have hv : '\n' ∉ "// JCSDL_VERSION ".toList ++ v := by decide
    have e : text = ("// JCSDL_VERSION ".toList ++ v) ++ '\n' ::
        (("// JCSDL_MASTER ".toList ++ hash ++ " ".toList ++ validLogic logic) ++ '\n' ::
          (output ++ '\n' :: "// JCSDL_MASTER_END".toList)) := by
      rw [← h]; simp
    refine ⟨"// JCSDL_MASTER ".toList ++ hash ++ " ".toList ++ validLogic logic,
      split '\n' output ++ ["// JCSDL_MASTER_END".toList], ?_, ?_⟩
    · rw [e, split_append_sep_of_not_mem hv, split_append_sep_of_not_mem hmaster,
        split_append_sep, split_eq_singleton (by decide : '\n' ∉ "// JCSDL_MASTER_END".toList)]
      rfl
    · rw [dropLast_append_singleton, verifyJCSDL_master_line hash (validLogic logic) _
        (not_mem_of_all_hex hhex (by decide)) (space_not_mem_validLogic logic)]
      have hj : join "\n".toList (split '\n' output) = output := join_split '\n' output
      rw [hj, hhash]
      exact decide_eq_true rfl

/-- C5 at a list of four sample filters. -/
theorem C5_encoder_output_verifies_witness :
    ∃ masterLine rest,
      (split '\n' ("// JCSDL_VERSION 1.0\n// JCSDL_MASTER d7be82d7208f489e67f51b434689408f AND\n// JCSDL_START d66a04855d15b3622cc1bae5b123dddd twitter.text,contains,26-10,cs\ntwitter.text cs contains \"say \\\"hi\\\"\"\n// JCSDL_END\n// JCSDL_MASTER_END").toList).drop 1
        = masterLine :: rest ∧
      verifyJCSDL masterLine rest.dropLast = true :=
  C5_encoder_output_verifies sampleEnv [textFilter] none _ (by decide!)

/-- C6. Offset correctness: when `filterToCSDL` encodes a filter on a field of type `string`
or `geo` with an operator other than `exists`, the fragment is some text, a double quote,
the escaped value and a double quote; the recorded start is the offset just after the
opening quote and the recorded length that of the escaped value; the descriptor ends with
that pair in decimal (and `,cs` when the flag is set); `substr` of the fragment at the pair
as written is the escaped value; and `valueFromCSDL` of that slice is the original value
whenever `unescapeCsdl` undoes `escapeCsdl` on it. The `cs` flag is arbitrary. -/
theorem C6_offset_correctness (env : Env) (filter : Filter) (fieldInfo : FieldInfo)
    (code : FilterCode)
    (hinfo : getFieldInfo env filter.target filter.fieldPath = some fieldInfo)
    (htype : fieldInfo.type = "string".toList ∨ fieldInfo.type = "geo".toList)
    (hop : filter.operator ≠ "exists".toList)
    (hcode : filterToCSDLCode env filter = .ret code) :
    ∃ start length : Nat, ∃ before : Str,
      code.range = some (start, length) ∧
      code.csdl = before ++ "\"".toList
        ++ env.escapeCsdl filter.value (escapeRegEx filter.operator) ++ "\"".toList ∧
      start = before.length + 1 ∧
      length = (env.escapeCsdl filter.value (escapeRegEx filter.operator)).length ∧
      code.jcsdlSyntax = filter.target ++ ".".toList ++ fieldToCSDL filter.fieldPath
        ++ ",".toList ++ filter.operator ++ ",".toList ++ numberToString start ++ "-".toList
        ++ numberToString length ++ (if filter.cs then ",cs".toList else []) ∧
      substrOfStrings code.csdl (numberToString start) (some (numberToString length))
        = env.escapeCsdl filter.value (escapeRegEx filter.operator) ∧
      (env.unescapeCsdl (env.escapeCsdl filter.value (escapeRegEx filter.operator))
          (escapeRegEx filter.operator) = filter.value →
        valueFromCSDL env fieldInfo
          (substrOfStrings code.csdl (numberToString start) (some (numberToString length)))
          filter.operator = filter.value) := by
  have hint : fieldInfo.type ≠ "int".toList := by
    rcases htype with h | h <;> rw [h] <;> decide
  obtain ⟨fieldInfo', value, operatorCode, hinfo', hval, hopc⟩ := filterToCSDLCode_ret_inv hcode
  rw [hinfo] at hinfo'
  cases hinfo'
  rw [valueToCSDL_quoted hint] at hval
  cases hval
  rw [filterToCSDLCode_of_parts hinfo (valueToCSDL_quoted hint) hopc, if_pos hop,
    if_pos htype, if_pos htype] at hcode
  simp only [Outcome.ret.injEq] at hcode
  generalize hesc : env.escapeCsdl filter.value (escapeRegEx filter.operator) = escaped
    at hcode ⊢
  generalize hbefore : filter.target ++ ".".toList
    ++ replace '-' '.' (fieldToCSDL filter.fieldPath)
    ++ (if filter.cs then " cs".toList else []) ++ " ".toList ++ operatorCode ++ " ".toList
    = before at hcode
  have hlen : ("\"".toList ++ escaped ++ "\"".toList).length - 2 = escaped.length := by
    simp
  rw [hlen] at hcode
  have hslice : substrOfStrings (before ++ ("\"".toList ++ escaped ++ "\"".toList))
      (numberToString (before.length + 1)) (some (numberToString escaped.length))
      = escaped := by
    rw [substrOfStrings_numberToString]
    have := drop_take_middle (before ++ "\"".toList) escaped "\"".toList
    simp
  have hcsdl : code.csdl = before ++ ("\"".toList ++ escaped ++ "\"".toList) := by
    rw [← hcode]
  refine ⟨before.length + 1, escaped.length, before, ?_, ?_, rfl, rfl, ?_, ?_, ?_⟩
  · rw [← hcode]
  · rw [hcsdl]; simp only [List.append_assoc]
  · rw [← hcode]
  · rw [hcsdl]; exact hslice
  · intro hinv
    rw [hcsdl, hslice, valueFromCSDL_quoted hint]
    exact hinv

/-- C7. Integer `in` round trip: on a field of type `int` with the operator `in`,
`valueToCSDL` of any string `v` is `[` + `v` + `]`, and `valueFromCSDL` of that literal
is `v` again. -/
theorem C7_int_in_round_trip (env : Env) (fields : Option (List (Str × FieldInfo)))
    (value : Str) :
    valueToCSDL env value (.mk "int".toList fields) "in".toList
      = some ("[".toList ++ value ++ "]".toList) ∧
    valueFromCSDL env (.mk "int".toList fields) ("[".toList ++ value ++ "]".toList) "in".toList
      = value :=
  ⟨valueToCSDL_int_in rfl, valueFromCSDL_int_in rfl⟩

/-- C8 as stated fails: on a field of type `int` with the operator `greaterThan`, the empty
string, a blank and `Infinity` are not numerals, yet `valueToCSDL` returns each of them
unchanged instead of `false`; the filter with the empty value is encoded, with the fragment
`twitter.user.id > ` and the range `18-0`. -/
theorem C8_counterexample :
    valueToCSDL sampleEnv [] (.mk "int".toList none) "greaterThan".toList = some [] ∧
    valueToCSDL sampleEnv " ".toList (.mk "int".toList none) "greaterThan".toList
      = some " ".toList ∧
    valueToCSDL sampleEnv "Infinity".toList (.mk "int".toList none) "greaterThan".toList
      = some "Infinity".toList ∧
    filterToCSDLCode sampleEnv
        { target := "twitter".toList, fieldPath := ["user".toList, "id".toList],
          operator := "greaterThan".toList, value := [], cs := false }
      = .ret { csdl := "twitter.user.id > ".toList,
               jcsdlSyntax := "twitter.user.id,greaterThan,18-0".toList,
               range := some (18, 0) } := by
  refine ⟨?_, ?_, ?_, ?_⟩ <;> decide!

/-- C8, amended. Integer validation: on a field of type `int` with an operator other than
`in`, `valueToCSDL` returns `false` when the conversion of the value to a number gives `NaN`
and the value itself otherwise. So every non-empty string of decimal digits is returned
unchanged; every value that holds a character which is neither a blank nor a character of
numeric literals (digits, hex digits, radix letters, signs, dot, the letters of
`Infinity`) is refused; and every value made of blanks only, the empty string included, is
returned unchanged. With the operator `in` it never returns `false`. -/
theorem C8_int_validation (env : Env) (fields : Option (List (Str × FieldInfo)))
    (value operator : Str) :
    (operator ≠ "in".toList →
      valueToCSDL env value (.mk "int".toList fields) operator
        = if stringToNumber value = .nan then none else some value) ∧
    (operator ≠ "in".toList → value ≠ [] → (∀ c ∈ value, isDigitOf 10 c = true) →
      valueToCSDL env value (.mk "int".toList fields) operator = some value) ∧
    (operator ≠ "in".toList →
      ∀ c ∈ value, isStrWhiteSpaceChar c = false → isNumericChar c = false →
        valueToCSDL env value (.mk "int".toList fields) operator = none) ∧
    (operator ≠ "in".toList → (∀ c ∈ value, isStrWhiteSpaceChar c = true) →
      valueToCSDL env value (.mk "int".toList fields) operator = some value) ∧
    valueToCSDL env value (.mk "int".toList fields) "in".toList ≠ none := by
  have hof : ∀ b : Bool, operator ≠ "in".toList → isNaN value = b →
      valueToCSDL env value (.mk "int".toList fields) operator
        = if b = true then none else some value := by
    intro b hop hb
    rw [@valueToCSDL_int_other env value operator (.mk "int".toList fields) rfl hop, hb]
  refine ⟨?_, ?_, ?_, ?_, ?_⟩
  · intro hop
    rw [@valueToCSDL_int_other env value operator (.mk "int".toList fields) rfl hop]
    unfold isNaN
    by_cases hn : stringToNumber value = .nan
    · rw [if_pos hn, if_pos (decide_eq_true hn)]
    · rw [if_neg hn, if_neg (by simp [hn])]
  · intro hop hne hdigits
    rw [hof false hop (isNaN_of_digits hne hdigits)]
    rfl
  · intro hop c hmem hws hc
    rw [hof true hop (isNaN_of_foreign hmem hws hc)]
    rfl
  · intro hop hblank
    rw [hof false hop (isNaN_of_blank hblank)]
    rfl
  · rw [@valueToCSDL_int_in env value (.mk "int".toList fields) rfl]
    exact Option.noConfusion

/-- C8 (amended) at the values `42` (digits, kept), `12px` (a foreign character, refused)
and three blanks (kept) under `greaterThan`. -/
theorem C8_int_validation_witness :
    valueToCSDL sampleEnv "42".toList (.mk "int".toList none) "greaterThan".toList
      = some "42".toList ∧
    valueToCSDL sampleEnv "12px".toList (.mk "int".toList none) "greaterThan".toList = none ∧
    valueToCSDL sampleEnv "   ".toList (.mk "int".toList none) "greaterThan".toList
      = some "   ".toList :=
  ⟨(C8_int_validation sampleEnv none "42".toList "greaterThan".toList).2.1
      (by decide) (by decide) (by decide),
   (C8_int_validation sampleEnv none "12px".toList "greaterThan".toList).2.2.1
      (by decide) 'p' (by decide) (by decide) (by decide),
   (C8_int_validation sampleEnv none "   ".toList "greaterThan".toList).2.2.2.1
      (by decide) (by decide)⟩

/-- C9. Existence operator: when `filterToCSDL` encodes a filter whose operator is `exists`,
the descriptor is the target, a dot, the dotted field path and `,exists`, no range is
recorded, and the block returned is the start line with that descriptor, the fragment and
the end line; the field's type and the `cs` flag play no part. -/
theorem C9_exists_descriptor (env : Env) (filter : Filter) (code : FilterCode)
    (hop : filter.operator = "exists".toList)
    (hcode : filterToCSDLCode env filter = .ret code) :
    code.jcsdlSyntax = filter.target ++ ".".toList ++ join ".".toList filter.fieldPath
      ++ ",exists".toList ∧
    code.range = none ∧
    filterToCSDL env filter = .ret ("// JCSDL_START ".toList ++ Crypto.MD5 code.csdl
      ++ " ".toList ++ (filter.target ++ ".".toList ++ join ".".toList filter.fieldPath
      ++ ",exists".toList) ++ "\n".toList ++ code.csdl ++ "\n".toList
      ++ "// JCSDL_END".toList) := by
  obtain ⟨fieldInfo, value, operatorCode, hinfo, hval, hopc⟩ := filterToCSDLCode_ret_inv hcode
  have hcode' := hcode
  rw [filterToCSDLCode_of_parts hinfo hval hopc, if_neg (not_not.mpr hop)] at hcode'
  simp only [Outcome.ret.injEq] at hcode'
  have hsyn : code.jcsdlSyntax = filter.target ++ ".".toList
      ++ join ".".toList filter.fieldPath ++ ",exists".toList := by
    rw [← hcode', hop]
    simp [fieldToCSDL]
  refine ⟨hsyn, by rw [← hcode'], ?_⟩
  unfold filterToCSDL
  rw [hcode]
  simp only [FilterCode.render, encodeJCSDLFilter, hsyn]

/-- C6 at the sample filter on `twitter.text`, whose value holds two double quotes. -/
theorem C6_offset_correctness_witness :
    substrOfStrings textFilterCode.csdl "26".toList (some "10".toList)
      = "say \\\"hi\\\"".toList ∧
    valueFromCSDL sampleEnv (.mk "string".toList none)
      (substrOfStrings textFilterCode.csdl "26".toList (some "10".toList))
      textFilter.operator = textFilter.value := by
  obtain ⟨start, length, before, hrange, _, _, _, _, hslice, hvalue⟩ :=
    C6_offset_correctness sampleEnv textFilter (.mk "string".toList none) textFilterCode
      rfl (Or.inl rfl) (by decide) (by decide!)
  have hr : (start, length) = (26, 10) := by
    have : some (start, length) = some (26, 10) := hrange.symm
    exact Option.some.inj this
  have hs : start = 26 := congrArg Prod.fst hr
  have hl : length = 10 := congrArg Prod.snd hr
  subst hs hl
  exact ⟨hslice, hvalue (by decide!)⟩

/-- C7 at the value `3,7,12`. -/
theorem C7_int_in_round_trip_witness :
    valueToCSDL sampleEnv "3,7,12".toList (.mk "int".toList none) "in".toList
      = some "[3,7,12]".toList ∧
    valueFromCSDL sampleEnv (.mk "int".toList none) "[3,7,12]".toList "in".toList
      = "3,7,12".toList :=
  C7_int_in_round_trip sampleEnv none "3,7,12".toList

/-- C9 at the sample `exists` filter. -/
theorem C9_exists_descriptor_witness :
    idExistsFilterCode.jcsdlSyntax = "twitter.user.id,exists".toList ∧
    idExistsFilterCode.range = none ∧
    filterToCSDL sampleEnv idExistsFilter
      = .ret ("// JCSDL_START a95c1b97f2ebb59968c876d809bc3974 twitter.user.id,exists\ntwitter.user.id exists \n// JCSDL_END").toList := by
  have h := C9_exists_descriptor sampleEnv idExistsFilter idExistsFilterCode rfl (by decide!)
  refine ⟨h.1, h.2.1, ?_⟩
  rw [h.2.2]
  decide!

/-- C10 fails on the code. Default logic on decode: `xorDocument` decodes successfully and
the logic returned is `XOR`, neither `AND` nor `OR`; `noLogicDocument` decodes successfully
and the logic returned is `undefined`, not the default `AND`; the encoder, given `XOR` or no
logic, writes `AND`. -/
theorem C10_logic_is_not_defaulted :
    parseJCSDL sampleEnv xorDocument
      = .ret { filters := [some idGreaterFilter], logic := some "XOR".toList } ∧
    parseJCSDL sampleEnv noLogicDocument
      = .ret { filters := [some idGreaterFilter], logic := none } ∧
    validLogic (some "XOR".toList) = "AND".toList ∧
    validLogic none = "AND".toList := by
  refine ⟨?_, ?_, ?_, ?_⟩ <;> decide!

/-- C11. Logic normalisation on encode: whenever `getJCSDLForFilters` returns a text, with
`L` the logic argument when that is `AND` or `OR` and `AND` otherwise, the text is the
version line, the master line `// JCSDL_MASTER h L` with `h` the digest of `L`, a line
break and the body, then the body and the end marker; the body is the filter codes joined
by `L` on a line of its own; and the master line is the second line of the text. -/
theorem C11_logic_normalisation (env : Env) (filters : List Filter) (logic : Option Str)
    (text : Str) (h : getJCSDLForFilters env filters logic = .ret text) :
    ∃ filterCodes, eachFilter env filters [] = .ret filterCodes ∧
      (normalLogic logic = "AND".toList ∨ normalLogic logic = "OR".toList) ∧
      text = "// JCSDL_VERSION 1.0\n".toList
        ++ ("// JCSDL_MASTER ".toList
          ++ Crypto.MD5 (normalLogic logic ++ "\n".toList
            ++ join ("\n".toList ++ normalLogic logic ++ "\n".toList) filterCodes)
          ++ " ".toList ++ normalLogic logic)
        ++ "\n".toList ++ join ("\n".toList ++ normalLogic logic ++ "\n".toList) filterCodes
        ++ "\n// JCSDL_MASTER_END".toList ∧
      (split '\n' text)[1]? = some ("// JCSDL_MASTER ".toList
        ++ Crypto.MD5 (normalLogic logic ++ "\n".toList
          ++ join ("\n".toList ++ normalLogic logic ++ "\n".toList) filterCodes)
        ++ " ".toList ++ normalLogic logic) := by
  cases hcodes : eachFilter env filters [] with
  | threw =>
    unfold getJCSDLForFilters at h
    rw [hcodes] at h
    exact Outcome.noConfusion h
  | retFalse => exact absurd hcodes (eachFilter_ne_retFalse env filters [])
  | ret filterCodes =>
    rw [getJCSDLForFilters_of_codes hcodes, validLogic_eq_normalLogic] at h
    simp only [Outcome.ret.injEq] at h
    have hvalid : normalLogic logic = "AND".toList ∨ normalLogic logic = "OR".toList := by
      rw [← validLogic_eq_normalLogic]; exact validLogic_cases logic
    have hl : '\n' ∉ normalLogic logic := by
      rw [← validLogic_eq_normalLogic]; exact newline_not_mem_validLogic logic
    refine ⟨filterCodes, rfl, hvalid, ?_, ?_⟩
    · rw [← h]
      simp [encodeJCSDL, toStr, v]
    · rw [← h, split_encoded_text _ _ _ (newline_not_mem_encodeJCSDL _ _) hl]
      simp [encodeJCSDL, toStr]

/-- C11 at `idGreaterFilter` with the logic argument `XOR`: the logic written is `AND`. -/
theorem C11_logic_normalisation_witness :
    ∃ filterCodes, eachFilter sampleEnv [idGreaterFilter] [] = .ret filterCodes ∧
      (normalLogic (some "XOR".toList) = "AND".toList
        ∨ normalLogic (some "XOR".toList) = "OR".toList) ∧
      normalisedDocument = "// JCSDL_VERSION 1.0\n".toList
        ++ ("// JCSDL_MASTER ".toList
          ++ Crypto.MD5 (normalLogic (some "XOR".toList) ++ "\n".toList
            ++ join ("\n".toList ++ normalLogic (some "XOR".toList) ++ "\n".toList) filterCodes)
          ++ " ".toList ++ normalLogic (some "XOR".toList))
        ++ "\n".toList
        ++ join ("\n".toList ++ normalLogic (some "XOR".toList) ++ "\n".toList) filterCodes
        ++ "\n// JCSDL_MASTER_END".toList ∧
      (split '\n' normalisedDocument)[1]? = some ("// JCSDL_MASTER ".toList
        ++ Crypto.MD5 (normalLogic (some "XOR".toList) ++ "\n".toList
          ++ join ("\n".toList ++ normalLogic (some "XOR".toList) ++ "\n".toList) filterCodes)
        ++ " ".toList ++ normalLogic (some "XOR".toList)) :=
  C11_logic_normalisation sampleEnv [idGreaterFilter] (some "XOR".toList) normalisedDocument
    (by decide!)

/-- C12. Best-effort encode: when the operator of every filter is known,
`getJCSDLForFilters` returns the version line, the master line, the body and the end
marker, the body being the blocks of the filters that `filterToCSDL` translates, in their
original order, joined by the logic on a line of its own; a filter has no block exactly
when its target or field path does not resolve or its value is rejected. -/
theorem C12_best_effort_encode (env : Env) (filters : List Filter) (logic : Option Str)
    (hops : ∀ filter ∈ filters, getOperatorCode env filter.operator ≠ none) :
    getJCSDLForFilters env filters logic
      = .ret ("// JCSDL_VERSION ".toList ++ v ++ "\n".toList ++ "// JCSDL_MASTER ".toList
        ++ encodeJCSDL (join ("\n".toList ++ validLogic logic ++ "\n".toList)
            (filters.filterMap (encodedBlock env))) (some (validLogic logic))
        ++ " ".toList ++ validLogic logic ++ "\n".toList
        ++ join ("\n".toList ++ validLogic logic ++ "\n".toList)
            (filters.filterMap (encodedBlock env))
        ++ "\n// JCSDL_MASTER_END".toList) ∧
    ∀ filter ∈ filters,
      (∀ block, encodedBlock env filter = some block ↔ filterToCSDL env filter = .ret block) ∧
      (encodedBlock env filter = none ↔
        (getFieldInfo env filter.target filter.fieldPath = none ∨
          ∃ fieldInfo, getFieldInfo env filter.target filter.fieldPath = some fieldInfo ∧
            valueToCSDL env filter.value fieldInfo filter.operator = none)) := by
  have hno : ∀ filter ∈ filters, filterToCSDL env filter ≠ .threw := by
    intro filter hf hthrew
    obtain ⟨_, _, _, _, hnone⟩ := (filterToCSDL_threw_iff env filter).mp hthrew
    exact hops filter hf hnone
  constructor
  · have heach := eachFilter_eq_filterMap env filters [] hno
    rw [List.nil_append] at heach
    exact getJCSDLForFilters_of_codes heach
  · intro filter hf
    constructor
    · intro block
      unfold encodedBlock
      cases hb : filterToCSDL env filter <;> simp
    · rw [← filterToCSDL_retFalse_iff]
      unfold encodedBlock
      cases hb : filterToCSDL env filter with
      | threw => exact absurd hb (hno filter hf)
      | retFalse => simp
      | ret block => simp

/-- C12 at a list of three filters, the second of which names the unknown field
`twitter.user.age`: the body holds the blocks of the first and the third. -/
theorem C12_best_effort_encode_witness :
    getJCSDLForFilters sampleEnv
        [idGreaterFilter,
         { target := "twitter".toList, fieldPath := ["user".toList, "age".toList],
           operator := "greaterThan".toList, value := "18".toList, cs := false },
         idExistsFilter] (some "AND".toList)
      = .ret ("// JCSDL_VERSION 1.0\n// JCSDL_MASTER f07fc3d534f607935f56f21735033554 AND\n// JCSDL_START 60e902347a07b638cc0261a10b001869 twitter.user.id,greaterThan,18-2\ntwitter.user.id > 42\n// JCSDL_END\nAND\n// JCSDL_START a95c1b97f2ebb59968c876d809bc3974 twitter.user.id,exists\ntwitter.user.id exists \n// JCSDL_END\n// JCSDL_MASTER_END").toList := by
  rw [(C12_best_effort_encode sampleEnv _ (some "AND".toList) (by decide!)).1]
  decide!

/-- C13 fails on the code. Unknown operator: when a filter's target and field path resolve
and its value is accepted but its operator is absent from `operators`, `getOperatorCode`
raises, so `filterToCSDL` is left by the `TypeError` instead of returning `false`, and so
is `getJCSDLForFilters` on every list that contains the filter. -/
theorem C13_unknown_operator_raises (env : Env) (filters : List Filter) (logic : Option Str)
    (filter : Filter) (fieldInfo : FieldInfo) (value : Str)
    (hmem : filter ∈ filters)
    (hinfo : getFieldInfo env filter.target filter.fieldPath = some fieldInfo)
    (hval : valueToCSDL env filter.value fieldInfo filter.operator = some value)
    (hop : getOperatorCode env filter.operator = none) :
    filterToCSDL env filter = .threw ∧ filterToCSDL env filter ≠ .retFalse ∧
      getJCSDLForFilters env filters logic = .threw := by
  have hthrew : filterToCSDL env filter = .threw :=
    (filterToCSDL_threw_iff env filter).mpr ⟨fieldInfo, value, hinfo, hval, hop⟩
  refine ⟨hthrew, by rw [hthrew]; exact Outcome.noConfusion, ?_⟩
  unfold getJCSDLForFilters
  rw [eachFilter_threw env filters [] filter hmem hthrew]

/-- C13 at the list of `textFilter` and `unknownOperatorFilter` (operator `near`). -/
theorem C13_unknown_operator_raises_witness :
    filterToCSDL sampleEnv unknownOperatorFilter = .threw ∧
      filterToCSDL sampleEnv unknownOperatorFilter ≠ .retFalse ∧
      getJCSDLForFilters sampleEnv [textFilter, unknownOperatorFilter] (some "AND".toList)
        = .threw :=
  C13_unknown_operator_raises sampleEnv [textFilter, unknownOperatorFilter]
    (some "AND".toList) unknownOperatorFilter (.mk "string".toList none)
    "\"x\"".toList (by decide) rfl (by decide!) rfl

/-- C14 fails on the code. Schema resolution: a name that every object inherits from
`Object.prototype` (`constructor`, `toString`, ...) and that the definition does not list
is found all the same, as a target and as a field: `getFieldInfo` returns the inherited
member instead of `false`, where the descent of the specification (`resolvePath`) fails. -/
theorem C14_inherited_names_are_found (env : Env) (name : Str)
    (hname : name ∈ inheritedNames)
    (habsent : env.definition.targets.lookup name = none) :
    resolvePath env.definition name [] = none ∧
    getFieldInfo env name [] = some .inherited ∧
    getFieldInfo env name [] ≠ none ∧
    ∀ (target : Str) (field : FieldInfo) (fields : List (Str × FieldInfo)),
      env.definition.targets.lookup target = some field → field.fields = some fields →
      fields.lookup name = none →
      resolvePath env.definition target [name] = none ∧
        getFieldInfo env target [name] = some .inherited := by
  have hc : inheritedNames.contains name = true := by simpa using hname
  have hfound : getFieldInfo env name [] = some .inherited := by
    unfold getFieldInfo
    rw [property_of_inherited _ hc habsent]
    rfl
  refine ⟨?_, hfound, by rw [hfound]; exact Option.noConfusion, ?_⟩
  · unfold resolvePath
    rw [habsent]
  · intro target field fields ht hf hl
    constructor
    · unfold resolvePath
      rw [ht]
      simp [List.foldlM, stepInto, hf, hl]
    · unfold getFieldInfo
      rw [property_of_lookup _ ht]
      dsimp only
      unfold descend
      rw [hf]
      dsimp only
      rw [property_of_inherited _ hc hl]
      rfl

/-- C14 at the sample definition and the name `constructor`, as a target and as a field of
`twitter`; a name that is neither listed nor inherited fails. -/
theorem C14_inherited_names_are_found_witness :
    getFieldInfo sampleEnv "constructor".toList [] = some .inherited ∧
    getFieldInfo sampleEnv "twitter".toList ["constructor".toList] = some .inherited ∧
    getFieldInfo sampleEnv "twitter".toList ["user".toList, "id".toList]
      = some (.mk "int".toList none) ∧
    getFieldInfo sampleEnv "facebook".toList [] = none ∧
    getFieldInfo sampleEnv "twitter".toList ["user".toList, "age".toList] = none :=
  ⟨(C14_inherited_names_are_found sampleEnv "constructor".toList (by decide) rfl).2.1,
   ((C14_inherited_names_are_found sampleEnv "constructor".toList (by decide) rfl).2.2.2
      "twitter".toList _ _ rfl rfl rfl).2,
   rfl, rfl, rfl⟩

/-- C15 as stated fails: in `extraLineDocument` every hash verifies and the body has four
lines (an `AND` line follows the end marker of the only filter), and in
`noEndMarkerDocument` every hash verifies and the body has two lines; `parseJCSDL` returns
the decoded filter for both. -/
theorem C15_counterexample :
    parseJCSDL sampleEnv extraLineDocument
      = .ret { filters := [some idGreaterFilter], logic := some "AND".toList } ∧
    parseJCSDL sampleEnv noEndMarkerDocument
      = .ret { filters := [some idGreaterFilter], logic := some "AND".toList } := by
  constructor <;> decide!

/-- C15, amended. For a text whose master hash verifies, `parseJCSDL` never returns a
result when the number of body lines is `4k + 1` (the last group is a start line without a
fragment); and the end-marker and separator lines are not looked at: when the number of
body lines is `4k + 2` or `4k + 3`, a text with the same logic token whose master hash
verifies and whose body has one more line at its end has the same outcome. -/
theorem C15_structure_is_not_validated (env : Env) (code masterLine : Str) (rest : List Str)
    (hlines : (split '\n' code).drop 1 = masterLine :: rest)
    (hdoc : verifyJCSDL masterLine rest.dropLast = true) :
    (rest.dropLast.length % 4 = 1 → ∀ parsed, parseJCSDL env code ≠ .ret parsed) ∧
    (rest.dropLast.length % 4 = 2 ∨ rest.dropLast.length % 4 = 3 →
      ∀ (longer longerMaster : Str) (longerRest : List Str) (extra : Str),
        (split '\n' longer).drop 1 = longerMaster :: longerRest →
        verifyJCSDL longerMaster longerRest.dropLast = true →
        (split ' ' longerMaster)[3]? = (split ' ' masterLine)[3]? →
        longerRest.dropLast = rest.dropLast ++ [extra] →
        parseJCSDL env longer = parseJCSDL env code) := by
  constructor
  · intro hmod parsed hp
    rw [parseJCSDL_of_verified hlines hdoc] at hp
    rcases parseLines_of_lone_start env (rest.dropLast.length / 4) rest.dropLast []
      (length_eq_of_mod hmod) with h | h <;> rw [h] at hp <;> exact Outcome.noConfusion hp
  · intro hmod longer longerMaster longerRest extra hl hv hlogic hbody
    rw [parseJCSDL_of_verified hlines hdoc, parseJCSDL_of_verified hl hv, hbody, hlogic,
      parseLines_append_line env (rest.dropLast.length / 4) rest.dropLast [] extra
        (hmod.elim (fun h => Or.inl (length_eq_of_mod h)) (fun h => Or.inr (length_eq_of_mod h)))]

/-- C15 (amended) at `loneStartDocument` (five body lines, no result) and at
`normalisedDocument` (three body lines) against `extraLineDocument` (the same body and one
more line). -/
theorem C15_structure_is_not_validated_witness :
    (∀ parsed, parseJCSDL sampleEnv loneStartDocument ≠ .ret parsed) ∧
    parseJCSDL sampleEnv extraLineDocument = parseJCSDL sampleEnv normalisedDocument :=
  ⟨(C15_structure_is_not_validated sampleEnv loneStartDocument
      "// JCSDL_MASTER 5c51584daf957782939eae93936873ae AND".toList
      ["// JCSDL_START 60e902347a07b638cc0261a10b001869 twitter.user.id,greaterThan,18-2".toList,
       "twitter.user.id > 42".toList,
       "// JCSDL_END".toList,
       "AND".toList,
       "// JCSDL_START 60e902347a07b638cc0261a10b001869 twitter.user.id,greaterThan,18-2".toList,
       "// JCSDL_MASTER_END".toList]
      (by decide!) (by decide!)).1 (by decide),
   (C15_structure_is_not_validated sampleEnv normalisedDocument
      "// JCSDL_MASTER 48964c8d539805349f068f2195892aed AND".toList
      ["// JCSDL_START 60e902347a07b638cc0261a10b001869 twitter.user.id,greaterThan,18-2".toList,
       "twitter.user.id > 42".toList,
       "// JCSDL_END".toList,
       "// JCSDL_MASTER_END".toList]
      (by decide!) (by decide!)).2 (Or.inr (by decide)) extraLineDocument
      "// JCSDL_MASTER 67e66eb22ac24176eabd9a55791da89f AND".toList
      ["// JCSDL_START 60e902347a07b638cc0261a10b001869 twitter.user.id,greaterThan,18-2".toList,
       "twitter.user.id > 42".toList,
       "// JCSDL_END".toList,
       "AND".toList,
       "// JCSDL_MASTER_END".toList]
      "AND".toList (by decide!) (by decide!) (by decide!) (by decide!)⟩

/-- C16 fails on the code. Empty document: for the empty list of filters and every logic
argument, `getJCSDLForFilters` returns a text whose body is one empty line, and
`parseJCSDL` of that text is left by a `TypeError`: the loop takes the empty line for a
start line and hashes the missing fragment. No empty filter list is returned. -/
theorem C16_empty_document_is_not_read_back (env : Env) (logic : Option Str) :
    getJCSDLForFilters env [] logic
      = .ret ("// JCSDL_VERSION 1.0\n// JCSDL_MASTER ".toList
        ++ Crypto.MD5 (normalLogic logic ++ "\n".toList) ++ " ".toList ++ normalLogic logic
        ++ "\n\n// JCSDL_MASTER_END".toList) ∧
    parseJCSDL env ("// JCSDL_VERSION 1.0\n// JCSDL_MASTER ".toList
        ++ Crypto.MD5 (normalLogic logic ++ "\n".toList) ++ " ".toList ++ normalLogic logic
        ++ "\n\n// JCSDL_MASTER_END".toList) = .threw := by
  have hvalid : normalLogic logic = "AND".toList ∨ normalLogic logic = "OR".toList := by
    rw [← validLogic_eq_normalLogic]; exact validLogic_cases logic
  have hparse := @parseJCSDL_of_encoded env (normalLogic logic) [] hvalid
  have hthrew : parseLines env (split '\n' []) [] = .threw := rfl
  rw [hthrew] at hparse
  have e : "// JCSDL_VERSION ".toList ++ v ++ "\n".toList ++ "// JCSDL_MASTER ".toList
      ++ encodeJCSDL [] (some (normalLogic logic)) ++ " ".toList ++ normalLogic logic
      ++ "\n".toList ++ [] ++ "\n// JCSDL_MASTER_END".toList
      = "// JCSDL_VERSION 1.0\n// JCSDL_MASTER ".toList
        ++ Crypto.MD5 (normalLogic logic ++ "\n".toList) ++ " ".toList ++ normalLogic logic
        ++ "\n\n// JCSDL_MASTER_END".toList := by
    simp [encodeJCSDL, toStr, v]
  rw [e] at hparse
  refine ⟨?_, hparse⟩
  have heach : eachFilter env [] [] = .ret [] := rfl
  rw [getJCSDLForFilters_of_codes heach, validLogic_eq_normalLogic, ← e]
  rfl

/-- C16 at the sample environment and the logic `AND`. -/
theorem C16_empty_document_is_not_read_back_witness :
    getJCSDLForFilters sampleEnv [] (some "AND".toList) = .ret emptyDocument ∧
    parseJCSDL sampleEnv emptyDocument = .threw := by
  constructor <;> decide!

/-- C17 fails on the code. Filter on the target itself: when `filterToCSDL` encodes a
filter whose field path is empty (target free of comma and dot), the descriptor's path is
the target followed by a dot, which `filterFromJCSDL` reads as the one-segment path `['']`:
no decoded filter has an empty field path, the filter is not returned, and the decode
returns `false` when the target has no sub-field named by the empty string. -/
theorem C17_empty_path_is_not_read_back (env : Env) (filter : Filter) (code : FilterCode)
    (hpath : filter.fieldPath = [])
    (hcomma : ',' ∉ filter.target) (hdot : '.' ∉ filter.target)
    (hcode : filterToCSDLCode env filter = .ret code) :
    (∀ decoded, filterFromJCSDL env (some code.jcsdlSyntax) code.csdl = .ret decoded →
      decoded.target = filter.target ∧ decoded.fieldPath = [[]]) ∧
    filterFromJCSDL env (some code.jcsdlSyntax) code.csdl ≠ .ret filter ∧
    (getFieldInfo env filter.target [[]] = none →
      filterFromJCSDL env (some code.jcsdlSyntax) code.csdl = .retFalse) := by
  obtain ⟨tail, hsyn⟩ := filterToCSDLCode_syntax_head hcode
  rw [hpath] at hsyn
  obtain ⟨rest, hsplit⟩ := @split_empty_path_code filter.target (filter.operator ++ tail) hcomma
  rw [← hsyn] at hsplit
  have hdots := split_target_dot hdot
  have hdec : ∀ decoded, filterFromJCSDL env (some code.jcsdlSyntax) code.csdl = .ret decoded →
      decoded.target = filter.target ∧ decoded.fieldPath = [[]] := by
    intro decoded hd
    obtain ⟨path, rest', h1, h2⟩ := filterFromJCSDL_ret_path hd
    rw [hsplit] at h1
    have hp : path = filter.target ++ ".".toList := (List.cons.inj h1).1.symm
    rw [hp, hdots] at h2
    exact ⟨(List.cons.inj h2).1.symm, (List.cons.inj h2).2.symm⟩
  refine ⟨hdec, ?_, ?_⟩
  · intro h
    have := (hdec filter h).2
    rw [hpath] at this
    exact List.noConfusion this
  · intro hnone
    exact filterFromJCSDL_of_unresolved hsplit hdots hnone

/-- C17 at `targetFilter` (target `link`, of type `string`, empty field path): the block is
written with the path `link.` and its decode returns `false`. -/
theorem C17_empty_path_is_not_read_back_witness :
    filterToCSDLCode otherEnv targetFilter
      = .ret { csdl := "link. == \"x\"".toList, jcsdlSyntax := "link.,equals,10-1".toList,
               range := some (10, 1) } ∧
    filterFromJCSDL otherEnv (some "link.,equals,10-1".toList) "link. == \"x\"".toList
      = .retFalse :=
  ⟨by decide!,
   (C17_empty_path_is_not_read_back otherEnv targetFilter
      { csdl := "link. == \"x\"".toList, jcsdlSyntax := "link.,equals,10-1".toList,
        range := some (10, 1) } rfl (by decide) (by decide) (by decide!)).2.2 rfl⟩

/-- C18 as stated fails: the fragment of the sample `exists` filter ends with a space after
the operator, and the fragment of `dashFilter` has the path `klout.top.topics-list` where
its descriptor has `klout.top-topics-list`. -/
theorem C18_counterexample :
    filterToCSDLCode sampleEnv idExistsFilter
      = .ret { csdl := "twitter.user.id exists ".toList,
               jcsdlSyntax := "twitter.user.id,exists".toList, range := none } ∧
    "twitter.user.id exists ".toList ≠ "twitter.user.id".toList ++ " ".toList ++ "exists".toList ∧
    filterToCSDLCode otherEnv dashFilter
      = .ret { csdl := "klout.top.topics-list contains \"x\"".toList,
               jcsdlSyntax := "klout.top-topics-list,contains,32-1".toList,
               range := some (32, 1) } := by
  refine ⟨?_, ?_, ?_⟩ <;> decide!

/-- C18, amended. Fragment composition: when `filterToCSDL` encodes a filter, the fragment
is the target, a dot, the dotted field path in which the first dash is replaced by a dot,
` cs` when the flag is set, a space, the operator's code and a space, followed by the
literal value when the operator is not `exists` and by nothing otherwise; the descriptor
starts with the target, a dot and the dotted field path unchanged, so the two paths agree
character for character exactly when the dotted path holds no dash; and the block is the
start line, that fragment and the end line. -/
theorem C18_fragment_composition (env : Env) (filter : Filter) (code : FilterCode)
    (hcode : filterToCSDLCode env filter = .ret code) :
    ∃ fieldInfo literal operatorCode,
      getFieldInfo env filter.target filter.fieldPath = some fieldInfo ∧
      valueToCSDL env filter.value fieldInfo filter.operator = some literal ∧
      getOperatorCode env filter.operator = some operatorCode ∧
      code.csdl = filter.target ++ ".".toList ++ replace '-' '.' (join ".".toList filter.fieldPath)
        ++ (if filter.cs then " cs".toList else []) ++ " ".toList ++ operatorCode ++ " ".toList
        ++ (if filter.operator = "exists".toList then [] else literal) ∧
      (replace '-' '.' (join ".".toList filter.fieldPath) = join ".".toList filter.fieldPath
        ↔ '-' ∉ join ".".toList filter.fieldPath) ∧
      (∀ before after : Str, join ".".toList filter.fieldPath = before ++ '-' :: after →
        '-' ∉ before →
        replace '-' '.' (join ".".toList filter.fieldPath) = before ++ '.' :: after) ∧
      (∃ tail, code.jcsdlSyntax = filter.target ++ (".".toList
        ++ (join ".".toList filter.fieldPath ++ (",".toList ++ (filter.operator ++ tail))))) ∧
      filterToCSDL env filter = .ret ("// JCSDL_START ".toList ++ Crypto.MD5 code.csdl
        ++ " ".toList ++ code.jcsdlSyntax ++ "\n".toList ++ code.csdl ++ "\n".toList
        ++ "// JCSDL_END".toList) := by
  obtain ⟨fieldInfo, literal, operatorCode, hinfo, hval, hopc⟩ := filterToCSDLCode_ret_inv hcode
  refine ⟨fieldInfo, literal, operatorCode, hinfo, hval, hopc, ?_,
    replace_eq_self_iff (by decide), ?_, filterToCSDLCode_syntax_head hcode, ?_⟩
  · have h := hcode
    rw [filterToCSDLCode_of_parts hinfo hval hopc] at h
    by_cases hop : filter.operator = "exists".toList
    · rw [if_neg (not_not.mpr hop)] at h
      simp only [Outcome.ret.injEq] at h
      rw [← h, if_pos hop]
      simp [fieldToCSDL]
    · rw [if_pos hop] at h
      simp only [Outcome.ret.injEq] at h
      rw [← h, if_neg hop]
      rfl
  · intro before after hsplit hbefore
    rw [hsplit]
    exact replace_first hbefore
  · rw [filterToCSDL_of_code hcode]
    rfl

/-- C18 (amended) at the sample filter on `twitter.text`, whose path holds no dash, and at
`dashFilter`, whose path `top-topics-list` is written `top.topics-list` in the fragment. -/
theorem C18_fragment_composition_witness :
    filterToCSDL sampleEnv textFilter = .ret ("// JCSDL_START d66a04855d15b3622cc1bae5b123dddd twitter.text,contains,26-10,cs\ntwitter.text cs contains \"say \\\"hi\\\"\"\n// JCSDL_END").toList ∧
    replace '-' '.' (join ".".toList dashFilter.fieldPath) = "top.topics-list".toList := by
  obtain ⟨_, _, _, _, _, _, _, _, _, _, hblock⟩ :=
    C18_fragment_composition sampleEnv textFilter textFilterCode (by decide!)
  obtain ⟨_, _, _, _, _, _, _, _, hfirst, _, _⟩ :=
    C18_fragment_composition otherEnv dashFilter
      { csdl := "klout.top.topics-list contains \"x\"".toList,
        jcsdlSyntax := "klout.top-topics-list,contains,32-1".toList,
        range := some (32, 1) } (by decide!)
  refine ⟨?_, hfirst "top".toList "topics-list".toList (by decide) (by decide)⟩
  rw [hblock]
  decide!

/-- C19 fails on the code. Other quoted types: when `filterToCSDL` encodes a filter on a
field whose type is none of `int`, `string` and `geo`, with an operator other than
`exists`, the literal is the escaped value between double quotes but the recorded range
starts at the opening quote and has the length of the whole literal: the slice at the
recorded pair is the literal with its quotes, and `valueFromCSDL` returns `unescapeCsdl` of
that quoted text, not of the escaped value. -/
theorem C19_other_types_keep_quotes (env : Env) (filter : Filter) (fieldInfo : FieldInfo)
    (code : FilterCode)
    (hinfo : getFieldInfo env filter.target filter.fieldPath = some fieldInfo)
    (hint : fieldInfo.type ≠ "int".toList)
    (hstring : fieldInfo.type ≠ "string".toList)
    (hgeo : fieldInfo.type ≠ "geo".toList)
    (hop : filter.operator ≠ "exists".toList)
    (hcode : filterToCSDLCode env filter = .ret code) :
    ∃ before : Str,
      code.csdl = before ++ ("\"".toList
        ++ env.escapeCsdl filter.value (escapeRegEx filter.operator) ++ "\"".toList) ∧
      code.range = some (before.length,
        (env.escapeCsdl filter.value (escapeRegEx filter.operator)).length + 2) ∧
      substrOfStrings code.csdl (numberToString before.length)
        (some (numberToString
          ((env.escapeCsdl filter.value (escapeRegEx filter.operator)).length + 2)))
        = "\"".toList ++ env.escapeCsdl filter.value (escapeRegEx filter.operator)
          ++ "\"".toList ∧
      valueFromCSDL env fieldInfo
        (substrOfStrings code.csdl (numberToString before.length)
          (some (numberToString
            ((env.escapeCsdl filter.value (escapeRegEx filter.operator)).length + 2))))
        filter.operator
        = env.unescapeCsdl ("\"".toList
          ++ env.escapeCsdl filter.value (escapeRegEx filter.operator) ++ "\"".toList)
          (escapeRegEx filter.operator) := by
  obtain ⟨fieldInfo', value, operatorCode, hinfo', hval, hopc⟩ := filterToCSDLCode_ret_inv hcode
  rw [hinfo] at hinfo'
  cases hinfo'
  rw [valueToCSDL_quoted hint] at hval
  cases hval
  have hq : ¬ (fieldInfo.type = "string".toList ∨ fieldInfo.type = "geo".toList) :=
    fun h => h.elim hstring hgeo
  rw [filterToCSDLCode_of_parts hinfo (valueToCSDL_quoted hint) hopc, if_pos hop,
    if_neg hq, if_neg hq] at hcode
  simp only [Outcome.ret.injEq] at hcode
  generalize hesc : env.escapeCsdl filter.value (escapeRegEx filter.operator) = escaped
    at hcode ⊢
  generalize hbefore : filter.target ++ ".".toList
    ++ replace '-' '.' (fieldToCSDL filter.fieldPath)
    ++ (if filter.cs then " cs".toList else []) ++ " ".toList ++ operatorCode ++ " ".toList
    = before at hcode
  have hlen : ("\"".toList ++ escaped ++ "\"".toList).length = escaped.length + 2 := by
    simp
  rw [hlen] at hcode
  have hslice : substrOfStrings (before ++ ("\"".toList ++ escaped ++ "\"".toList))
      (numberToString before.length) (some (numberToString (escaped.length + 2)))
      = "\"".toList ++ escaped ++ "\"".toList := by
    rw [substrOfStrings_numberToString, ← hlen]
    simp
  have hcsdl : code.csdl = before ++ ("\"".toList ++ escaped ++ "\"".toList) := by
    rw [← hcode]
  refine ⟨before, hcsdl, by rw [← hcode], by rw [hcsdl]; exact hslice, ?_⟩
  rw [hcsdl, hslice, valueFromCSDL_quoted hint]

/-- C19 at `floatFilter` (field `klout.score`, of type `float`, value `1.5`): the recorded
range is `15-5`, the slice is the quoted literal, and the filter decoded from the block
has the value `"1.5"` with its quotes. -/
theorem C19_other_types_keep_quotes_witness :
    (∃ before : Str,
      "klout.score == \"1.5\"".toList = before ++ ("\"".toList
        ++ otherEnv.escapeCsdl floatFilter.value (escapeRegEx floatFilter.operator)
        ++ "\"".toList) ∧
      some (15, 5) = some (before.length,
        (otherEnv.escapeCsdl floatFilter.value (escapeRegEx floatFilter.operator)).length + 2)) ∧
    filterFromJCSDL otherEnv (some "klout.score,equals,15-5".toList)
        "klout.score == \"1.5\"".toList
      = .ret { target := "klout".toList, fieldPath := ["score".toList],
               operator := "equals".toList, value := "\"1.5\"".toList, cs := false } ∧
    floatFilter.value = "1.5".toList := by
  obtain ⟨before, hcsdl, hrange, _, _⟩ :=
    C19_other_types_keep_quotes otherEnv floatFilter (.mk "float".toList none)
      { csdl := "klout.score == \"1.5\"".toList,
        jcsdlSyntax := "klout.score,equals,15-5".toList, range := some (15, 5) }
      rfl (by decide) (by decide) (by decide) (by decide) (by decide!)
  exact ⟨⟨before, hcsdl, hrange⟩, by decide!, rfl⟩

/-- C20. Version and end-marker lines do not influence decoding: two texts whose lines are
a first line, the same master line, the same body lines and a last line have the same
outcome of `parseJCSDL`, whatever their first and last lines are. -/
theorem C20_frame_lines_are_ignored (env : Env) (code other : Str)
    (versionLine otherVersionLine masterLine endLine otherEndLine : Str) (body : List Str)
    (hcode : split '\n' code = versionLine :: masterLine :: (body ++ [endLine]))
    (hother : split '\n' other = otherVersionLine :: masterLine :: (body ++ [otherEndLine])) :
    parseJCSDL env code = parseJCSDL env other := by
  have h1 : (split '\n' code).drop 1 = masterLine :: (body ++ [endLine]) := by
    rw [hcode]; rfl
  have h2 : (split '\n' other).drop 1 = masterLine :: (body ++ [otherEndLine]) := by
    rw [hother]; rfl
  rw [parseJCSDL_of_lines h1, parseJCSDL_of_lines h2, dropLast_append_singleton,
    dropLast_append_singleton]

/-- C20 at `normalisedDocument` and `reframedDocument`, which differ in their first and
last lines only. -/
theorem C20_frame_lines_are_ignored_witness :
    parseJCSDL sampleEnv normalisedDocument = parseJCSDL sampleEnv reframedDocument :=
  C20_frame_lines_are_ignored sampleEnv normalisedDocument reframedDocument
    "// JCSDL_VERSION 1.0".toList "// some other header".toList
    "// JCSDL_MASTER 48964c8d539805349f068f2195892aed AND".toList
    "// JCSDL_MASTER_END".toList []
    ["// JCSDL_START 60e902347a07b638cc0261a10b001869 twitter.user.id,greaterThan,18-2".toList,
     "twitter.user.id > 42".toList,
     "// JCSDL_END".toList]
    (by decide!) (by decide!)

end JCSDLParser
